import Mathlib

/-!
Verification development for the SBVH / BVH builders of the GPU-Pathtracer
repository (src/SBVHBuilder.cpp, src/BVHBuilder.cpp).

The builders are embedded shallowly over exact rational arithmetic (`ℚ` in
place of IEEE `float`; the float literals `10e-5`, `0.001` of the source are
modelled by the exact rationals `1/10000`, `1/1000`).  Code that lives in
headers absent from the repository snapshot (AABB algebra, `Triangle`,
`BVHPartitions`) is modelled from the specification document; every such
definition carries a doc comment starting with `Modelled from the spec:`.
Everything in `build_sbvh` / `build_bvh` themselves is transcribed from the
C++ sources.  `assert`s of the source are modelled as run-aborting guards
(the spec declares them fatal in release builds), except where a claim asks
that the asserted fact be *proved*, in which case the value is recorded in a
ghost trace and the bound is established as a theorem.
-/

/-! ## Geometry: vectors and axis-aligned bounding boxes -/

/-- Modelled from the spec: 3D point/vector with rational coordinates
(stands for the float `Vector3` of the missing header). -/
structure Vec3 where
  x : ℚ
  y : ℚ
  z : ℚ
deriving DecidableEq, Inhabited

/-- Component access, modelling `v[dimension]` of the C++ `Vector3`. -/
def Vec3.nth (v : Vec3) : Fin 3 → ℚ
  | 0 => v.x
  | 1 => v.y
  | 2 => v.z

/-- Replace one component (used to build per-bin slabs). -/
def Vec3.setNth (v : Vec3) : Fin 3 → ℚ → Vec3
  | 0, q => { v with x := q }
  | 1, q => { v with y := q }
  | 2, q => { v with z := q }

/-- Componentwise minimum. -/
def Vec3.cmin (a b : Vec3) : Vec3 := ⟨min a.x b.x, min a.y b.y, min a.z b.z⟩

/-- Componentwise maximum. -/
def Vec3.cmax (a b : Vec3) : Vec3 := ⟨max a.x b.x, max a.y b.y, max a.z b.z⟩

/-- Modelled from the spec: an AABB is a pair of 3D points `(min, max)`. -/
structure AABB where
  lo : Vec3
  hi : Vec3
deriving DecidableEq, Inhabited

/-- Modelled from the spec: `is_valid()` holds when `min ≤ max` componentwise. -/
def AABB.is_valid (b : AABB) : Bool :=
  decide (b.lo.x ≤ b.hi.x) && decide (b.lo.y ≤ b.hi.y) && decide (b.lo.z ≤ b.hi.z)

/-- Modelled from the spec: `surface_area()` returns
`2·(ex·ey + ey·ez + ez·ex)` on a valid box and `0` on a degenerate one. -/
def AABB.surface_area (b : AABB) : ℚ :=
  if b.is_valid then
    let ex := b.hi.x - b.lo.x
    let ey := b.hi.y - b.lo.y
    let ez := b.hi.z - b.lo.z
    2 * (ex * ey + ey * ez + ez * ex)
  else 0

/-- Modelled from the spec: `expand` by another box is the componentwise
min/max union. -/
def AABB.expand (b o : AABB) : AABB := ⟨Vec3.cmin b.lo o.lo, Vec3.cmax b.hi o.hi⟩

/-- Modelled from the spec: `overlap(a,b)` takes the componentwise max of
mins and min of maxes; the result may be an invalid (disjoint) box. -/
def AABB.overlap (a b : AABB) : AABB := ⟨Vec3.cmax a.lo b.lo, Vec3.cmin a.hi b.hi⟩

/-- Box containment, componentwise (`a` inside `b`). -/
def AABB.subset (a b : AABB) : Prop :=
  b.lo.x ≤ a.lo.x ∧ b.lo.y ≤ a.lo.y ∧ b.lo.z ≤ a.lo.z ∧
  a.hi.x ≤ b.hi.x ∧ a.hi.y ≤ b.hi.y ∧ a.hi.z ≤ b.hi.z

instance (a b : AABB) : Decidable (AABB.subset a b) := by
  unfold AABB.subset; infer_instance

/-- The degenerate box of a single point (used to witness non-empty
overlaps). -/
def ptBox (p : Vec3) : AABB := ⟨p, p⟩

/-- Modelled from the spec: a triangle exposes three vertex positions; its
AABB and centroid are derived from them. -/
structure Triangle where
  position_0 : Vec3
  position_1 : Vec3
  position_2 : Vec3
deriving Inhabited

/-- Modelled from the spec: the AABB of a triangle bounds its three
vertices (`from_points` over the vertex list). -/
def Triangle.aabb (t : Triangle) : AABB :=
  ⟨Vec3.cmin t.position_0 (Vec3.cmin t.position_1 t.position_2),
   Vec3.cmax t.position_0 (Vec3.cmax t.position_1 t.position_2)⟩

/-- Modelled from the spec: `get_center()` is the arithmetic mean of the
vertex coordinates. -/
def Triangle.get_center (t : Triangle) : Vec3 :=
  ⟨(t.position_0.x + t.position_1.x + t.position_2.x) / 3,
   (t.position_0.y + t.position_1.y + t.position_2.y) / 3,
   (t.position_0.z + t.position_1.z + t.position_2.z) / 3⟩

/-! ### Basic AABB algebra lemmas -/

theorem AABB.subset_refl (a : AABB) : a.subset a := by
  unfold AABB.subset; refine ⟨le_refl _, le_refl _, le_refl _, le_refl _, le_refl _, le_refl _⟩

theorem AABB.subset_trans {a b c : AABB} (h₁ : a.subset b) (h₂ : b.subset c) :
    a.subset c := by
  obtain ⟨p1, p2, p3, p4, p5, p6⟩ := h₁
  obtain ⟨q1, q2, q3, q4, q5, q6⟩ := h₂
  exact ⟨le_trans q1 p1, le_trans q2 p2, le_trans q3 p3,
         le_trans p4 q4, le_trans p5 q5, le_trans p6 q6⟩

theorem AABB.overlap_subset_left (a b : AABB) : (AABB.overlap a b).subset a := by
  unfold AABB.overlap AABB.subset Vec3.cmax Vec3.cmin
  refine ⟨le_max_left _ _, le_max_left _ _, le_max_left _ _,
          min_le_left _ _, min_le_left _ _, min_le_left _ _⟩

theorem AABB.subset_expand_left (a b : AABB) : a.subset (a.expand b) := by
  unfold AABB.expand AABB.subset Vec3.cmax Vec3.cmin
  refine ⟨min_le_left _ _, min_le_left _ _, min_le_left _ _,
          le_max_left _ _, le_max_left _ _, le_max_left _ _⟩

theorem AABB.subset_expand_right (a b : AABB) : b.subset (a.expand b) := by
  unfold AABB.expand AABB.subset Vec3.cmax Vec3.cmin
  refine ⟨min_le_right _ _, min_le_right _ _, min_le_right _ _,
          le_max_right _ _, le_max_right _ _, le_max_right _ _⟩

theorem AABB.expand_subset {a b c : AABB} (ha : a.subset c) (hb : b.subset c) :
    (a.expand b).subset c := by
  obtain ⟨p1, p2, p3, p4, p5, p6⟩ := ha
  obtain ⟨q1, q2, q3, q4, q5, q6⟩ := hb
  unfold AABB.expand AABB.subset Vec3.cmax Vec3.cmin
  refine ⟨le_min p1 q1, le_min p2 q2, le_min p3 q3,
          max_le p4 q4, max_le p5 q5, max_le p6 q6⟩

theorem AABB.is_valid_of_subset {a b : AABB} (h : a.subset b) (hv : a.is_valid) :
    b.is_valid := by
  obtain ⟨p1, p2, p3, p4, p5, p6⟩ := h
  unfold AABB.is_valid at hv ⊢
  simp only [Bool.and_eq_true, decide_eq_true_eq] at hv ⊢
  obtain ⟨⟨v1, v2⟩, v3⟩ := hv
  exact ⟨⟨le_trans p1 (le_trans v1 p4), le_trans p2 (le_trans v2 p5)⟩,
         le_trans p3 (le_trans v3 p6)⟩

theorem AABB.surface_area_nonneg (b : AABB) : 0 ≤ b.surface_area := by
  unfold AABB.surface_area
  split
  · next hv =>
    unfold AABB.is_valid at hv
    simp only [Bool.and_eq_true, decide_eq_true_eq] at hv
    obtain ⟨⟨v1, v2⟩, v3⟩ := hv
    have h1 : (0:ℚ) ≤ b.hi.x - b.lo.x := by linarith
    have h2 : (0:ℚ) ≤ b.hi.y - b.lo.y := by linarith
    have h3 : (0:ℚ) ≤ b.hi.z - b.lo.z := by linarith
    positivity
  · exact le_refl 0

theorem AABB.surface_area_mono {a b : AABB} (h : a.subset b) (hb : b.is_valid) :
    a.surface_area ≤ b.surface_area := by
  by_cases hav : a.is_valid
  · obtain ⟨p1, p2, p3, p4, p5, p6⟩ := h
    have hv := hav
    unfold AABB.is_valid at hv
    simp only [Bool.and_eq_true, decide_eq_true_eq] at hv
    obtain ⟨⟨a1, a2⟩, a3⟩ := hv
    unfold AABB.surface_area
    rw [if_pos hav, if_pos hb]
    simp only
    have e1 : a.hi.x - a.lo.x ≤ b.hi.x - b.lo.x := by linarith
    have e2 : a.hi.y - a.lo.y ≤ b.hi.y - b.lo.y := by linarith
    have e3 : a.hi.z - a.lo.z ≤ b.hi.z - b.lo.z := by linarith
    have n1 : (0:ℚ) ≤ a.hi.x - a.lo.x := by linarith
    have n2 : (0:ℚ) ≤ a.hi.y - a.lo.y := by linarith
    have n3 : (0:ℚ) ≤ a.hi.z - a.lo.z := by linarith
    nlinarith [mul_le_mul e1 e2 n2 (by linarith : (0:ℚ) ≤ b.hi.x - b.lo.x),
               mul_le_mul e2 e3 n3 (by linarith : (0:ℚ) ≤ b.hi.y - b.lo.y),
               mul_le_mul e3 e1 n1 (by linarith : (0:ℚ) ≤ b.hi.z - b.lo.z)]
  · have hz : a.surface_area = 0 := by
      unfold AABB.surface_area
      rw [if_neg hav]
    rw [hz]
    exact AABB.surface_area_nonneg b

/-! ## List helpers for the index arrays

The builder keeps three index arrays, one per axis, and works on the
sub-range `[first, first+count)` of each.  Arrays are modelled as `List Nat`
with functional slice/overwrite operations; `writeRange` pads on the right,
modelling the over-allocated C++ arrays. -/

/-- The sub-range `array[first .. first+count)`. -/
def sliceL (l : List Nat) (first count : Nat) : List Nat := (l.drop first).take count

/-- Overwrite `array[pos .. pos+|vals|)` with `vals` (models `memcpy` into an
over-allocated array; positions beyond the current length are padded). -/
def writeRange (l : List Nat) (pos : Nat) (vals : List Nat) : List Nat :=
  l.take pos ++ List.replicate (pos - l.length) 0 ++ vals ++ l.drop (pos + vals.length)

/-- Triangle lookup `triangles[i]`. -/
def triAt (tris : List Triangle) (i : Nat) : Triangle := tris.getD i default

/-- Canonical empty/inverted AABB (stands for the `FLT_MAX` sentinel box). -/
def AABB_NULL : AABB :=
  ⟨⟨(10:ℚ)^30, (10:ℚ)^30, (10:ℚ)^30⟩, ⟨-(10:ℚ)^30, -(10:ℚ)^30, -(10:ℚ)^30⟩⟩

/-- Union of a list of AABBs, folding `expand` from the first element (for a
nonempty list this equals the spec's `from_points`-style fold from the
infinite sentinel; the empty range yields the canonical invalid box). -/
def unionAll : List AABB → AABB
  | [] => AABB_NULL
  | b :: rest => rest.foldl AABB.expand b

/-- Modelled from the spec: `BVHPartitions::calculate_bounds` — the AABB of
the triangles referenced by `indexList[first .. first+count)`. -/
def calculate_bounds (tris : List Triangle) (indexList : List Nat)
    (first count : Nat) : AABB :=
  unionAll ((sliceL indexList first count).map (fun i => (triAt tris i).aabb))

/-! ## Object split search (spec-modelled `BVHPartitions::partition_object`) -/

/-- Result record of the object SAH sweep (`partition_object` returns the
split index and writes cost, dimension and the two child AABBs through out
parameters; `none` stands for the `-1` failure index). -/
structure ObjectSplit where
  cost : ℚ
  dimension : Fin 3
  index : Nat
  aabb_left : AABB
  aabb_right : AABB
deriving DecidableEq, Inhabited

/-- Running prefix unions: `prefixUnions b [b1, …] = [b, b∪b1, …]`. -/
def prefixUnions : AABB → List AABB → List AABB
  | acc, [] => [acc]
  | acc, b :: rest => acc :: prefixUnions (acc.expand b) rest

/-- Keep the first strict minimum of a candidate list (ties keep the earlier
candidate: earliest axis, then smallest split position). -/
def pickMinBy {α : Type} (cost : α → ℚ) : Option α → List α → Option α
  | best, [] => best
  | none, c :: rest => pickMinBy cost (some c) rest
  | some b, c :: rest => pickMinBy cost (some (if cost c < cost b then c else b)) rest

/-- SAH candidates of one axis: for each split position `i ∈ [1, n-1]`
(relative to `first`) the cost `i·A(left prefix) + (n-i)·A(right suffix)`. -/
def objectCandidates (bs : List AABB) (d : Fin 3) (first : Nat) : List ObjectSplit :=
  match bs, bs.reverse with
  | b0 :: rest, r0 :: rrest =>
    let n := bs.length
    let pre := prefixUnions b0 rest
    let suf := (prefixUnions r0 rrest).reverse
    (List.range (n - 1)).map (fun j =>
      let i := j + 1
      let al := pre.getD (i - 1) AABB_NULL
      let ar := suf.getD i AABB_NULL
      { cost := (i : ℚ) * al.surface_area + ((n - i : Nat) : ℚ) * ar.surface_area,
        dimension := d, index := first + i, aabb_left := al, aabb_right := ar })
  | _, _ => []

/-- Modelled from the spec: `BVHPartitions::partition_object` — sweep all
three axes over the pre-sorted ranges, minimum SAH cost wins, ties broken by
earliest axis then smallest index; requires `count ≥ 2` (otherwise the C++
returns `-1`, modelled as `none`). -/
def partition_object (tris : List Triangle) (idx : Fin 3 → List Nat)
    (first count : Nat) : Option ObjectSplit :=
  if count < 2 then none
  else
    let boxesOf : Fin 3 → List AABB := fun d =>
      (sliceL (idx d) first count).map (fun i => (triAt tris i).aabb)
    pickMinBy ObjectSplit.cost none
      (objectCandidates (boxesOf 0) 0 first ++
       objectCandidates (boxesOf 1) 1 first ++
       objectCandidates (boxesOf 2) 2 first)

/-- Modelled from the spec: `BVHPartitions::partition_sah` — the object SAH
sweep used by the plain BVH builder; the same search as `partition_object`
(the C++ variant simply omits the child-AABB out parameters). -/
def partition_sah (tris : List Triangle) (idx : Fin 3 → List Nat)
    (first count : Nat) : Option ObjectSplit :=
  partition_object tris idx first count

/-! ## Spatial split search (spec-modelled `BVHPartitions::partition_spatial`) -/

/-- Modelled from the spec: the fixed bin count `SBVH_BIN_COUNT`.  The spec
leaves the exact value open ("an implementation choice", "not prescribed";
the input contract only demands a positive integer of at least 2), so the
model fixes a small admissible value to keep concrete builds tractable for
kernel evaluation. -/
def SBVH_BIN_COUNT : Nat := 8

/-- C++ `int(q)` conversion: truncation toward zero. -/
def cppInt (q : ℚ) : Int := if 0 ≤ q then ⌊q⌋ else -⌊-q⌋

/-- Clamp a bin index into `[0, B-1]`. -/
def clampBin (B : Nat) (i : Int) : Nat := (max 0 (min i ((B : Int) - 1))).toNat

/-- One spatial bin: accumulated geometry plus entry/exit counters. -/
structure Bin where
  box : Option AABB
  entries : Nat
  exits : Nat
deriving Inhabited

/-- Expand an optional accumulated box. -/
def expandO : Option AABB → AABB → Option AABB
  | none, b => some b
  | some a, b => some (a.expand b)

/-- Union of two optional boxes. -/
def unionO : Option AABB → Option AABB → Option AABB
  | none, o => o
  | some a, none => some a
  | some a, some b => some (a.expand b)

/-- Surface area of an optional box (0 for the empty accumulator). -/
def surfaceAreaO : Option AABB → ℚ
  | none => 0
  | some b => b.surface_area

/-- Restrict a (clipped) AABB to the slab `[lo, hi]` of axis `d`. -/
def slabClip (clip : AABB) (d : Fin 3) (lo hi : ℚ) : AABB :=
  ⟨clip.lo.setNth d (max (clip.lo.nth d) lo),
   clip.hi.setNth d (min (clip.hi.nth d) hi)⟩

/-- Result record of the binned spatial split search. -/
structure SpatialSplit where
  cost : ℚ
  dimension : Fin 3
  index : Int
  aabb_left : AABB
  aabb_right : AABB
  count_left : Nat
  count_right : Nat
deriving DecidableEq, Inhabited

/-- Modelled from the spec: bin accumulation of `partition_spatial` along one
axis.  Each referenced triangle's AABB is clipped to the parent AABB; the
first/last bin come from the same `int(B·(x-min)/Δ)` mapping the builder
itself uses (clamped into range for array indexing); every touched bin's box
is expanded by the clipped AABB restricted to that bin's slab, the first bin
counts an entry and the last an exit. -/
def spatialBins (tris : List Triangle) (items : List Nat) (nodeAabb : AABB)
    (d : Fin 3) : Nat → Bin :=
  let B := SBVH_BIN_COUNT
  let bmin := nodeAabb.lo.nth d - 1/1000
  let bmax := nodeAabb.hi.nth d + 1/1000
  let delta := bmax - bmin
  let stepQ := delta / B
  items.foldl (fun bins i =>
    let clip := AABB.overlap (triAt tris i).aabb nodeAabb
    let bl := clampBin B (cppInt ((B : ℚ) * ((clip.lo.nth d - bmin) / delta)))
    let bh := clampBin B (cppInt ((B : ℚ) * ((clip.hi.nth d - bmin) / delta)))
    fun b =>
      let bin := bins b
      let piece := slabClip clip d (bmin + b * stepQ) (bmin + (b + 1) * stepQ)
      let bin := if bl ≤ b ∧ b ≤ bh ∧ b < B then
          { bin with box := expandO bin.box piece } else bin
      let bin := if b = bl then { bin with entries := bin.entries + 1 } else bin
      if b = bh then { bin with exits := bin.exits + 1 } else bin)
    (fun _ => (⟨none, 0, 0⟩ : Bin))

/-- Modelled from the spec: the plane sweep of `partition_spatial` along one
axis — for each of the `B-1` planes, prefix unions/entry counts on the left
and suffix unions/exit counts on the right give the SAH cost. -/
def spatialCandidates (tris : List Triangle) (items : List Nat)
    (nodeAabb : AABB) (d : Fin 3) : List SpatialSplit :=
  let B := SBVH_BIN_COUNT
  let bins := spatialBins tris items nodeAabb d
  let binList := (List.range B).map bins
  let ls := binList.scanl (fun a bn => unionO a bn.box) none
  let lcs := binList.scanl (fun a bn => a + bn.entries) 0
  let rs := (binList.reverse.scanl (fun a bn => unionO a bn.box) none).reverse
  let rcs := (binList.reverse.scanl (fun a bn => a + bn.exits) 0).reverse
  (List.range (B - 1)).map (fun j =>
    let p := j + 1
    let lbox := ls.getD p none
    let rbox := rs.getD p none
    let nL : Nat := lcs.getD p 0
    let nR : Nat := rcs.getD p 0
    { cost := surfaceAreaO lbox * (nL : ℚ) + surfaceAreaO rbox * (nR : ℚ),
      dimension := d, index := (p : Int),
      aabb_left := lbox.getD AABB_NULL, aabb_right := rbox.getD AABB_NULL,
      count_left := nL, count_right := nR })

/-- One pairwise reduction round of the balanced minimum: each pair keeps
its cheaper element, the earlier one on ties. -/
def minPairs {α : Type} (cost : α → ℚ) : List α → List α
  | a :: b :: rest => (if cost b < cost a then b else a) :: minPairs cost rest
  | l => l

/-- Balanced minimum of a candidate list (left-biased pairwise rounds, so
the result is the earliest element attaining the strict minimum — the same
selection `pickMinBy` makes, evaluated in logarithmic depth). -/
def treeMin {α : Type} (cost : α → ℚ) : Nat → List α → Option α
  | _, [] => none
  | 0, a :: _ => some a
  | _ + 1, [a] => some a
  | fuel + 1, l => treeMin cost fuel (minPairs cost l)

/-- Modelled from the spec: `BVHPartitions::partition_spatial` — best plane
over all three axes, minimum SAH cost, ties broken by earliest axis then
smallest plane index. -/
def partition_spatial (tris : List Triangle) (idx : Fin 3 → List Nat)
    (first count : Nat) (nodeAabb : AABB) : Option SpatialSplit :=
  let cands :=
    spatialCandidates tris (sliceL (idx 0) first count) nodeAabb 0 ++
    spatialCandidates tris (sliceL (idx 1) first count) nodeAabb 1 ++
    spatialCandidates tris (sliceL (idx 2) first count) nodeAabb 2
  treeMin SpatialSplit.cost cands.length cands

/-- One item's bin update of the spatial sweep (the loop body of
`partition_spatial`'s binning pass of `spatialBins`, factored out). -/
def spatialBinStep (tris : List Triangle) (nodeAabb : AABB) (d : Fin 3)
    (bins : Nat → Bin) (i : Nat) : Nat → Bin :=
  let B := SBVH_BIN_COUNT
  let bmin := nodeAabb.lo.nth d - 1/1000
  let bmax := nodeAabb.hi.nth d + 1/1000
  let delta := bmax - bmin
  let stepQ := delta / B
  let clip := AABB.overlap (triAt tris i).aabb nodeAabb
  let bl := clampBin B (cppInt ((B : ℚ) * ((clip.lo.nth d - bmin) / delta)))
  let bh := clampBin B (cppInt ((B : ℚ) * ((clip.hi.nth d - bmin) / delta)))
  fun b =>
    let bin := bins b
    let piece := slabClip clip d (bmin + b * stepQ) (bmin + (b + 1) * stepQ)
    let bin := if bl ≤ b ∧ b ≤ bh ∧ b < B then
        { bin with box := expandO bin.box piece } else bin
    let bin := if b = bl then { bin with entries := bin.entries + 1 } else bin
    if b = bh then { bin with exits := bin.exits + 1 } else bin

/-- The bin array of one axis of the spatial sweep, as a list (the
`bins[SBVH_BIN_COUNT]` array of `partition_spatial`). -/
def sweepBins (tris : List Triangle) (items : List Nat) (nodeAabb : AABB)
    (d : Fin 3) : List Bin :=
  (List.range SBVH_BIN_COUNT).map (spatialBins tris items nodeAabb d)

/-- The accumulated left box of the sweep at plane `p` (the prefix union of
the first `p` bin boxes — the `ls` accumulator of `spatialCandidates`). -/
def sweepLeftBox (tris : List Triangle) (items : List Nat) (nodeAabb : AABB)
    (d : Fin 3) (p : Nat) : Option AABB :=
  ((sweepBins tris items nodeAabb d).scanl (fun a bn => unionO a bn.box)
    none).getD p none

/-- The accumulated right box of the sweep at plane `p` (the suffix union of
the bin boxes from `p` on — the `rs` accumulator of `spatialCandidates`). -/
def sweepRightBox (tris : List Triangle) (items : List Nat) (nodeAabb : AABB)
    (d : Fin 3) (p : Nat) : Option AABB :=
  (((sweepBins tris items nodeAabb d).reverse.scanl
    (fun a bn => unionO a bn.box) none).reverse).getD p none

/-! ## The SBVH builder (transcribed from src/SBVHBuilder.cpp) -/

/-- Output node (the source's `BVHNode`): `left` doubles as `first` (they
share storage in C++); interior nodes store `(axis+1) <<< 30` in `count`,
leaves store the reference count there. -/
structure BVHNode where
  aabb : AABB
  left : Nat
  count : Nat
deriving DecidableEq, Inhabited

/-- The source constant `const float alpha = 10e-5` of SBVHBuilder.cpp
line 45 — note `10e-5` is `10·10⁻⁵ = 1/10000`. -/
def sbvh_alpha : ℚ := 10 / 100000

/-- Pointwise update of the node array. -/
def updNode (f : Nat → BVHNode) (i : Nat) (v : BVHNode) : Nat → BVHNode :=
  fun j => if j = i then v else f j

/-- Pointwise update of a boolean lookup table (the `temp` scratch arrays). -/
def updB (f : Nat → Bool) (i : Nat) (v : Bool) : Nat → Bool :=
  fun j => if j = i then v else f j

/-- Comparison against a possibly-infinite cost: `c ≤ s` where `none`
stands for the `INFINITY` initial value of `spatial_split_cost`. -/
def leInf (c : ℚ) : Option ℚ → Bool
  | none => true
  | some s => decide (c ≤ s)

/-- Equal-centroid tie resolution of the object split (SBVHBuilder.cpp lines
110-120): scan positions `j = split_index - 1, …` down the split-dimension
array while the centroid coordinate still equals the split coordinate; the
primitive goes left iff its reference occurs among them. -/
def tie_scan (tris : List Triangle) (arr : List Nat) (d : Fin 3) (split : ℚ)
    (first index : Nat) : Nat → Bool
  | 0 =>
    if 0 < first then false
    else if (triAt tris (arr.getD 0 0)).get_center.nth d = split then
      decide (arr.getD 0 0 = index)
    else false
  | j + 1 =>
    if j + 1 < first then false
    else if (triAt tris (arr.getD (j + 1) 0)).get_center.nth d = split then
      if arr.getD (j + 1) 0 = index then true
      else tie_scan tris arr d split first index j
    else false

/-- Left/right decision of the object-split reshuffle for one primitive
(SBVHBuilder.cpp lines 102-121). -/
def object_goes_left (tris : List Triangle) (splitArr : List Nat) (d : Fin 3)
    (split : ℚ) (first splitIndex index : Nat) : Bool :=
  let c := (triAt tris index).get_center.nth d
  if c < split then true
  else if c = split then tie_scan tris splitArr d split first index (splitIndex - 1)
  else false

/-- The data both partition branches hand to the recursion: per-dimension
left/right children index lists, their common lengths, and the two child
AABBs. -/
structure ChildrenData where
  childrenLeft : Fin 3 → List Nat
  childrenRight : Fin 3 → List Nat
  n_left : Nat
  n_right : Nat
  child_aabb_left : AABB
  child_aabb_right : AABB

/-- Object-split branch of `build_sbvh` (SBVHBuilder.cpp lines 92-144):
distribute every primitive of the range to exactly one side in each
dimension; the source's `assert`s (equal per-dimension counts, lines
132-133; `first + n_left == object_split_index`, line 140; `n_left +
n_right == index_count`, line 141) are fatal guards. -/
def object_partition_children (tris : List Triangle) (idx : Fin 3 → List Nat)
    (first count : Nat) (obj : ObjectSplit) : Option ChildrenData :=
  let d := obj.dimension
  let split := (triAt tris ((idx d).getD obj.index 0)).get_center.nth d
  let gl := fun i => object_goes_left tris (idx d) d split first obj.index i
  let cl := fun dim => (sliceL (idx dim) first count).filter gl
  let cr := fun dim => (sliceL (idx dim) first count).filter (fun i => !(gl i))
  if (cl 0).length = (cl 1).length ∧ (cl 1).length = (cl 2).length ∧
     (cr 0).length = (cr 1).length ∧ (cr 1).length = (cr 2).length ∧
     first + (cl 0).length = obj.index ∧
     (cl 0).length + (cr 0).length = count then
    some ⟨cl, cr, (cl 0).length, (cr 0).length, obj.aabb_left, obj.aabb_right⟩
  else none

/-- The left/right decision table of the object-split reshuffle (the local
`gl` of `object_partition_children`, SBVHBuilder.cpp lines 102-121). -/
def objGoesLeft (tris : List Triangle) (idx : Fin 3 → List Nat)
    (first : Nat) (obj : ObjectSplit) (i : Nat) : Bool :=
  object_goes_left tris (idx obj.dimension) obj.dimension
    ((triAt tris ((idx obj.dimension).getD obj.index 0)).get_center.nth
      obj.dimension) first obj.index i

/-- Running state of the spatial-split unsplit loop: the two (mutated) child
AABBs and the running reference counts `n_1`, `n_2` (floats in the source). -/
structure UnsplitState where
  aabbL : AABB
  aabbR : AABB
  n1 : ℚ
  n2 : ℚ
deriving Inhabited

/-- SAH cost of keeping the straddler on both sides
(`c_split`, SBVHBuilder.cpp line 221). -/
def c_split (s : UnsplitState) : ℚ :=
  s.aabbL.surface_area * s.n1 + s.aabbR.surface_area * s.n2

/-- SAH cost of sending the straddler exclusively left
(`c_1`, SBVHBuilder.cpp line 222). -/
def c_left_only (s : UnsplitState) (triangle_aabb : AABB) : ℚ :=
  (s.aabbL.expand triangle_aabb).surface_area * s.n1 +
    s.aabbR.surface_area * (s.n2 - 1)

/-- SAH cost of sending the straddler exclusively right
(`c_2`, SBVHBuilder.cpp line 223). -/
def c_right_only (s : UnsplitState) (triangle_aabb : AABB) : ℚ :=
  s.aabbL.surface_area * (s.n1 - 1) +
    (s.aabbR.expand triangle_aabb).surface_area * s.n2

/-- One straddler's unsplit decision (SBVHBuilder.cpp lines 209-251):
returns `(goes_left, goes_right)` together with the updated child AABBs and
running counts. -/
def unsplit_step (s : UnsplitState) (triangle_aabb : AABB) :
    Bool × Bool × UnsplitState :=
  let c1 := c_left_only s triangle_aabb
  let c2 := c_right_only s triangle_aabb
  let cs := c_split s
  if c1 < cs then
    if c2 < c1 then
      (false, true, { s with n1 := s.n1 - 1, aabbR := s.aabbR.expand triangle_aabb })
    else
      (true, false, { s with n2 := s.n2 - 1, aabbL := s.aabbL.expand triangle_aabb })
  else if c2 < cs then
    (false, true, { s with n1 := s.n1 - 1, aabbR := s.aabbR.expand triangle_aabb })
  else
    (true, true, s)

/-- Full loop state of the spatial-split classification pass: unsplit state,
the two boolean lookup tables (`temp[0]`, `temp[1]`), the rejected-reference
counters, and the accumulated truth of the `assert(goes_left || goes_right)`
of line 253. -/
structure SpatialLoopState where
  us : UnsplitState
  going_left : Nat → Bool
  going_right : Nat → Bool
  rejected_left : Nat
  rejected_right : Nat
  ok : Bool

/-- Classification of one primitive of the range during a spatial split
(SBVHBuilder.cpp lines 167-257): clip to the parent AABB, locate the
first/last bin, drop sides whose child AABB the clipped box does not
overlap, and run the unsplit heuristic on straddlers.  (The vertex sort of
lines 173-185 produces `vertex_min`/`vertex_max`, which the source never
reads afterwards; it is omitted.) -/
def spatial_item_step (tris : List Triangle) (nodeAabb : AABB) (d : Fin 3)
    (splitIndex : Int) (st : SpatialLoopState) (index : Nat) : SpatialLoopState :=
  let B := SBVH_BIN_COUNT
  let bmin := nodeAabb.lo.nth d - 1/1000
  let bmax := nodeAabb.hi.nth d + 1/1000
  let delta := bmax - bmin
  let clip := AABB.overlap (triAt tris index).aabb nodeAabb
  let bin_min := cppInt ((B : ℚ) * ((clip.lo.nth d - bmin) / delta))
  let bin_max := cppInt ((B : ℚ) * ((clip.hi.nth d - bmin) / delta))
  let goes_left := decide (bin_min < splitIndex)
  let goes_right := decide (splitIndex ≤ bin_max)
  let valid_left := (AABB.overlap clip st.us.aabbL).is_valid
  let valid_right := (AABB.overlap clip st.us.aabbR).is_valid
  let rejL := if goes_left && !valid_left then st.rejected_left + 1 else st.rejected_left
  let rejR := if goes_right && !valid_right then st.rejected_right + 1 else st.rejected_right
  let goes_left := goes_left && valid_left
  let goes_right := goes_right && valid_right
  if goes_left && goes_right then
    let r := unsplit_step st.us clip
    let gl := r.1
    let gr := r.2.1
    { us := r.2.2,
      going_left := updB st.going_left index gl,
      going_right := updB st.going_right index gr,
      rejected_left := if gl then rejL else rejL + 1,
      rejected_right := if gr then rejR else rejR + 1,
      ok := st.ok && (gl || gr) }
  else
    { us := st.us,
      going_left := updB st.going_left index goes_left,
      going_right := updB st.going_right index goes_right,
      rejected_left := rejL,
      rejected_right := rejR,
      ok := st.ok && (goes_left || goes_right) }

/-- Spatial-split branch of `build_sbvh` (SBVHBuilder.cpp lines 145-292):
classify the whole range, then rebuild the per-dimension children lists from
the lookup tables; the source's `assert`s (line 253 via the `ok` flag, and
lines 273-288) are fatal guards. -/
def spatial_partition_children (tris : List Triangle) (idx : Fin 3 → List Nat)
    (first count : Nat) (nodeAabb : AABB) (spat : SpatialSplit) :
    Option ChildrenData :=
  let d := spat.dimension
  let items := sliceL (idx d) first count
  let st0 : SpatialLoopState :=
    { us := { aabbL := spat.aabb_left, aabbR := spat.aabb_right,
              n1 := (spat.count_left : ℚ), n2 := (spat.count_right : ℚ) },
      going_left := fun _ => false, going_right := fun _ => false,
      rejected_left := 0, rejected_right := 0, ok := true }
  let st := items.foldl (spatial_item_step tris nodeAabb d spat.index) st0
  if !st.ok then none
  else
    let cl := fun dim => (sliceL (idx dim) first count).filter st.going_left
    let cr := fun dim => (sliceL (idx dim) first count).filter st.going_right
    if (cl 0).length = (cl 1).length ∧ (cl 1).length = (cl 2).length ∧
       (cr 0).length = (cr 1).length ∧ (cr 1).length = (cr 2).length ∧
       (cl 0).length + st.rejected_left = spat.count_left ∧
       (cr 0).length + st.rejected_right = spat.count_right ∧
       0 < (cl 0).length ∧ (cl 0).length < count ∧
       0 < (cr 0).length ∧ (cr 0).length < count ∧
       count ≤ (cl 0).length + (cr 0).length then
      some ⟨cl, cr, (cl 0).length, (cr 0).length, st.us.aabbL, st.us.aabbR⟩
    else none

/-- The final state of the spatial-split classification loop over a range
(the `st` of `spatial_partition_children`, SBVHBuilder.cpp lines 167-257). -/
def spatialClassify (tris : List Triangle) (idx : Fin 3 → List Nat)
    (first count : Nat) (nodeAabb : AABB) (spat : SpatialSplit) :
    SpatialLoopState :=
  (sliceL (idx spat.dimension) first count).foldl
    (spatial_item_step tris nodeAabb spat.dimension spat.index)
    { us := { aabbL := spat.aabb_left, aabbR := spat.aabb_right,
              n1 := (spat.count_left : ℚ), n2 := (spat.count_right : ℚ) },
      going_left := fun _ => false, going_right := fun _ => false,
      rejected_left := 0, rejected_right := 0, ok := true }

/-- Ghost record of one `build_sbvh` call (one per produced node): the call
arguments, both split candidates, the overlap ratio of line 48, the node
value written at `slot`, the `node_index` interval consumed by the subtree,
and the returned reference-slot count. -/
structure TraceEntry where
  slot : Nat
  first : Nat
  count : Nat
  aabb : AABB
  obj : Option ObjectSplit
  ratio : ℚ
  spat : Option SpatialSplit
  isLeaf : Bool
  node : BVHNode
  allocStart : Nat
  allocEnd : Nat
  ret : Nat
deriving DecidableEq, Inhabited

/-- Mutable state threaded through `build_sbvh`: the node array, the three
index arrays, the shared `node_index` counter, plus the ghost trace and the
ghost list of written node slots. -/
structure BState where
  nodes : Nat → BVHNode
  idx : Fin 3 → List Nat
  node_index : Nat
  trace : List TraceEntry
  written : List Nat

/-- Builder configuration: the `max_primitives_in_leaf` member and the
`SBVH_OVERALLOCATION` constant (both declared outside the provided
sources). -/
structure SBVHConfig where
  max_primitives_in_leaf : Nat
  overallocation : Nat
deriving Inhabited

/-- The overlap ratio of SBVHBuilder.cpp lines 37-48: the surface area of
the overlap of the two object-split child AABBs (0 when the overlap is
degenerate), divided by the root surface area (multiplication by the
precomputed `inv_root_surface_area`). -/
def overlap_ratio (obj : ObjectSplit) (inv_root : ℚ) : ℚ :=
  (if (AABB.overlap obj.aabb_left obj.aabb_right).is_valid then
    (AABB.overlap obj.aabb_left obj.aabb_right).surface_area
   else 0) * inv_root

/-- The gated spatial-split candidate of SBVHBuilder.cpp lines 52-60: only
computed when the overlap ratio exceeds `alpha`; otherwise the spatial cost
stays `INFINITY` (modelled as `none`). -/
def spatial_candidate (tris : List Triangle) (idx : Fin 3 → List Nat)
    (first count : Nat) (nodeAabb : AABB) (obj : ObjectSplit) (inv_root : ℚ) :
    Option SpatialSplit :=
  if overlap_ratio obj inv_root > sbvh_alpha then
    partition_spatial tris idx first count nodeAabb
  else none

/-- Write a leaf node `(first, count)` at `slot` (SBVHBuilder.cpp lines
13-16 and 66-67) and record its trace entry. -/
def mkLeaf (st : BState) (slot first count : Nat) (obj : Option ObjectSplit)
    (ratio : ℚ) (spat : Option SpatialSplit) : Nat × BState :=
  let node := st.nodes slot
  let leafNode : BVHNode := { node with left := first, count := count }
  (count,
    { st with nodes := updNode st.nodes slot leafNode,
              written := slot :: st.written,
              trace := { slot := slot, first := first, count := count,
                         aabb := node.aabb, obj := obj, ratio := ratio,
                         spat := spat, isLeaf := true, node := leafNode,
                         allocStart := st.node_index,
                         allocEnd := st.node_index, ret := count } :: st.trace })

/-- Write the interior node at `slot` and the two child AABBs into the
reserved slots `ni`, `ni+1` (SBVHBuilder.cpp lines 76-79 and 294-295). -/
def writeInterior (nodes : Nat → BVHNode) (slot ni : Nat) (node1 : BVHNode)
    (aL aR : AABB) : Nat → BVHNode :=
  let n1 := updNode nodes slot node1
  let n2 := updNode n1 ni { n1 ni with aabb := aL }
  updNode n2 (ni + 1) { n2 (ni + 1) with aabb := aR }

/-- The ghost trace entry recorded for an interior node. -/
def interiorEntry (slot first count : Nat) (aabb : AABB) (obj : ObjectSplit)
    (ratio : ℚ) (spat : Option SpatialSplit) (node1 : BVHNode)
    (ni niEnd ret : Nat) : TraceEntry :=
  { slot := slot, first := first, count := count, aabb := aabb,
    obj := some obj, ratio := ratio, spat := spat, isLeaf := false,
    node := node1, allocStart := ni, allocEnd := niEnd, ret := ret }

/-- `SBVHBuilder::build_sbvh` (SBVHBuilder.cpp lines 10-313), fuelled.
Returns the number of reference slots the subtree occupies together with
the updated state; `none` models a fatal `assert`/`abort` (or exhausted
fuel, which a sufficiently large initial fuel rules out). -/
def build_sbvh (cfg : SBVHConfig) (tris : List Triangle) (inv_root : ℚ) :
    Nat → Nat → Nat → Nat → BState → Option (Nat × BState)
  | 0, _, _, _, _ => none
  | fuel + 1, slot, first, count, st =>
    if count = 1 then
      -- lines 11-17: single-reference leaf
      some (mkLeaf st slot first count none 0 none)
    else
      match partition_object tris st.idx first count with
      | none => none   -- line 26: assert(object_split_index != -1)
      | some obj =>
        -- lines 37-50: overlap ratio (its `assert(ratio >= 0.0f && ratio <=
        -- 1.0f)` of line 50 is recorded in the trace and proved as a theorem)
        let ratio := overlap_ratio obj inv_root
        -- lines 52-60: spatial split candidate only above the alpha threshold
        let spat := spatial_candidate tris st.idx first count
          (st.nodes slot).aabb obj inv_root
        let scost : Option ℚ := spat.map SpatialSplit.cost
        let parent_cost := (st.nodes slot).aabb.surface_area * (count : ℚ)
        if decide (count ≤ cfg.max_primitives_in_leaf) &&
           decide (parent_cost ≤ obj.cost) && leInf parent_cost scost then
          -- lines 62-71: SAH termination, leaf
          some (mkLeaf st slot first count (some obj) ratio spat)
        else
          -- line 73: `if (object_split_cost == INFINITY && spatial_split_cost
          -- == INFINITY) abort();` — the object cost is a finite rational here
          -- by construction, so this abort cannot fire in the model.
          -- lines 76-79: reserve both child slots, record the axis tag
          let ni := st.node_index
          let tag := (obj.dimension.val + 1) <<< 30
          let node1 : BVHNode := { st.nodes slot with left := ni, count := tag }
          let cdOpt : Option ChildrenData :=
            if leInf obj.cost scost then
              object_partition_children tris st.idx first count obj
            else
              match spat with
              | some s => spatial_partition_children tris st.idx first count
                  (st.nodes slot).aabb s
              | none => none
          match cdOpt with
          | none => none
          | some cd =>
            -- lines 294-295 via `writeInterior`; the left children are
            -- written in place (children_left[d] = indices[d] + first_index,
            -- lines 81 and 124/267)
            let st1 : BState :=
              { nodes := writeInterior st.nodes slot ni node1
                  cd.child_aabb_left cd.child_aabb_right,
                idx := fun d => writeRange (st.idx d) first (cd.childrenLeft d),
                node_index := ni + 2,
                trace := st.trace,
                written := (ni + 1) :: ni :: slot :: st.written }
            -- line 298: depth-first recursion into the left child
            match build_sbvh cfg tris inv_root fuel ni first cd.n_left st1 with
            | none => none
            | some (retL, st2) =>
              -- lines 301-303: memcpy the right children after the left
              -- subtree's reference slots; line 306: recurse right
              match build_sbvh cfg tris inv_root fuel (ni + 1) (first + retL)
                  cd.n_right
                  { st2 with idx := fun d =>
                      writeRange (st2.idx d) (first + retL) (cd.childrenRight d) } with
              | none => none
              | some (retR, st3) =>
                let eSelf := interiorEntry slot first count (st.nodes slot).aabb
                  obj ratio spat node1 ni st3.node_index (retL + retR)
                some (retL + retR, { st3 with trace := eSelf :: st3.trace })

/-- Result of a whole build: node array with its count, reference count,
final index arrays, and the ghost trace/written-slot list. -/
structure BuildResult where
  nodes : Nat → BVHNode
  node_count : Nat
  index_count : Nat
  indices : Fin 3 → List Nat
  trace : List TraceEntry
  written : List Nat

/-- The per-axis centroid sort of the index arrays (SBVHBuilder.cpp lines
318-320; `std::sort` with a strict `<` comparator leaves the order of equal
keys unspecified — modelled as a stable sort, fixing one determinization). -/
def sortByCenter (tris : List Triangle) (d : Fin 3) (l : List Nat) : List Nat :=
  l.insertionSort (fun a b =>
    (triAt tris a).get_center.nth d ≤ (triAt tris b).get_center.nth d)

/-- The three index arrays at the start of a build: the identity sequence
`0..N`, sorted per axis by centroid (SBVHBuilder.cpp lines 318-322). -/
def initIdx (tris : List Triangle) : Fin 3 → List Nat :=
  fun d => sortByCenter tris d (List.range tris.length)

/-- The root AABB of a build (SBVHBuilder.cpp line 324). -/
def rootAabb (tris : List Triangle) : AABB :=
  calculate_bounds tris (initIdx tris 0) 0 tris.length

/-- The builder state at the start of the root call: root AABB seeded at
slot 0 and `node_index = 2` (SBVHBuilder.cpp lines 325-327). -/
def initState (tris : List Triangle) : BState :=
  { nodes := updNode (fun _ => default) 0
      { (default : BVHNode) with aabb := rootAabb tris },
    idx := initIdx tris, node_index := 2, trace := [], written := [0] }

/-- `SBVHBuilder::build` (SBVHBuilder.cpp lines 315-333): sort the three
index arrays by centroid, seed the root AABB, run the recursion from slot 0
with `node_index = 2`, abort when the over-allocation bound is exceeded. -/
def SBVHBuilder.build (cfg : SBVHConfig) (tris : List Triangle) : Option BuildResult :=
  match build_sbvh cfg tris ((rootAabb tris).surface_area)⁻¹ (tris.length + 1)
      0 0 tris.length (initState tris) with
  | none => none
  | some (ret, st) =>
    if st.node_index > cfg.overallocation * tris.length then none   -- line 330
    else some { nodes := st.nodes, node_count := st.node_index,
                index_count := ret, indices := st.idx,
                trace := st.trace, written := st.written }

/-! ## The plain BVH builder (transcribed from src/BVHBuilder.cpp) -/

/-- Modelled from the spec: `BVHPartitions::split_indices` — the three-way
in-place reshuffle of the plain BVH builder.  A primitive goes left exactly
under the same centroid/tie-scan rule the SBVH object split uses (spec
sections 4.2 and 4.4 step 6); each side keeps its per-axis sorted order,
using a scratch buffer per axis. -/
def split_indices (tris : List Triangle) (idx : Fin 3 → List Nat)
    (first count : Nat) (d : Fin 3) (splitIndex : Nat) (split : ℚ) :
    Fin 3 → List Nat :=
  let gl := fun i => object_goes_left tris (idx d) d split first splitIndex i
  fun dim =>
    let s := sliceL (idx dim) first count
    writeRange (idx dim) first (s.filter gl ++ s.filter (fun i => !(gl i)))

/-- Ghost record of one plain-BVH `build_bvh` call. -/
structure BTraceEntry where
  slot : Nat
  first : Nat
  count : Nat
  aabb : AABB
  split : Option ObjectSplit
  isLeaf : Bool
  node : BVHNode
  allocStart : Nat
  allocEnd : Nat
deriving Inhabited

/-- Mutable state threaded through the plain-BVH recursion. -/
structure PState where
  nodes : Nat → BVHNode
  idx : Fin 3 → List Nat
  node_index : Nat
  trace : List BTraceEntry
  written : List Nat

/-- The static `build_bvh` recursion (BVHBuilder.cpp lines 10-47), fuelled.
Note the source reserves both child slots (lines 21-22) *before* the SAH
termination check of line 30, so a SAH-terminated leaf permanently consumes
two node slots that are never written. -/
def build_bvh (tris : List Triangle) :
    Nat → Nat → Nat → Nat → PState → Option PState
  | 0, _, _, _, _ => none
  | fuel + 1, slot, first, count, st =>
    -- line 11: recompute the node AABB from dimension 0's range
    let aabb := calculate_bounds tris (st.idx 0) first count
    let node := { st.nodes slot with aabb := aabb }
    if count < 3 then
      -- lines 13-19: small leaf
      let node' := { node with left := first, count := count }
      some { st with nodes := updNode st.nodes slot node',
                     written := slot :: st.written,
                     trace := { slot := slot, first := first, count := count,
                                aabb := aabb, split := none, isLeaf := true,
                                node := node', allocStart := st.node_index,
                                allocEnd := st.node_index } :: st.trace }
    else
      -- lines 21-22: reserve both children before the SAH check
      let ni := st.node_index
      let node1 := { node with left := ni }
      match partition_sah tris st.idx first count with
      | none => none
      | some sp =>
        let parent_cost := aabb.surface_area * (count : ℚ)
        if parent_cost ≤ sp.cost then
          -- lines 30-35: SAH termination; the two reserved slots stay unused
          let node' := { node1 with left := first, count := count }
          some { st with nodes := updNode st.nodes slot node',
                         node_index := ni + 2,
                         written := slot :: st.written,
                         trace := { slot := slot, first := first, count := count,
                                    aabb := aabb, split := some sp, isLeaf := true,
                                    node := node', allocStart := ni,
                                    allocEnd := ni + 2 } :: st.trace }
        else
          -- lines 37-46: reshuffle and recurse on both children
          let split := (triAt tris ((st.idx sp.dimension).getD sp.index 0)).get_center.nth sp.dimension
          let idx1 := split_indices tris st.idx first count sp.dimension sp.index split
          let tag := (sp.dimension.val + 1) <<< 30
          let node' := { node1 with count := tag }
          let n_left := sp.index - first
          let n_right := first + count - sp.index
          let st1 : PState :=
            { nodes := updNode st.nodes slot node', idx := idx1,
              node_index := ni + 2, trace := st.trace,
              written := slot :: st.written }
          match build_bvh tris fuel ni first n_left st1 with
          | none => none
          | some st2 =>
            match build_bvh tris fuel (ni + 1) (first + n_left) n_right st2 with
            | none => none
            | some st3 =>
              some { st3 with trace :=
                                { slot := slot, first := first, count := count,
                                  aabb := aabb, split := some sp, isLeaf := false,
                                  node := node', allocStart := ni,
                                  allocEnd := st3.node_index } :: st3.trace }

/-- Result of a whole plain-BVH build (`bvh.indices` is the x index array,
`index_count = triangle_count`, BVHBuilder.cpp lines 76-83). -/
structure PBuildResult where
  nodes : Nat → BVHNode
  node_count : Nat
  index_count : Nat
  indices : List Nat
  trace : List BTraceEntry
  written : List Nat

/-- `BVHBuilders::build_bvh` (BVHBuilder.cpp lines 49-87): initialize and
sort the three index arrays, run the recursion from slot 0 with
`node_index = 2`, publish the x array as the reference list. -/
def initStateP (tris : List Triangle) : PState :=
  { nodes := fun _ => default, idx := initIdx tris, node_index := 2,
    trace := [], written := [] }

/-- The whole plain-BVH build, as described above. -/
def BVHBuilders_build_bvh (tris : List Triangle) : Option PBuildResult :=
  match build_bvh tris (tris.length + 1) 0 0 tris.length (initStateP tris) with
  | none => none
  | some st =>
    some { nodes := st.nodes, node_count := st.node_index,
           index_count := tris.length, indices := st.idx 0,
           trace := st.trace, written := st.written }

/-! ## Concrete scenes used by witnesses and counterexamples -/

/-- The single triangle of scenario S2. -/
def triS2 : Triangle := ⟨⟨0, 0, 0⟩, ⟨1, 0, 0⟩, ⟨0, 1, 0⟩⟩

/-- Two disjoint triangles separated along x. -/
def sceneDisjoint : List Triangle :=
  [⟨⟨0, 0, 0⟩, ⟨1, 0, 0⟩, ⟨0, 1, 1⟩⟩,
   ⟨⟨10, 0, 0⟩, ⟨11, 0, 0⟩, ⟨10, 1, 1⟩⟩]

/-- Three triangles sharing the x and z extents, with centroids spread on y
and triangle 2 spanning the whole y range: the object split prefers axis 0
(tie-break) while a spatial split on axis 1 is strictly cheaper. -/
def sceneSpanY : List Triangle :=
  [⟨⟨0, 0, 0⟩, ⟨1, 2, 0⟩, ⟨1/2, 1, 1⟩⟩,
   ⟨⟨0, 8, 0⟩, ⟨1, 10, 0⟩, ⟨1/2, 9, 1⟩⟩,
   ⟨⟨0, 0, 0⟩, ⟨1, 10, 0⟩, ⟨1/2, 5, 1⟩⟩]

/-- Three coincident triangles: every object split costs exactly the parent
leaf cost. -/
def sceneCoincident : List Triangle :=
  [⟨⟨0, 0, 0⟩, ⟨1, 1, 0⟩, ⟨1/2, 1/2, 1⟩⟩,
   ⟨⟨0, 0, 0⟩, ⟨1, 1, 0⟩, ⟨1/2, 1/2, 1⟩⟩,
   ⟨⟨0, 0, 0⟩, ⟨1, 1, 0⟩, ⟨1/2, 1/2, 1⟩⟩]

/-- Two triangles with a tiny x overlap of width 1/10000: the object-split
children overlap with ratio 1/20000 of the root area — above the spec's
1e-5 threshold but below the code's `10e-5 = 1e-4`. -/
def sceneTinyOverlap : List Triangle :=
  [⟨⟨0, 0, 0⟩, ⟨1, 0, 0⟩, ⟨0, 1, 0⟩⟩,
   ⟨⟨9999/10000, 0, 0⟩, ⟨2, 0, 0⟩, ⟨2, 1, 0⟩⟩]

/-- Configuration with a leaf cap of 2 (over-allocation bound 16·N). -/
def cfg2 : SBVHConfig := ⟨2, 16⟩

/-- Configuration with a leaf cap of 4 (over-allocation bound 16·N). -/
def cfg4 : SBVHConfig := ⟨4, 16⟩

/-! ## List and partition helper lemmas -/

/-- Sum of leaf reference counts over a trace fragment. -/
def leafSum (td : List TraceEntry) : Nat :=
  (td.map (fun e => if e.isLeaf then e.count else 0)).sum

/-- The SAH cost of the split the builder chose at an interior node: the
object cost when `object_split_cost ≤ spatial_split_cost` (with `none`
standing for `INFINITY`), the spatial cost otherwise. -/
def chosenCost (e : TraceEntry) : ℚ :=
  match e.obj, e.spat with
  | some o, some s => if o.cost ≤ s.cost then o.cost else s.cost
  | some o, none => o.cost
  | none, _ => 0

/-- Per-entry facts guaranteed for every ghost trace entry of a successful
`build_sbvh` subtree (`td` is the trace fragment the subtree produced,
`stf` the state after the subtree). -/
def EntryOK (cfg : SBVHConfig) (stf : BState) (td : List TraceEntry)
    (e : TraceEntry) : Prop :=
  stf.nodes e.slot = e.node ∧
  (e.isLeaf = false →
    ∃ o, e.obj = some o ∧
      e.node.left = e.allocStart ∧
      e.slot < e.node.left ∧
      e.node.count = (o.dimension.val + 1) <<< 30 ∧
      (∃ el ∈ td, el.slot = e.node.left) ∧
      (∃ er ∈ td, er.slot = e.node.left + 1) ∧
      (e.count ≤ cfg.max_primitives_in_leaf →
        chosenCost e < e.aabb.surface_area * (e.count : ℚ))) ∧
  (2 ≤ e.count → ∃ o, e.obj = some o ∧ (e.spat.isSome ↔ sbvh_alpha < e.ratio))

/-- Full postcondition of one successful `build_sbvh` call. -/
def BuildOut (cfg : SBVHConfig) (slot first count : Nat) (st : BState)
    (ret : Nat) (stf : BState) : Prop :=
  st.node_index ≤ stf.node_index ∧
  (∀ s, s ≠ slot → (s < st.node_index ∨ stf.node_index ≤ s) →
    stf.nodes s = st.nodes s) ∧
  ∃ td wd,
    stf.trace = td ++ st.trace ∧
    stf.written = wd ++ st.written ∧
    (∀ s, s ∈ wd ↔ (s = slot ∨ (st.node_index ≤ s ∧ s < stf.node_index))) ∧
    ret = leafSum td ∧
    count ≤ ret ∧
    (∃ e ∈ td, e.slot = slot ∧ e.first = first ∧ e.count = count ∧
      e.aabb = (st.nodes slot).aabb ∧ e.allocStart = st.node_index ∧
      e.allocEnd = stf.node_index ∧ e.ret = ret) ∧
    (∀ e ∈ td,
      (e.slot = slot ∨ (st.node_index ≤ e.slot ∧ e.slot < stf.node_index)) ∧
      EntryOK cfg stf td e)

/-- All triangle references of the working ranges lie inside the root box. -/
def RangeInRoot (tris : List Triangle) (rootBox : AABB) (idx : Fin 3 → List Nat)
    (first count : Nat) : Prop :=
  ∀ d : Fin 3, ∀ v ∈ sliceL (idx d) first count,
    ((triAt tris v).aabb).subset rootBox

/-- Per-entry facts for the plain-BVH ghost trace: interior nodes were
created only after the strict SAH comparison of BVHBuilder.cpp line 30,
point into the subtree's own trace fragment for both children, and keep the
pre-order slot ordering. -/
def PEntryOK (stf : PState) (td : List BTraceEntry) (e : BTraceEntry) : Prop :=
  stf.nodes e.slot = e.node ∧
  (e.isLeaf = false →
    ∃ o, e.split = some o ∧
      e.node.left = e.allocStart ∧
      e.slot < e.node.left ∧
      e.node.count = (o.dimension.val + 1) <<< 30 ∧
      (∃ el ∈ td, el.slot = e.node.left) ∧
      (∃ er ∈ td, er.slot = e.node.left + 1) ∧
      o.cost < e.aabb.surface_area * (e.count : ℚ))

/-- Postcondition of one successful plain-BVH `build_bvh` call.  Besides the
frame and accounting facts this records the allocation interval of every
trace entry and that the two slots a SAH-terminated leaf reserves
(BVHBuilder.cpp lines 21-22, before the termination check of line 30) are
never among the written slots of the subtree. -/
def PBuildOut (slot first count : Nat) (st : PState) (stf : PState) : Prop :=
  st.node_index ≤ stf.node_index ∧
  stf.node_index + 2 ≤ st.node_index + 2 * max count 1 ∧
  (∀ s, s ≠ slot → (s < st.node_index ∨ stf.node_index ≤ s) →
    stf.nodes s = st.nodes s) ∧
  (∀ d, (stf.idx d).length = (st.idx d).length) ∧
  ∃ td wd,
    stf.trace = td ++ st.trace ∧
    stf.written = wd ++ st.written ∧
    (∀ s, s ∈ wd → (s = slot ∨ (st.node_index ≤ s ∧ s < stf.node_index))) ∧
    (∀ e ∈ td, st.node_index ≤ e.allocStart ∧ e.allocStart ≤ e.allocEnd ∧
      e.allocEnd ≤ stf.node_index) ∧
    (∀ e ∈ td, e.isLeaf = true → e.allocEnd = e.allocStart + 2 →
      e.allocStart ∉ wd ∧ e.allocStart + 1 ∉ wd) ∧
    (∃ e ∈ td, e.slot = slot ∧ e.first = first ∧ e.count = count ∧
      e.allocStart = st.node_index ∧ e.allocEnd = stf.node_index) ∧
    (∀ e ∈ td,
      (e.slot = slot ∨ (st.node_index ≤ e.slot ∧ e.slot < stf.node_index)) ∧
      PEntryOK stf td e)

/-- Three coincident degenerate (collinear) triangles: every box of the
build has surface area 0, so every SAH comparison degenerates to `0 < 0`,
and the child-overlap box is flat, so no spatial candidate is computed. -/
def sceneFlat : List Triangle :=
  [⟨⟨0, 0, 0⟩, ⟨1, 0, 0⟩, ⟨1/2, 0, 0⟩⟩,
   ⟨⟨0, 0, 0⟩, ⟨1, 0, 0⟩, ⟨1/2, 0, 0⟩⟩,
   ⟨⟨0, 0, 0⟩, ⟨1, 0, 0⟩, ⟨1/2, 0, 0⟩⟩]

/-- The trace entry of the root call of a successful SBVH build (the root
entry is recorded last, hence first in the trace list). -/
def rootEntry (cfg : SBVHConfig) (tris : List Triangle) : Option TraceEntry :=
  (SBVHBuilder.build cfg tris).bind (fun r => r.trace.head?)

/-- The result of a successful SBVH build (a junk record otherwise). -/
def buildOf (cfg : SBVHConfig) (tris : List Triangle) : BuildResult :=
  (SBVHBuilder.build cfg tris).getD
    ⟨fun _ => default, 0, 0, fun _ => [], [], []⟩

/-- The root trace entry of the two-disjoint-triangle build. -/
def eDisjoint : TraceEntry := (buildOf cfg2 sceneDisjoint).trace.headD default

/-- The object-split dimension recorded in a trace entry (3 when the entry
became a leaf before the split search ran). -/
def objDim (e : TraceEntry) : Nat :=
  (e.obj.map (fun o => o.dimension.val)).getD 3

/-- The object split of the root range of the disjoint scene. -/
def objDisjoint : ObjectSplit :=
  (partition_object sceneDisjoint (initIdx sceneDisjoint) 0 2).getD default

/-- Its children data. -/
def cdDisjoint : ChildrenData :=
  (object_partition_children sceneDisjoint (initIdx sceneDisjoint) 0 2
    objDisjoint).getD ⟨fun _ => [], fun _ => [], 0, 0, AABB_NULL, AABB_NULL⟩

/-- The result of a successful plain-BVH build (a junk record otherwise). -/
def pbuildOf (tris : List Triangle) : PBuildResult :=
  (BVHBuilders_build_bvh tris).getD ⟨fun _ => default, 0, 0, [], [], []⟩

theorem writeRange_length (l : List Nat) (pos : Nat) (vals : List Nat) :
    (writeRange l pos vals).length = max l.length (pos + vals.length) := by
  unfold writeRange
  simp only [List.length_append, List.length_take, List.length_replicate,
    List.length_drop]
  omega

theorem sliceL_writeRange (l : List Nat) (pos : Nat) (vals : List Nat) :
    sliceL (writeRange l pos vals) pos vals.length = vals := by
  unfold sliceL writeRange
  have hlen : (l.take pos ++ List.replicate (pos - l.length) 0).length = pos := by
    simp only [List.length_append, List.length_take, List.length_replicate]
    omega
  rw [List.append_assoc, List.drop_append_of_le_length (le_of_eq hlen.symm)]
  rw [List.drop_eq_nil_of_le (le_of_eq hlen)]
  simp

theorem sliceL_length_of_le (l : List Nat) (first count : Nat)
    (h : first + count ≤ l.length) : (sliceL l first count).length = count := by
  unfold sliceL
  simp only [List.length_take, List.length_drop]
  omega

theorem sliceL_length_le (l : List Nat) (first count : Nat) :
    (sliceL l first count).length ≤ count := by
  unfold sliceL
  simp only [List.length_take, List.length_drop]
  omega

theorem mem_of_mem_sliceL {x : Nat} {l : List Nat} {first count : Nat}
    (h : x ∈ sliceL l first count) : x ∈ l := by
  unfold sliceL at h
  exact List.mem_of_mem_drop (List.mem_of_mem_take h)

theorem leafSum_append (a b : List TraceEntry) :
    leafSum (a ++ b) = leafSum a + leafSum b := by
  unfold leafSum
  rw [List.map_append, List.sum_append]

theorem leafSum_cons (e : TraceEntry) (b : List TraceEntry) :
    leafSum (e :: b) = (if e.isLeaf then e.count else 0) + leafSum b := by
  unfold leafSum
  simp

/-- `pickMinBy` starting from an accumulator returns the accumulator or a
list member. -/
theorem pickMinBy_mem {α : Type} (cost : α → ℚ) :
    ∀ (l : List α) (acc : Option α) (r : α),
      pickMinBy cost acc l = some r → acc = some r ∨ r ∈ l := by
  intro l
  induction l with
  | nil =>
    intro acc r h
    simp only [pickMinBy] at h
    exact Or.inl h
  | cons c rest ih =>
    intro acc r h
    match acc with
    | none =>
      simp only [pickMinBy] at h
      rcases ih (some c) r h with h' | h'
      · simp only [Option.some.injEq] at h'
        exact Or.inr (h' ▸ List.mem_cons_self c rest)
      · exact Or.inr (List.mem_cons_of_mem _ h')
    | some b =>
      simp only [pickMinBy] at h
      rcases ih _ r h with h' | h'
      · simp only [Option.some.injEq] at h'
        by_cases hc : cost c < cost b
        · rw [if_pos hc] at h'
          exact Or.inr (h' ▸ List.mem_cons_self c rest)
        · rw [if_neg hc] at h'
          exact Or.inl (congrArg some h')
      · exact Or.inr (List.mem_cons_of_mem _ h')

/-- `pickMinBy` succeeds on a nonempty candidate list. -/
theorem pickMinBy_isSome {α : Type} (cost : α → ℚ) :
    ∀ (l : List α) (acc : Option α), acc.isSome ∨ l ≠ [] →
      (pickMinBy cost acc l).isSome := by
  intro l
  induction l with
  | nil =>
    intro acc h
    rcases h with h | h
    · simpa [pickMinBy] using h
    · exact absurd rfl h
  | cons c rest ih =>
    intro acc h
    match acc with
    | none => exact ih (some c) (Or.inl rfl)
    | some b => exact ih _ (Or.inl rfl)

/-- Every object candidate's split index is strictly inside the range. -/
theorem objectCandidates_index {bs : List AABB} {d : Fin 3} {first : Nat}
    {c : ObjectSplit} (h : c ∈ objectCandidates bs d first) :
    first < c.index ∧ c.index < first + bs.length := by
  unfold objectCandidates at h
  rcases hbs : bs with _ | ⟨b0, rest⟩
  · subst hbs; simp at h
  rcases hrev : bs.reverse with _ | ⟨r0, rrest⟩
  · rw [← List.reverse_reverse bs, hrev] at hbs; simp at hbs
  rw [hbs] at h
  rw [hbs] at hrev
  rw [hrev] at h
  simp only [List.mem_map, List.mem_range] at h
  obtain ⟨j, hj, hc⟩ := h
  subst hc
  simp only
  constructor
  · omega
  · simp only [List.length_cons] at hj ⊢
    omega

/-- A successful `partition_object` splits strictly inside `[first,
first+count)` (given the index arrays cover the range). -/
theorem partition_object_index {tris : List Triangle} {idx : Fin 3 → List Nat}
    {first count : Nat} {obj : ObjectSplit}
    (h : partition_object tris idx first count = some obj)
    (hlen : ∀ d, first + count ≤ (idx d).length) :
    first < obj.index ∧ obj.index < first + count := by
  unfold partition_object at h
  split at h
  · exact absurd h (by simp)
  · next hc =>
    have hmem := pickMinBy_mem ObjectSplit.cost _ none obj h
    rcases hmem with h' | h'
    · exact absurd h' (by simp)
    · simp only [List.mem_append] at h'
      have hslice : ∀ d : Fin 3,
          ((sliceL (idx d) first count).map (fun i => (triAt tris i).aabb)).length = count := by
        intro d
        rw [List.length_map, sliceL_length_of_le _ _ _ (hlen d)]
      rcases h' with (h' | h') | h' <;>
        · have := objectCandidates_index h'
          rw [hslice] at this
          exact this

/-- `partition_object` succeeds whenever the range holds at least two
primitives (and the arrays cover the range). -/
theorem partition_object_isSome {tris : List Triangle} {idx : Fin 3 → List Nat}
    {first count : Nat} (hc : 2 ≤ count)
    (hlen : first + count ≤ (idx 0).length) :
    (partition_object tris idx first count).isSome := by
  unfold partition_object
  rw [if_neg (by omega)]
  apply pickMinBy_isSome
  refine Or.inr ?_
  intro hnil
  have h0 : ((sliceL (idx 0) first count).map (fun i => (triAt tris i).aabb)).length = count := by
    rw [List.length_map, sliceL_length_of_le _ _ _ hlen]
  rcases hbs : (sliceL (idx 0) first count).map (fun i => (triAt tris i).aabb) with _ | ⟨b0, rest⟩
  · rw [hbs] at h0; simp at h0; omega
  · rcases hrev : (b0 :: rest).reverse with _ | ⟨r0, rrest⟩
    · have := congrArg List.length hrev; simp at this
    · have hne : objectCandidates (b0 :: rest) 0 first ≠ [] := by
        unfold objectCandidates
        rw [hrev]
        simp only [ne_eq, List.map_eq_nil_iff, List.range_eq_nil]
        have : (b0 :: rest).length = count := by rw [← hbs, h0]
        omega
      simp only [List.append_eq_nil] at hnil
      rw [hbs] at hnil
      exact hne hnil.1.1

/-! ## Support lemmas for the builder state -/

theorem updNode_self (f : Nat → BVHNode) (i : Nat) (v : BVHNode) :
    updNode f i v i = v := by simp [updNode]

theorem updNode_ne (f : Nat → BVHNode) (i : Nat) (v : BVHNode) {j : Nat}
    (h : j ≠ i) : updNode f i v j = f j := by simp [updNode, h]

theorem writeInterior_frame {nodes : Nat → BVHNode} {slot ni : Nat}
    {node1 : BVHNode} {aL aR : AABB} {s : Nat}
    (h1 : s ≠ slot) (h2 : s ≠ ni) (h3 : s ≠ ni + 1) :
    writeInterior nodes slot ni node1 aL aR s = nodes s := by
  unfold writeInterior
  rw [updNode_ne _ _ _ h3, updNode_ne _ _ _ h2, updNode_ne _ _ _ h1]

theorem writeInterior_slot {nodes : Nat → BVHNode} {slot ni : Nat}
    {node1 : BVHNode} {aL aR : AABB}
    (h1 : slot ≠ ni) (h2 : slot ≠ ni + 1) :
    writeInterior nodes slot ni node1 aL aR slot = node1 := by
  unfold writeInterior
  rw [updNode_ne _ _ _ h2, updNode_ne _ _ _ h1, updNode_self]

theorem minPairs_ne_nil {α : Type} (cost : α → ℚ) (l : List α) (h : l ≠ []) :
    minPairs cost l ≠ [] := by
  match l with
  | [] => exact absurd rfl h
  | [a] => simp [minPairs]
  | a :: b :: rest => simp [minPairs]

theorem treeMin_isSome {α : Type} (cost : α → ℚ) :
    ∀ (fuel : Nat) (l : List α), l ≠ [] → (treeMin cost fuel l).isSome
  | 0, [], h => absurd rfl h
  | 0, _ :: _, _ => rfl
  | _ + 1, [], h => absurd rfl h
  | _ + 1, [_], _ => rfl
  | fuel + 1, a :: b :: rest, _ => by
    show (treeMin cost fuel (minPairs cost (a :: b :: rest))).isSome
    exact treeMin_isSome cost fuel _ (minPairs_ne_nil cost _ (by simp))

/-- `partition_spatial` always returns a candidate (the plane sweep is over
the fixed, nonempty list of `SBVH_BIN_COUNT - 1` planes). -/
theorem partition_spatial_isSome (tris : List Triangle) (idx : Fin 3 → List Nat)
    (first count : Nat) (nodeAabb : AABB) :
    (partition_spatial tris idx first count nodeAabb).isSome := by
  unfold partition_spatial
  apply treeMin_isSome
  intro h
  simp only [List.append_eq_nil] at h
  have h0 := h.1.1
  unfold spatialCandidates at h0
  simp only [List.map_eq_nil_iff, List.range_eq_nil, SBVH_BIN_COUNT] at h0
  omega

theorem object_partition_children_count {tris : List Triangle}
    {idx : Fin 3 → List Nat} {first count : Nat} {obj : ObjectSplit}
    {cd : ChildrenData}
    (h : object_partition_children tris idx first count obj = some cd) :
    cd.n_left + cd.n_right = count := by
  unfold object_partition_children at h
  simp only [] at h
  split at h
  · next hg =>
    simp only [Option.some.injEq] at h
    subst h
    exact hg.2.2.2.2.2
  · exact absurd h (by simp)

theorem spatial_partition_children_count {tris : List Triangle}
    {idx : Fin 3 → List Nat} {first count : Nat} {nodeAabb : AABB}
    {spat : SpatialSplit} {cd : ChildrenData}
    (h : spatial_partition_children tris idx first count nodeAabb spat = some cd) :
    count ≤ cd.n_left + cd.n_right := by
  unfold spatial_partition_children at h
  simp only [] at h
  split at h
  · exact absurd h (by simp)
  · split at h
    · next hg =>
      simp only [Option.some.injEq] at h
      subst h
      exact hg.2.2.2.2.2.2.2.2.2.2
    · exact absurd h (by simp)

theorem EntryOK_mono {cfg : SBVHConfig} {stA stB : BState}
    {tdA tdB : List TraceEntry} {e : TraceEntry}
    (h : EntryOK cfg stA tdA e)
    (hn : stB.nodes e.slot = stA.nodes e.slot)
    (hsub : ∀ x, x ∈ tdA → x ∈ tdB) :
    EntryOK cfg stB tdB e := by
  obtain ⟨h1, h2, h3⟩ := h
  refine ⟨hn.trans h1, ?_, h3⟩
  intro hl
  obtain ⟨o, ho, ha, hb, hc, ⟨el, helm, hel⟩, ⟨er, herm, her⟩, hd⟩ := h2 hl
  exact ⟨o, ho, ha, hb, hc, ⟨el, hsub el helm, hel⟩, ⟨er, hsub er herm, her⟩, hd⟩

/-- Both leaf branches of `build_sbvh` satisfy the call postcondition. -/
theorem mkLeaf_buildOut (cfg : SBVHConfig) (st : BState)
    (slot first count : Nat) (obj : Option ObjectSplit) (ratio : ℚ)
    (spat : Option SpatialSplit)
    (hfacts : 2 ≤ count → ∃ o, obj = some o ∧ (spat.isSome ↔ sbvh_alpha < ratio)) :
    BuildOut cfg slot first count st (mkLeaf st slot first count obj ratio spat).1
      (mkLeaf st slot first count obj ratio spat).2 := by
  unfold mkLeaf BuildOut
  dsimp only
  refine ⟨le_refl _, ?_, ?_⟩
  · intro s hne _
    exact updNode_ne _ _ _ hne
  refine ⟨[⟨slot, first, count, (st.nodes slot).aabb, obj, ratio, spat, true,
    { st.nodes slot with left := first, count := count },
    st.node_index, st.node_index, count⟩], [slot], rfl, rfl, ?_, ?_, le_refl _, ?_, ?_⟩
  · intro s
    simp only [List.mem_singleton]
    constructor
    · intro h; exact Or.inl h
    · intro h
      rcases h with h | h
      · exact h
      · omega
  · simp [leafSum]
  · refine ⟨_, List.mem_singleton_self _, rfl, rfl, rfl, rfl, rfl, rfl, rfl⟩
  · intro e he
    simp only [List.mem_singleton] at he
    subst he
    refine ⟨Or.inl rfl, ?_, ?_, ?_⟩
    · exact updNode_self _ _ _
    · intro hfalse
      simp at hfalse
    · intro h2
      obtain ⟨o, ho, hiff⟩ := hfacts h2
      exact ⟨o, ho, hiff⟩

/-- The gated spatial candidate exists iff the overlap ratio clears the
code's `alpha` threshold. -/
theorem spatial_candidate_isSome_iff (tris : List Triangle)
    (idx : Fin 3 → List Nat) (first count : Nat) (nodeAabb : AABB)
    (obj : ObjectSplit) (inv_root : ℚ) :
    (spatial_candidate tris idx first count nodeAabb obj inv_root).isSome ↔
      sbvh_alpha < overlap_ratio obj inv_root := by
  unfold spatial_candidate
  split
  · next hgt => exact iff_of_true (partition_spatial_isSome _ _ _ _ _) hgt
  · next hgt => exact iff_of_false (by simp) hgt

/-- When the SAH-leaf condition fails although the leaf cap admits a leaf,
the winning split cost is strictly below the parent (leaf) cost. -/
theorem chosen_lt_parent {cfg : SBVHConfig} {count : Nat} {o : ObjectSplit}
    {spat : Option SpatialSplit} {p : ℚ}
    (hcond : ¬(decide (count ≤ cfg.max_primitives_in_leaf) &&
      decide (p ≤ o.cost) && leInf p (spat.map SpatialSplit.cost)) = true)
    (hmax : count ≤ cfg.max_primitives_in_leaf)
    {e : TraceEntry} (hobj : e.obj = some o) (hspat : e.spat = spat) :
    chosenCost e < p := by
  have hnand : ¬(p ≤ o.cost ∧ leInf p (spat.map SpatialSplit.cost) = true) := by
    intro hand
    exact hcond (by simp [hmax, hand.1, hand.2])
  rcases spat with _ | s
  · have hred : chosenCost e = o.cost := by
      simp only [chosenCost, hobj, hspat]
    have h1 : ¬(p ≤ o.cost) := by
      intro hle
      exact hnand ⟨hle, by simp [leInf]⟩
    rw [hred]
    exact lt_of_not_le h1
  · have hred : chosenCost e = if o.cost ≤ s.cost then o.cost else s.cost := by
      simp only [chosenCost, hobj, hspat]
    rw [hred]
    by_cases hpo : p ≤ o.cost
    · have h2 : ¬(p ≤ s.cost) := by
        intro hps
        exact hnand ⟨hpo, by simp [leInf, hps]⟩
      have h2' := lt_of_not_le h2
      by_cases hos : o.cost ≤ s.cost
      · rw [if_pos hos]; linarith
      · rw [if_neg hos]; linarith
    · have h1' := lt_of_not_le hpo
      by_cases hos : o.cost ≤ s.cost
      · rw [if_pos hos]; linarith
      · rw [if_neg hos]
        have := lt_of_not_le hos
        linarith

/-- Master specification of `build_sbvh`, by induction on the fuel: a
successful call advances the allocation counter, writes exactly its own
slot plus the freshly allocated block, extends the trace/written lists by
fragments satisfying the per-entry facts, and returns at least `count`
reference slots, equal to the sum of the produced leaf counts. -/
theorem build_sbvh_spec (cfg : SBVHConfig) (tris : List Triangle)
    (inv_root : ℚ) :
    ∀ (fuel : Nat), ∀ (slot first count : Nat) (st : BState) (ret : Nat)
      (stf : BState),
      build_sbvh cfg tris inv_root fuel slot first count st = some (ret, stf) →
      slot < st.node_index →
      BuildOut cfg slot first count st ret stf := by
  intro fuel
  induction fuel with
  | zero =>
    intro slot first count st ret stf h hs
    simp [build_sbvh] at h
  | succ fuel ih =>
    intro slot first count st ret stf h hs
    simp only [build_sbvh] at h
    split at h
    · next hc1 =>
      simp only [Option.some.injEq] at h
      have hb := mkLeaf_buildOut cfg st slot first count none 0 none
        (fun h2 => absurd h2 (by omega))
      rw [h] at hb
      exact hb
    · next hc1 =>
      split at h
      · exact absurd h (by simp)
      · next obj hobj =>
        split at h
        · next hcond =>
          simp only [Option.some.injEq] at h
          have hb := mkLeaf_buildOut cfg st slot first count (some obj)
            (overlap_ratio obj inv_root)
            (spatial_candidate tris st.idx first count (st.nodes slot).aabb obj inv_root)
            (fun _ => ⟨obj, rfl, spatial_candidate_isSome_iff _ _ _ _ _ _ _⟩)
          rw [h] at hb
          exact hb
        · next hcond =>
          split at h
          · exact absurd h (by simp)
          · next cd hcd =>
            split at h
            · exact absurd h (by simp)
            · next retL st2 hL =>
              split at h
              · exact absurd h (by simp)
              · next retR st3 hR =>
                simp only [Option.some.injEq, Prod.mk.injEq] at h
                obtain ⟨hret, hstf⟩ := h
                subst hret
                subst hstf
                set SPAT := spatial_candidate tris st.idx first count
                  (st.nodes slot).aabb obj inv_root with hSPAT
                clear_value SPAT
                set nd1 : BVHNode := { st.nodes slot with left := st.node_index, count := (obj.dimension.val + 1) <<< 30 } with hnd1
                have hcnt : count ≤ cd.n_left + cd.n_right := by
                  split at hcd
                  · exact le_of_eq (object_partition_children_count hcd).symm
                  · split at hcd
                    · exact spatial_partition_children_count hcd
                    · exact absurd hcd (by simp)
                have ihL := ih st.node_index first cd.n_left _ retL st2 hL
                  (by show st.node_index < st.node_index + 2; omega)
                obtain ⟨ihL1, ihLf, tdL, wdL, htL, hwL, hwLi, hretL, hcntL,
                  ⟨eL, heLm, heL1, heL2, heL3, heL4, heL5, heL6, heL7⟩, hallL⟩ := ihL
                have h12 : st.node_index + 2 ≤ st2.node_index := ihL1
                have htL' : st2.trace = tdL ++ st.trace := htL
                have hwL' : st2.written = wdL ++
                    ((st.node_index + 1) :: st.node_index :: slot :: st.written) := hwL
                have hwLi' : ∀ s, s ∈ wdL ↔ (s = st.node_index ∨
                    (st.node_index + 2 ≤ s ∧ s < st2.node_index)) := hwLi
                have ihR := ih (st.node_index + 1) (first + retL) cd.n_right _ retR st3 hR
                  (by show st.node_index + 1 < st2.node_index; omega)
                obtain ⟨ihR1, ihRf, tdR, wdR, htR, hwR, hwRi, hretR, hcntR,
                  ⟨eR, heRm, heR1, heR2, heR3, heR4, heR5, heR6, heR7⟩, hallR⟩ := ihR
                have h23 : st2.node_index ≤ st3.node_index := ihR1
                have htR' : st3.trace = tdR ++ st2.trace := htR
                have hwR' : st3.written = wdR ++ st2.written := hwR
                have hwRi' : ∀ s, s ∈ wdR ↔ (s = st.node_index + 1 ∨
                    (st2.node_index ≤ s ∧ s < st3.node_index)) := hwRi
                have ihRf' : ∀ s, s ≠ st.node_index + 1 →
                    (s < st2.node_index ∨ st3.node_index ≤ s) →
                    st3.nodes s = st2.nodes s := ihRf
                set eS : TraceEntry := interiorEntry slot first count
                  (st.nodes slot).aabb obj (overlap_ratio obj inv_root) SPAT nd1
                  st.node_index st3.node_index (retL + retR) with heS
                unfold BuildOut
                dsimp only
                refine ⟨by show st.node_index ≤ st3.node_index; omega, ?_, ?_⟩
                · -- frame condition
                  intro s hne hrange
                  have hrange' : s < st.node_index ∨ st3.node_index ≤ s := hrange
                  have hA : st3.nodes s = st2.nodes s :=
                    ihRf' s (by omega) (by omega)
                  have hB := ihLf s (by omega)
                    (show s < st.node_index + 2 ∨ st2.node_index ≤ s by omega)
                  show st3.nodes s = st.nodes s
                  rw [hA, hB]
                  exact writeInterior_frame hne (by omega) (by omega)
                refine ⟨eS :: (tdR ++ tdL),
                  (wdR ++ wdL) ++ [st.node_index + 1, st.node_index, slot],
                  ?_, ?_, ?_, ?_, ?_, ?_, ?_⟩
                · show eS :: st3.trace = (eS :: (tdR ++ tdL)) ++ st.trace
                  rw [htR', htL']
                  simp [List.append_assoc]
                · show st3.written = ((wdR ++ wdL) ++
                    [st.node_index + 1, st.node_index, slot]) ++ st.written
                  rw [hwR', hwL']
                  simp [List.append_assoc]
                · intro s
                  simp only [List.mem_append, List.mem_cons,
                    List.not_mem_nil, or_false]
                  rw [hwRi' s, hwLi' s]
                  show _ ↔ (s = slot ∨ (st.node_index ≤ s ∧ s < st3.node_index))
                  omega
                · show retL + retR = leafSum (eS :: (tdR ++ tdL))
                  rw [leafSum_cons, leafSum_append]
                  have hE : eS.isLeaf = false := by rw [heS]; rfl
                  rw [hE]
                  simp only [Bool.false_eq_true, if_false]
                  omega
                · show count ≤ retL + retR
                  omega
                · refine ⟨eS, List.mem_cons_self _ _, ?_, ?_, ?_, ?_, ?_, ?_, ?_⟩ <;>
                    (rw [heS]; rfl)
                · intro e he
                  rcases List.mem_cons.1 he with heq | hin
                  · subst heq
                    refine ⟨Or.inl (by rw [heS]; rfl), ?_, ?_, ?_⟩
                    · have hslot : eS.slot = slot := by rw [heS]; rfl
                      have hnode : eS.node = nd1 := by rw [heS]; rfl
                      rw [hslot, hnode]
                      show st3.nodes slot = nd1
                      rw [ihRf' slot (by omega) (by omega),
                        ihLf slot (by omega)
                          (show slot < st.node_index + 2 ∨ st2.node_index ≤ slot by omega)]
                      exact writeInterior_slot (by omega) (by omega)
                    · intro _
                      refine ⟨obj, by rw [heS]; rfl, ?_, ?_, ?_, ?_, ?_, ?_⟩
                      · show nd1.left = st.node_index
                        rw [hnd1]
                      · show eS.slot < nd1.left
                        have hslot : eS.slot = slot := by rw [heS]; rfl
                        rw [hslot, hnd1]
                        exact hs
                      · show nd1.count = (obj.dimension.val + 1) <<< 30
                        rw [hnd1]
                      · exact ⟨eL, List.mem_cons_of_mem _ (List.mem_append_right _ heLm),
                          heL1⟩
                      · exact ⟨eR, List.mem_cons_of_mem _ (List.mem_append_left _ heRm),
                          heR1⟩
                      · intro hmax
                        have hmax' : count ≤ cfg.max_primitives_in_leaf := hmax
                        show chosenCost eS <
                          (st.nodes slot).aabb.surface_area * (count : ℚ)
                        exact chosen_lt_parent hcond hmax'
                          (by rw [heS]; rfl) (by rw [heS]; rfl)
                    · intro _
                      refine ⟨obj, by rw [heS]; rfl, ?_⟩
                      show SPAT.isSome ↔ sbvh_alpha < overlap_ratio obj inv_root
                      rw [hSPAT]
                      exact spatial_candidate_isSome_iff _ _ _ _ _ _ _
                  · rcases List.mem_append.1 hin with hinR | hinL
                    · obtain ⟨hsl, hok⟩ := hallR e hinR
                      have hslR : e.slot = st.node_index + 1 ∨
                          (st2.node_index ≤ e.slot ∧ e.slot < st3.node_index) := hsl
                      refine ⟨Or.inr ?_, ?_⟩
                      · rcases hslR with h' | h' <;> omega
                      · exact EntryOK_mono hok rfl
                          (fun x hx => List.mem_cons_of_mem _ (List.mem_append_left _ hx))
                    · obtain ⟨hsl, hok⟩ := hallL e hinL
                      have hsl' : e.slot = st.node_index ∨
                          (st.node_index + 2 ≤ e.slot ∧ e.slot < st2.node_index) := hsl
                      refine ⟨Or.inr (by rcases hsl' with h' | h' <;> omega), ?_⟩
                      refine EntryOK_mono hok ?_
                        (fun x hx => List.mem_cons_of_mem _ (List.mem_append_right _ hx))
                      show st3.nodes e.slot = st2.nodes e.slot
                      exact ihRf' e.slot (by rcases hsl' with h' | h' <;> omega)
                        (by rcases hsl' with h' | h' <;> omega)

/-! ## Geometric bounds for the overlap ratio (claim C10) -/

theorem prefixUnions_length (acc : AABB) (l : List AABB) :
    (prefixUnions acc l).length = l.length + 1 := by
  induction l generalizing acc with
  | nil => rfl
  | cons b rest ih => simp [prefixUnions, ih]

theorem prefixUnions_subset {C : AABB} :
    ∀ (l : List AABB) (acc : AABB), acc.subset C → (∀ b ∈ l, b.subset C) →
      ∀ x ∈ prefixUnions acc l, x.subset C := by
  intro l
  induction l with
  | nil =>
    intro acc hacc _ x hx
    simp only [prefixUnions, List.mem_singleton] at hx
    exact hx ▸ hacc
  | cons b rest ih =>
    intro acc hacc hl x hx
    simp only [prefixUnions, List.mem_cons] at hx
    rcases hx with rfl | hx
    · exact hacc
    · exact ih (acc.expand b) (AABB.expand_subset hacc (hl b (List.mem_cons_self _ _)))
        (fun y hy => hl y (List.mem_cons_of_mem _ hy)) x hx

theorem objectCandidates_subset {C : AABB} {bs : List AABB} {d : Fin 3}
    {first : Nat} {c : ObjectSplit} (hc : c ∈ objectCandidates bs d first)
    (hall : ∀ b ∈ bs, b.subset C) :
    c.aabb_left.subset C ∧ c.aabb_right.subset C := by
  unfold objectCandidates at hc
  rcases hbs : bs with _ | ⟨b0, rest⟩
  · subst hbs; simp at hc
  rcases hrev : bs.reverse with _ | ⟨r0, rrest⟩
  · rw [← List.reverse_reverse bs, hrev] at hbs; simp at hbs
  rw [hbs] at hc hrev
  rw [hbs] at hall
  rw [hrev] at hc
  simp only [List.mem_map, List.mem_range] at hc
  obtain ⟨j, hj, hcq⟩ := hc
  subst hcq
  have hpre : ∀ x ∈ prefixUnions b0 rest, x.subset C :=
    prefixUnions_subset rest b0 (hall b0 (List.mem_cons_self _ _))
      (fun y hy => hall y (List.mem_cons_of_mem _ hy))
  have hrevall : ∀ b ∈ (b0 :: rest).reverse, b.subset C := by
    intro b hb
    exact hall b (List.mem_reverse.1 hb)
  rw [hrev] at hrevall
  have hsuf : ∀ x ∈ prefixUnions r0 rrest, x.subset C :=
    prefixUnions_subset rrest r0 (hrevall r0 (List.mem_cons_self _ _))
      (fun y hy => hrevall y (List.mem_cons_of_mem _ hy))
  have hlenpre : (prefixUnions b0 rest).length = rest.length + 1 :=
    prefixUnions_length _ _
  have hlensuf : (prefixUnions r0 rrest).length = rrest.length + 1 :=
    prefixUnions_length _ _
  have hlenrev : rrest.length + 1 = rest.length + 1 := by
    have := congrArg List.length hrev
    simp at this
    omega
  simp only [List.length_cons] at hj
  constructor
  · apply hpre
    have hlt : j < (prefixUnions b0 rest).length := by omega
    rw [show j + 1 - 1 = j from rfl, List.getD_eq_getElem _ _ hlt]
    exact List.getElem_mem _
  · apply hsuf
    have hlt : j + 1 < (prefixUnions r0 rrest).reverse.length := by
      simp only [List.length_reverse]
      omega
    rw [List.getD_eq_getElem _ _ hlt]
    exact List.mem_reverse.1 (List.getElem_mem _)

/-- The object-split child AABBs are contained in any box containing every
triangle AABB of the working ranges. -/
theorem partition_object_subset {C : AABB} {tris : List Triangle}
    {idx : Fin 3 → List Nat} {first count : Nat} {obj : ObjectSplit}
    (h : partition_object tris idx first count = some obj)
    (hall : ∀ d : Fin 3, ∀ v ∈ sliceL (idx d) first count,
      ((triAt tris v).aabb).subset C) :
    obj.aabb_left.subset C ∧ obj.aabb_right.subset C := by
  unfold partition_object at h
  split at h
  · exact absurd h (by simp)
  · have hmem := pickMinBy_mem ObjectSplit.cost _ none obj h
    rcases hmem with h' | h'
    · exact absurd h' (by simp)
    · have hboxes : ∀ d : Fin 3,
          ∀ b ∈ (sliceL (idx d) first count).map (fun i => (triAt tris i).aabb),
            b.subset C := by
        intro d b hb
        simp only [List.mem_map] at hb
        obtain ⟨v, hv, rfl⟩ := hb
        exact hall d v hv
      simp only [List.mem_append] at h'
      rcases h' with (h' | h') | h'
      · exact objectCandidates_subset h' (hboxes 0)
      · exact objectCandidates_subset h' (hboxes 1)
      · exact objectCandidates_subset h' (hboxes 2)

/-- Bound on the overlap ratio: a valid overlap of the object-split children
is contained in the root box, so the ratio lies in `[0, 1]`. -/
theorem overlap_ratio_bounds {obj : ObjectSplit} {rootBox : AABB}
    (hL : obj.aabb_left.subset rootBox) :
    0 ≤ overlap_ratio obj (rootBox.surface_area)⁻¹ ∧
      overlap_ratio obj (rootBox.surface_area)⁻¹ ≤ 1 := by
  unfold overlap_ratio
  split
  · next hv =>
    have hsub : (AABB.overlap obj.aabb_left obj.aabb_right).subset rootBox :=
      AABB.subset_trans (AABB.overlap_subset_left _ _) hL
    have hnn : (0:ℚ) ≤ (AABB.overlap obj.aabb_left obj.aabb_right).surface_area :=
      AABB.surface_area_nonneg _
    by_cases hz : rootBox.surface_area = 0
    · rw [hz]
      simp
    · have hpos : 0 < rootBox.surface_area :=
        lt_of_le_of_ne (AABB.surface_area_nonneg _) (Ne.symm hz)
      have hrv : rootBox.is_valid := by
        by_contra hnv
        have : rootBox.surface_area = 0 := by
          unfold AABB.surface_area
          rw [if_neg hnv]
        exact hz this
      have hle : (AABB.overlap obj.aabb_left obj.aabb_right).surface_area ≤
          rootBox.surface_area := AABB.surface_area_mono hsub hrv
      constructor
      · positivity
      · rw [← div_eq_mul_inv]
        exact div_le_one_of_le₀ hle (le_of_lt hpos)
  · simp

/-- Values of the object-split children lists come from the parent range,
and the per-dimension lists have the recorded lengths. -/
theorem object_partition_children_sub {tris : List Triangle}
    {idx : Fin 3 → List Nat} {first count : Nat} {obj : ObjectSplit}
    {cd : ChildrenData}
    (h : object_partition_children tris idx first count obj = some cd) :
    (∀ d, (cd.childrenLeft d).length = cd.n_left ∧
      (cd.childrenRight d).length = cd.n_right) ∧
    (∀ d, ∀ v ∈ cd.childrenLeft d, v ∈ sliceL (idx d) first count) ∧
    (∀ d, ∀ v ∈ cd.childrenRight d, v ∈ sliceL (idx d) first count) := by
  unfold object_partition_children at h
  simp only [] at h
  split at h
  · next hg =>
    simp only [Option.some.injEq] at h
    subst h
    refine ⟨?_, ?_, ?_⟩
    · intro d
      fin_cases d
      · exact ⟨rfl, rfl⟩
      · exact ⟨hg.1.symm, hg.2.2.1.symm⟩
      · exact ⟨(hg.1.trans hg.2.1).symm, (hg.2.2.1.trans hg.2.2.2.1).symm⟩
    · intro d v hv
      exact List.mem_of_mem_filter hv
    · intro d v hv
      exact List.mem_of_mem_filter hv
  · exact absurd h (by simp)

/-- Same extraction for the spatial-split children. -/
theorem spatial_partition_children_sub {tris : List Triangle}
    {idx : Fin 3 → List Nat} {first count : Nat} {nodeAabb : AABB}
    {spat : SpatialSplit} {cd : ChildrenData}
    (h : spatial_partition_children tris idx first count nodeAabb spat = some cd) :
    (∀ d, (cd.childrenLeft d).length = cd.n_left ∧
      (cd.childrenRight d).length = cd.n_right) ∧
    (∀ d, ∀ v ∈ cd.childrenLeft d, v ∈ sliceL (idx d) first count) ∧
    (∀ d, ∀ v ∈ cd.childrenRight d, v ∈ sliceL (idx d) first count) := by
  unfold spatial_partition_children at h
  simp only [] at h
  split at h
  · exact absurd h (by simp)
  · split at h
    · next hg =>
      simp only [Option.some.injEq] at h
      subst h
      refine ⟨?_, ?_, ?_⟩
      · intro d
        fin_cases d
        · exact ⟨rfl, rfl⟩
        · exact ⟨hg.1.symm, hg.2.2.1.symm⟩
        · exact ⟨(hg.1.trans hg.2.1).symm, (hg.2.2.1.trans hg.2.2.2.1).symm⟩
      · intro d v hv
        exact List.mem_of_mem_filter hv
      · intro d v hv
        exact List.mem_of_mem_filter hv
    · exact absurd h (by simp)

/-- The overlap ratio of every trace entry lies in `[0, 1]` whenever the
working ranges only reference triangles inside the root box — the
`assert(ratio >= 0.0f && ratio <= 1.0f)` of SBVHBuilder.cpp line 50. -/
theorem build_sbvh_ratio (cfg : SBVHConfig) (tris : List Triangle)
    (rootBox : AABB) :
    ∀ (fuel slot first count : Nat) (st : BState) (ret : Nat) (stf : BState),
      build_sbvh cfg tris (rootBox.surface_area)⁻¹ fuel slot first count st =
        some (ret, stf) →
      RangeInRoot tris rootBox st.idx first count →
      (∀ e ∈ st.trace, 0 ≤ e.ratio ∧ e.ratio ≤ 1) →
      ∀ e ∈ stf.trace, 0 ≤ e.ratio ∧ e.ratio ≤ 1 := by
  intro fuel
  induction fuel with
  | zero =>
    intro slot first count st ret stf h
    simp [build_sbvh] at h
  | succ fuel ih =>
    intro slot first count st ret stf h hrange htr
    simp only [build_sbvh] at h
    split at h
    · next hc1 =>
      simp only [Option.some.injEq] at h
      have hstf2 : stf = (mkLeaf st slot first count none 0 none).2 :=
        (congrArg Prod.snd h).symm
      rw [hstf2]
      intro e he
      unfold mkLeaf at he
      simp only [List.mem_cons] at he
      rcases he with rfl | he
      · exact ⟨le_refl _, by norm_num⟩
      · exact htr e he
    · next hc1 =>
      split at h
      · exact absurd h (by simp)
      · next obj hobj =>
        have hbound : 0 ≤ overlap_ratio obj (rootBox.surface_area)⁻¹ ∧
            overlap_ratio obj (rootBox.surface_area)⁻¹ ≤ 1 :=
          overlap_ratio_bounds (partition_object_subset hobj hrange).1
        split at h
        · next hcond =>
          simp only [Option.some.injEq] at h
          have hstf2 : stf = (mkLeaf st slot first count (some obj)
              (overlap_ratio obj (rootBox.surface_area)⁻¹)
              (spatial_candidate tris st.idx first count (st.nodes slot).aabb obj
                (rootBox.surface_area)⁻¹)).2 :=
            (congrArg Prod.snd h).symm
          rw [hstf2]
          intro e he
          unfold mkLeaf at he
          simp only [List.mem_cons] at he
          rcases he with rfl | he
          · exact hbound
          · exact htr e he
        · next hcond =>
          split at h
          · exact absurd h (by simp)
          · next cd hcd =>
            have hsub : (∀ d, (cd.childrenLeft d).length = cd.n_left ∧
                  (cd.childrenRight d).length = cd.n_right) ∧
                (∀ d, ∀ v ∈ cd.childrenLeft d, v ∈ sliceL (st.idx d) first count) ∧
                (∀ d, ∀ v ∈ cd.childrenRight d, v ∈ sliceL (st.idx d) first count) := by
              split at hcd
              · exact object_partition_children_sub hcd
              · split at hcd
                · exact spatial_partition_children_sub hcd
                · exact absurd hcd (by simp)
            split at h
            · exact absurd h (by simp)
            · next retL st2 hL =>
              split at h
              · exact absurd h (by simp)
              · next retR st3 hR =>
                simp only [Option.some.injEq, Prod.mk.injEq] at h
                obtain ⟨hret, hstf⟩ := h
                have hL2 := ih st.node_index first cd.n_left _ retL st2 hL
                  (by
                    intro d v hv
                    have hv' : v ∈ sliceL
                        (writeRange (st.idx d) first (cd.childrenLeft d))
                        first cd.n_left := hv
                    rw [← (hsub.1 d).1, sliceL_writeRange] at hv'
                    exact hrange d v (hsub.2.1 d v hv'))
                  htr
                have hR2 := ih (st.node_index + 1) (first + retL) cd.n_right _
                  retR st3 hR
                  (by
                    intro d v hv
                    have hv' : v ∈ sliceL
                        (writeRange (st2.idx d) (first + retL) (cd.childrenRight d))
                        (first + retL) cd.n_right := hv
                    rw [← (hsub.1 d).2, sliceL_writeRange] at hv'
                    exact hrange d v (hsub.2.2 d v hv'))
                  hL2
                rw [← hstf]
                intro e he
                simp only [List.mem_cons] at he
                rcases he with rfl | he
                · exact hbound
                · exact hR2 e he

/-! ## Root-level facts -/

theorem foldl_expand_subset_self (l : List AABB) :
    ∀ acc : AABB, acc.subset (l.foldl AABB.expand acc) := by
  induction l with
  | nil => intro acc; exact AABB.subset_refl acc
  | cons b rest ih =>
    intro acc
    exact AABB.subset_trans (AABB.subset_expand_left acc b) (ih (acc.expand b))

theorem mem_subset_foldl_expand {b : AABB} :
    ∀ (l : List AABB) (acc : AABB), b ∈ l → b.subset (l.foldl AABB.expand acc) := by
  intro l
  induction l with
  | nil =>
    intro acc h
    simp at h
  | cons c rest ih =>
    intro acc h
    rcases List.mem_cons.1 h with rfl | h'
    · exact AABB.subset_trans (AABB.subset_expand_right acc b)
        (foldl_expand_subset_self rest (acc.expand b))
    · exact ih (acc.expand c) h'

theorem mem_subset_unionAll {b : AABB} {l : List AABB} (h : b ∈ l) :
    b.subset (unionAll l) := by
  rcases l with _ | ⟨a, rest⟩
  · simp at h
  · rcases List.mem_cons.1 h with rfl | h'
    · exact foldl_expand_subset_self rest b
    · exact mem_subset_foldl_expand rest a h'

theorem sliceL_full (l : List Nat) : sliceL l 0 l.length = l := by
  unfold sliceL
  simp

theorem initIdx_perm (tris : List Triangle) (d : Fin 3) :
    (initIdx tris d).Perm (List.range tris.length) := by
  unfold initIdx sortByCenter
  exact List.perm_insertionSort _ _

theorem initIdx_length (tris : List Triangle) (d : Fin 3) :
    (initIdx tris d).length = tris.length := by
  rw [(initIdx_perm tris d).length_eq, List.length_range]

/-- At the root call every referenced triangle AABB is inside the root box. -/
theorem build_rangeInRoot (tris : List Triangle) :
    RangeInRoot tris (rootAabb tris) (initIdx tris) 0 tris.length := by
  intro d v hv
  have hv1 : v ∈ initIdx tris d := mem_of_mem_sliceL hv
  have hv2 : v ∈ List.range tris.length := (initIdx_perm tris d).mem_iff.1 hv1
  have hv3 : v ∈ initIdx tris 0 := (initIdx_perm tris 0).mem_iff.2 hv2
  unfold rootAabb calculate_bounds
  apply mem_subset_unionAll
  rw [show tris.length = (initIdx tris 0).length from (initIdx_length tris 0).symm,
    sliceL_full]
  exact List.mem_map_of_mem _ hv3

/-- Inversion of a successful `SBVHBuilder::build`. -/
theorem SBVHBuilder_build_inv {cfg : SBVHConfig} {tris : List Triangle}
    {r : BuildResult} (h : SBVHBuilder.build cfg tris = some r) :
    ∃ ret st,
      build_sbvh cfg tris ((rootAabb tris).surface_area)⁻¹ (tris.length + 1)
        0 0 tris.length (initState tris) = some (ret, st) ∧
      st.node_index ≤ cfg.overallocation * tris.length ∧
      r.nodes = st.nodes ∧ r.node_count = st.node_index ∧
      r.index_count = ret ∧ r.indices = st.idx ∧ r.trace = st.trace ∧
      r.written = st.written := by
  unfold SBVHBuilder.build at h
  split at h
  · exact absurd h (by simp)
  · next ret st heq =>
    split at h
    · exact absurd h (by simp)
    · next hover =>
      simp only [Option.some.injEq] at h
      subst h
      exact ⟨ret, st, heq, by omega, rfl, rfl, rfl, rfl, rfl, rfl⟩

/-! ## Plain BVH: master specification and totality -/

theorem filter_partition_length {p : Nat → Bool} (l : List Nat) :
    (l.filter p).length + (l.filter (fun x => !(p x))).length = l.length := by
  induction l with
  | nil => rfl
  | cons a rest ih =>
    by_cases h : p a <;> simp [List.filter_cons, h] <;> omega

theorem split_indices_length {tris : List Triangle} {idx : Fin 3 → List Nat}
    {first count : Nat} {d : Fin 3} {si : Nat} {split : ℚ}
    (hlen : ∀ dd : Fin 3, first + count ≤ (idx dd).length) :
    ∀ dd : Fin 3,
      (split_indices tris idx first count d si split dd).length = (idx dd).length := by
  intro dd
  unfold split_indices
  simp only []
  rw [writeRange_length]
  have h1 : ((sliceL (idx dd) first count).filter
        (fun i => object_goes_left tris (idx d) d split first si i)).length +
      ((sliceL (idx dd) first count).filter
        (fun i => !(object_goes_left tris (idx d) d split first si i))).length =
      (sliceL (idx dd) first count).length := filter_partition_length _
  have h2 : (sliceL (idx dd) first count).length = count :=
    sliceL_length_of_le _ _ _ (hlen dd)
  rw [List.length_append, h1, h2]
  exact Nat.max_eq_left (hlen dd)

theorem PEntryOK_mono {stA stB : PState} {tdA tdB : List BTraceEntry}
    {e : BTraceEntry} (h : PEntryOK stA tdA e)
    (hn : stB.nodes e.slot = stA.nodes e.slot)
    (hsub : ∀ x, x ∈ tdA → x ∈ tdB) :
    PEntryOK stB tdB e := by
  refine ⟨hn.trans h.1, ?_⟩
  intro hl
  obtain ⟨o, h1, h2, h3, h4, ⟨el, hel, helq⟩, ⟨er, her, herq⟩, h5⟩ := h.2 hl
  exact ⟨o, h1, h2, h3, h4, ⟨el, hsub el hel, helq⟩,
    ⟨er, hsub er her, herq⟩, h5⟩

/-- Master specification of the plain-BVH recursion. -/
theorem build_bvh_spec (tris : List Triangle) :
    ∀ (fuel : Nat), ∀ (slot first count : Nat) (st : PState) (stf : PState),
      build_bvh tris fuel slot first count st = some stf →
      slot < st.node_index →
      (∀ d : Fin 3, first + count ≤ (st.idx d).length) →
      PBuildOut slot first count st stf := by
  intro fuel
  induction fuel with
  | zero =>
    intro slot first count st stf h hs hlen
    simp [build_bvh] at h
  | succ fuel ih =>
    intro slot first count st stf h hs hlen
    simp only [build_bvh] at h
    split at h
    · next hc3 =>
      simp only [Option.some.injEq] at h
      subst h
      have hmax : 1 ≤ max count 1 := Nat.le_max_right count 1
      unfold PBuildOut
      dsimp only
      refine ⟨le_refl _, by omega, ?_, fun d => rfl, ?_⟩
      · intro s hne _
        exact updNode_ne _ _ _ hne
      refine ⟨[⟨slot, first, count, calculate_bounds tris (st.idx 0) first count,
        none, true, ⟨calculate_bounds tris (st.idx 0) first count, first, count⟩,
        st.node_index, st.node_index⟩], [slot], rfl, rfl, ?_, ?_, ?_, ?_, ?_⟩
      · intro s hsw
        simp only [List.mem_singleton] at hsw
        exact Or.inl hsw
      · intro e he
        simp only [List.mem_singleton] at he
        subst he
        exact ⟨le_refl _, le_refl _, le_refl _⟩
      · intro e he _ hae
        simp only [List.mem_singleton] at he
        subst he
        have hae' : st.node_index = st.node_index + 2 := hae
        omega
      · exact ⟨_, List.mem_singleton_self _, rfl, rfl, rfl, rfl, rfl⟩
      · intro e he
        simp only [List.mem_singleton] at he
        subst he
        refine ⟨Or.inl rfl, updNode_self _ _ _, ?_⟩
        intro hfalse
        simp at hfalse
    · next hc3 =>
      split at h
      · exact absurd h (by simp)
      · next sp hsp =>
        have hsp' : partition_object tris st.idx first count = some sp := hsp
        have hidx := partition_object_index hsp' hlen
        split at h
        · next hcost =>
          simp only [Option.some.injEq] at h
          subst h
          have hmax : max count 1 = count := Nat.max_eq_left (by omega)
          unfold PBuildOut
          dsimp only
          refine ⟨by omega, by rw [hmax]; omega, ?_, fun d => rfl, ?_⟩
          · intro s hne _
            exact updNode_ne _ _ _ hne
          refine ⟨[⟨slot, first, count, calculate_bounds tris (st.idx 0) first count,
            some sp, true, ⟨calculate_bounds tris (st.idx 0) first count, first, count⟩,
            st.node_index, st.node_index + 2⟩], [slot], rfl, rfl, ?_, ?_, ?_, ?_, ?_⟩
          · intro s hsw
            simp only [List.mem_singleton] at hsw
            exact Or.inl hsw
          · intro e he
            simp only [List.mem_singleton] at he
            subst he
            refine ⟨le_refl _, ?_, le_refl _⟩
            show st.node_index ≤ st.node_index + 2
            omega
          · intro e he _ _
            simp only [List.mem_singleton] at he
            subst he
            constructor
            · intro hmem
              simp only [List.mem_singleton] at hmem
              have hmem' : st.node_index = slot := hmem
              omega
            · intro hmem
              simp only [List.mem_singleton] at hmem
              have hmem' : st.node_index + 1 = slot := hmem
              omega
          · exact ⟨_, List.mem_singleton_self _, rfl, rfl, rfl, rfl, rfl⟩
          · intro e he
            simp only [List.mem_singleton] at he
            subst he
            refine ⟨Or.inl rfl, updNode_self _ _ _, ?_⟩
            intro hfalse
            simp at hfalse
        · next hcost =>
          split at h
          · exact absurd h (by simp)
          · next st2 hL =>
            split at h
            · exact absurd h (by simp)
            · next st3 hR =>
              simp only [Option.some.injEq] at h
              subst h
              have hlen1 : ∀ d : Fin 3,
                  (split_indices tris st.idx first count sp.dimension sp.index
                    ((triAt tris ((st.idx sp.dimension).getD sp.index 0)).get_center.nth sp.dimension) d).length =
                  (st.idx d).length := split_indices_length hlen
              have ihL := ih st.node_index first (sp.index - first) _ st2 hL
                (by show st.node_index < st.node_index + 2; omega)
                (by
                  intro d
                  show first + (sp.index - first) ≤ _
                  rw [hlen1 d]
                  have := hlen d
                  omega)
              obtain ⟨ihL1, ihL2, ihLf, ihL4, tdL, wdL, htL, hwL, hwLs, haL, hwaL,
                ⟨eL, heLm, heL1, heL2, heL3, heL4, heL5⟩, hallL⟩ := ihL
              have h12 : st.node_index + 2 ≤ st2.node_index := ihL1
              have ihL2' : st2.node_index + 2 ≤ (st.node_index + 2) +
                  2 * max (sp.index - first) 1 := ihL2
              have ihL4' : ∀ d : Fin 3, (st2.idx d).length = (st.idx d).length := by
                intro d
                rw [ihL4 d, hlen1 d]
              have htL' : st2.trace = tdL ++ st.trace := htL
              have hwL' : st2.written = wdL ++ (slot :: st.written) := hwL
              have ihR := ih (st.node_index + 1) (first + (sp.index - first))
                (first + count - sp.index) _ st3 hR
                (by show st.node_index + 1 < st2.node_index; omega)
                (by
                  intro d
                  rw [ihL4' d]
                  have := hlen d
                  omega)
              obtain ⟨ihR1, ihR2, ihRf, ihR4, tdR, wdR, htR, hwR, hwRs, haR, hwaR,
                ⟨eR, heRm, heR1, heR2, heR3, heR4, heR5⟩, hallR⟩ := ihR
              have h23 : st2.node_index ≤ st3.node_index := ihR1
              have ihR2' : st3.node_index + 2 ≤ st2.node_index +
                  2 * max (first + count - sp.index) 1 := ihR2
              have ihR4' : ∀ d : Fin 3, (st3.idx d).length = (st2.idx d).length := ihR4
              have htR' : st3.trace = tdR ++ st2.trace := htR
              have hwR' : st3.written = wdR ++ st2.written := hwR
              have ihRf' : ∀ s, s ≠ st.node_index + 1 →
                  (s < st2.node_index ∨ st3.node_index ≤ s) →
                  st3.nodes s = st2.nodes s := ihRf
              have hwRs' : ∀ s, s ∈ wdR → (s = st.node_index + 1 ∨
                  (st2.node_index ≤ s ∧ s < st3.node_index)) := hwRs
              have hwLs' : ∀ s, s ∈ wdL → (s = st.node_index ∨
                  (st.node_index + 2 ≤ s ∧ s < st2.node_index)) := hwLs
              have hmL : max (sp.index - first) 1 = sp.index - first :=
                Nat.max_eq_left (by omega)
              have hmR : max (first + count - sp.index) 1 = first + count - sp.index :=
                Nat.max_eq_left (by omega)
              have hmC : max count 1 = count := Nat.max_eq_left (by omega)
              rw [hmL] at ihL2'
              rw [hmR] at ihR2'
              unfold PBuildOut
              dsimp only
              refine ⟨by omega, by rw [hmC]; omega, ?_, ?_, ?_⟩
              · intro s hne hrange
                have hrange' : s < st.node_index ∨ st3.node_index ≤ s := hrange
                have hA : st3.nodes s = st2.nodes s := ihRf' s (by omega) (by omega)
                have hB := ihLf s (by omega)
                  (show s < st.node_index + 2 ∨ st2.node_index ≤ s by omega)
                rw [hA, hB]
                exact updNode_ne _ _ _ hne
              · intro d
                rw [ihR4' d, ihL4' d]
              have haL' : ∀ e ∈ tdL, st.node_index + 2 ≤ e.allocStart ∧
                  e.allocStart ≤ e.allocEnd ∧ e.allocEnd ≤ st2.node_index := haL
              have haR' : ∀ e ∈ tdR, st2.node_index ≤ e.allocStart ∧
                  e.allocStart ≤ e.allocEnd ∧ e.allocEnd ≤ st3.node_index := haR
              · refine ⟨⟨slot, first, count, calculate_bounds tris (st.idx 0) first count,
                  some sp, false,
                  ⟨calculate_bounds tris (st.idx 0) first count, st.node_index,
                    (sp.dimension.val + 1) <<< 30⟩,
                  st.node_index, st3.node_index⟩ :: (tdR ++ tdL),
                  (wdR ++ wdL) ++ [slot], ?_, ?_, ?_, ?_, ?_, ?_, ?_⟩
                · show _ = _
                  rw [htR', htL']
                  simp [List.append_assoc]
                · show st3.written = _
                  rw [hwR', hwL']
                  simp [List.append_assoc]
                · intro s hsw
                  simp only [List.mem_append, List.mem_singleton] at hsw
                  rcases hsw with (hsw | hsw) | hsw
                  · rcases hwRs' s hsw with h' | h'
                    · right; omega
                    · right; omega
                  · rcases hwLs' s hsw with h' | h'
                    · right; omega
                    · right; omega
                  · exact Or.inl hsw
                · intro e he
                  rcases List.mem_cons.1 he with heq | hin
                  · subst heq
                    refine ⟨le_refl _, ?_, le_refl _⟩
                    show st.node_index ≤ st3.node_index
                    omega
                  · rcases List.mem_append.1 hin with hinR | hinL
                    · obtain ⟨a1, a2, a3⟩ := haR' e hinR
                      exact ⟨by omega, a2, a3⟩
                    · obtain ⟨a1, a2, a3⟩ := haL' e hinL
                      exact ⟨by omega, a2, by omega⟩
                · intro e he hleaf hae
                  rcases List.mem_cons.1 he with heq | hin
                  · subst heq
                    simp at hleaf
                  · rcases List.mem_append.1 hin with hinR | hinL
                    · obtain ⟨a1, a2, a3⟩ := haR' e hinR
                      obtain ⟨w1, w2⟩ := hwaR e hinR hleaf hae
                      constructor
                      · intro hmem
                        rcases List.mem_append.1 hmem with hm | hm
                        · rcases List.mem_append.1 hm with hm' | hm'
                          · exact w1 hm'
                          · rcases hwLs' _ hm' with h' | h' <;> omega
                        · simp only [List.mem_singleton] at hm
                          omega
                      · intro hmem
                        rcases List.mem_append.1 hmem with hm | hm
                        · rcases List.mem_append.1 hm with hm' | hm'
                          · exact w2 hm'
                          · rcases hwLs' _ hm' with h' | h' <;> omega
                        · simp only [List.mem_singleton] at hm
                          omega
                    · obtain ⟨a1, a2, a3⟩ := haL' e hinL
                      obtain ⟨w1, w2⟩ := hwaL e hinL hleaf hae
                      constructor
                      · intro hmem
                        rcases List.mem_append.1 hmem with hm | hm
                        · rcases List.mem_append.1 hm with hm' | hm'
                          · rcases hwRs' _ hm' with h' | h' <;> omega
                          · exact w1 hm'
                        · simp only [List.mem_singleton] at hm
                          omega
                      · intro hmem
                        rcases List.mem_append.1 hmem with hm | hm
                        · rcases List.mem_append.1 hm with hm' | hm'
                          · rcases hwRs' _ hm' with h' | h' <;> omega
                          · exact w2 hm'
                        · simp only [List.mem_singleton] at hm
                          omega
                · exact ⟨_, List.mem_cons_self _ _, rfl, rfl, rfl, rfl, rfl⟩
                · intro e he
                  rcases List.mem_cons.1 he with heq | hin
                  · subst heq
                    refine ⟨Or.inl rfl, ?_, ?_⟩
                    · show st3.nodes slot = _
                      rw [ihRf' slot (by omega) (by omega),
                        ihLf slot (by omega)
                          (show slot < st.node_index + 2 ∨ st2.node_index ≤ slot by omega)]
                      exact updNode_self _ _ _
                    · intro _
                      refine ⟨sp, rfl, rfl, hs, rfl, ?_, ?_, lt_of_not_le hcost⟩
                      · exact ⟨eL, List.mem_cons_of_mem _
                          (List.mem_append.2 (Or.inr heLm)), heL1⟩
                      · exact ⟨eR, List.mem_cons_of_mem _
                          (List.mem_append.2 (Or.inl heRm)), heR1⟩
                  · rcases List.mem_append.1 hin with hinR | hinL
                    · obtain ⟨hsl, hok⟩ := hallR e hinR
                      have hslR : e.slot = st.node_index + 1 ∨
                          (st2.node_index ≤ e.slot ∧ e.slot < st3.node_index) := hsl
                      refine ⟨Or.inr (by rcases hslR with h' | h' <;> omega), ?_⟩
                      exact PEntryOK_mono hok rfl
                        (fun x hx => List.mem_cons_of_mem _
                          (List.mem_append.2 (Or.inl hx)))
                    · obtain ⟨hsl, hok⟩ := hallL e hinL
                      have hslL : e.slot = st.node_index ∨
                          (st.node_index + 2 ≤ e.slot ∧ e.slot < st2.node_index) := hsl
                      refine ⟨Or.inr (by rcases hslL with h' | h' <;> omega), ?_⟩
                      refine PEntryOK_mono hok ?_
                        (fun x hx => List.mem_cons_of_mem _
                          (List.mem_append.2 (Or.inr hx)))
                      show st3.nodes e.slot = st2.nodes e.slot
                      exact ihRf' e.slot (by rcases hslL with h' | h' <;> omega)
                        (by rcases hslL with h' | h' <;> omega)

/-- The plain-BVH recursion always succeeds given enough fuel: it has no
failure modes beyond fuel exhaustion (the object-split search succeeds on
every range of at least two primitives). -/
theorem build_bvh_total (tris : List Triangle) :
    ∀ (fuel : Nat), ∀ (slot first count : Nat) (st : PState),
      count < fuel →
      slot < st.node_index →
      (∀ d : Fin 3, first + count ≤ (st.idx d).length) →
      ∃ stf, build_bvh tris fuel slot first count st = some stf := by
  intro fuel
  induction fuel with
  | zero =>
    intro slot first count st hc hs hlen
    omega
  | succ fuel ih =>
    intro slot first count st hc hs hlen
    simp only [build_bvh]
    split
    · exact ⟨_, rfl⟩
    · next hc3 =>
      have hps : (partition_sah tris st.idx first count).isSome :=
        partition_object_isSome (by omega) (hlen 0)
      obtain ⟨sp, hsp⟩ := Option.isSome_iff_exists.1 hps
      have hsp' : partition_object tris st.idx first count = some sp := hsp
      have hidx := partition_object_index hsp' hlen
      rw [hsp]
      dsimp only
      split
      · exact ⟨_, rfl⟩
      · have hlen1 : ∀ d : Fin 3,
            (split_indices tris st.idx first count sp.dimension sp.index
              ((triAt tris ((st.idx sp.dimension).getD sp.index 0)).get_center.nth sp.dimension) d).length =
            (st.idx d).length := split_indices_length hlen
        obtain ⟨st2, hL⟩ := ih st.node_index first (sp.index - first)
          { nodes := updNode st.nodes slot
              { aabb := calculate_bounds tris (st.idx 0) first count,
                left := st.node_index, count := (sp.dimension.val + 1) <<< 30 },
            idx := split_indices tris st.idx first count sp.dimension sp.index
              ((triAt tris ((st.idx sp.dimension).getD sp.index 0)).get_center.nth
                sp.dimension),
            node_index := st.node_index + 2, trace := st.trace,
            written := slot :: st.written }
          (by omega)
          (by show st.node_index < st.node_index + 2; omega)
          (by
            intro d
            show first + (sp.index - first) ≤
              (split_indices tris st.idx first count sp.dimension sp.index
                ((triAt tris ((st.idx sp.dimension).getD sp.index 0)).get_center.nth
                  sp.dimension) d).length
            rw [hlen1 d]
            have := hlen d
            omega)
        rw [hL]
        dsimp only
        have hspec := build_bvh_spec tris fuel st.node_index first
          (sp.index - first) _ st2 hL
          (by show st.node_index < st.node_index + 2; omega)
          (by
            intro d
            show first + (sp.index - first) ≤ _
            rw [hlen1 d]
            have := hlen d
            omega)
        obtain ⟨hsp1, hsp2, hsp3, hsp4, hsprest⟩ := hspec
        have h12 : st.node_index + 2 ≤ st2.node_index := hsp1
        have hsp4' : ∀ d : Fin 3, (st2.idx d).length = (st.idx d).length := by
          intro d
          rw [hsp4 d, hlen1 d]
        obtain ⟨st3, hR⟩ := ih (st.node_index + 1) (first + (sp.index - first))
          (first + count - sp.index) st2
          (by omega)
          (by omega)
          (by
            intro d
            rw [hsp4' d]
            have := hlen d
            omega)
        rw [hR]
        exact ⟨_, rfl⟩

/-- Inversion of a successful plain-BVH top-level build. -/
theorem BVHBuilders_build_inv {tris : List Triangle} {r : PBuildResult}
    (h : BVHBuilders_build_bvh tris = some r) :
    ∃ st, build_bvh tris (tris.length + 1) 0 0 tris.length (initStateP tris) =
        some st ∧
      r.nodes = st.nodes ∧ r.node_count = st.node_index ∧
      r.index_count = tris.length ∧ r.indices = st.idx 0 ∧
      r.trace = st.trace ∧ r.written = st.written := by
  unfold BVHBuilders_build_bvh at h
  split at h
  · exact absurd h (by simp)
  · next st heq =>
    simp only [Option.some.injEq] at h
    subst h
    exact ⟨st, heq, rfl, rfl, rfl, rfl, rfl, rfl⟩

/-- The plain-BVH top-level build always succeeds. -/
theorem BVHBuilders_build_isSome (tris : List Triangle) :
    ∃ r, BVHBuilders_build_bvh tris = some r := by
  obtain ⟨stf, hst⟩ := build_bvh_total tris (tris.length + 1) 0 0 tris.length
    (initStateP tris) (by omega)
    (by show (0:Nat) < 2; omega)
    (by
      intro d
      show 0 + tris.length ≤ (initIdx tris d).length
      rw [initIdx_length]
      omega)
  unfold BVHBuilders_build_bvh
  rw [hst]
  exact ⟨_, rfl⟩

/-! ## Spatial classification: every processed reference lands on a side -/

theorem updB_self (f : Nat → Bool) (i : Nat) (v : Bool) : updB f i v i = v := by
  simp [updB]

theorem updB_ne (f : Nat → Bool) (i : Nat) (v : Bool) {j : Nat} (h : j ≠ i) :
    updB f i v j = f j := by
  simp [updB, h]

/-- Every branch of `spatial_item_step` updates the two lookup tables at the
processed reference and conjoins that reference's side disjunction onto the
running `ok` flag. -/
theorem spatial_item_step_shape (tris : List Triangle) (nodeAabb : AABB)
    (d : Fin 3) (si : Int) (st : SpatialLoopState) (v : Nat) :
    ∃ gl gr rl rr us,
      spatial_item_step tris nodeAabb d si st v =
        { us := us, going_left := updB st.going_left v gl,
          going_right := updB st.going_right v gr,
          rejected_left := rl, rejected_right := rr,
          ok := st.ok && (gl || gr) } := by
  unfold spatial_item_step
  simp only []
  split
  · exact ⟨_, _, _, _, _, rfl⟩
  · exact ⟨_, _, _, _, _, rfl⟩

theorem spatial_fold_frame (tris : List Triangle) (nodeAabb : AABB) (d : Fin 3)
    (si : Int) :
    ∀ (items : List Nat) (st : SpatialLoopState) (w : Nat), w ∉ items →
      (items.foldl (spatial_item_step tris nodeAabb d si) st).going_left w =
        st.going_left w ∧
      (items.foldl (spatial_item_step tris nodeAabb d si) st).going_right w =
        st.going_right w := by
  intro items
  induction items with
  | nil => intro st w _; exact ⟨rfl, rfl⟩
  | cons a rest ih =>
    intro st w hw
    have hwa : w ≠ a := fun hh => hw (hh ▸ List.mem_cons_self a rest)
    have hwr : w ∉ rest := fun hh => hw (List.mem_cons_of_mem a hh)
    obtain ⟨gl, gr, rl, rr, us, hsh⟩ :=
      spatial_item_step_shape tris nodeAabb d si st a
    have hfr := ih (spatial_item_step tris nodeAabb d si st a) w hwr
    rw [List.foldl_cons] at *
    refine ⟨hfr.1.trans ?_, hfr.2.trans ?_⟩
    · rw [hsh]; exact updB_ne _ _ _ hwa
    · rw [hsh]; exact updB_ne _ _ _ hwa

/-- When the spatial classification loop ends with `ok = true` (the
`assert(goes_left || goes_right)` of SBVHBuilder.cpp line 253 never fired),
every processed reference is marked for at least one side. -/
theorem spatial_fold_props (tris : List Triangle) (nodeAabb : AABB) (d : Fin 3)
    (si : Int) :
    ∀ (items : List Nat) (st : SpatialLoopState),
      (items.foldl (spatial_item_step tris nodeAabb d si) st).ok = true →
      st.ok = true ∧
      ∀ v ∈ items,
        ((items.foldl (spatial_item_step tris nodeAabb d si) st).going_left v ||
         (items.foldl (spatial_item_step tris nodeAabb d si) st).going_right v) =
          true := by
  intro items
  induction items with
  | nil =>
    intro st h
    exact ⟨h, by intro v hv; exact absurd hv (List.not_mem_nil v)⟩
  | cons a rest ih =>
    intro st h
    rw [List.foldl_cons] at h
    obtain ⟨h1, h2⟩ := ih (spatial_item_step tris nodeAabb d si st a) h
    obtain ⟨gl, gr, rl, rr, us, hsh⟩ :=
      spatial_item_step_shape tris nodeAabb d si st a
    have hok : st.ok = true ∧ (gl || gr) = true := by
      rw [hsh] at h1
      simpa using h1
    refine ⟨hok.1, ?_⟩
    intro v hv
    rw [List.foldl_cons]
    rcases List.mem_cons.mp hv with rfl | hv'
    · by_cases hm : v ∈ rest
      · exact h2 v hm
      · have hfr := spatial_fold_frame tris nodeAabb d si rest
          (spatial_item_step tris nodeAabb d si st v) v hm
        rw [hfr.1, hfr.2, hsh]
        dsimp only
        rw [updB_self, updB_self]
        exact hok.2
    · exact h2 v hv'

/-! ## Assert-safety of the partition kernels

The spatial classification of `spatial_partition_children` can only reject
a side whose accumulated child box the clipped triangle box does not
overlap.  The lemmas below show this never strands a reference: the bin an
item enters (leaves) lies left (right) of every plane the item is
classified left (right) of, the bin's box contains the item's clipped
piece, and the swept child boxes contain their bins' boxes — so the
overlap test of SBVHBuilder.cpp lines 194-195 always passes on the side
the binning pass chose. -/

theorem spatialBins_eq_foldl (tris : List Triangle) (items : List Nat)
    (nodeAabb : AABB) (d : Fin 3) :
    spatialBins tris items nodeAabb d =
      items.foldl (spatialBinStep tris nodeAabb d) (fun _ => ⟨none, 0, 0⟩) := rfl

theorem Vec3.nth_cmax (a b : Vec3) (d : Fin 3) :
    (Vec3.cmax a b).nth d = max (a.nth d) (b.nth d) := by
  fin_cases d <;> rfl

theorem Vec3.nth_cmin (a b : Vec3) (d : Fin 3) :
    (Vec3.cmin a b).nth d = min (a.nth d) (b.nth d) := by
  fin_cases d <;> rfl

theorem AABB.is_valid_nth {b : AABB} (h : b.is_valid = true) (d : Fin 3) :
    b.lo.nth d ≤ b.hi.nth d := by
  unfold AABB.is_valid at h
  simp only [Bool.and_eq_true, decide_eq_true_eq] at h
  fin_cases d
  · exact h.1.1
  · exact h.1.2
  · exact h.2

theorem cppInt_nonneg {q : ℚ} (h : 0 ≤ q) : 0 ≤ cppInt q := by
  unfold cppInt
  rw [if_pos h]
  exact Int.floor_nonneg.mpr h

theorem cppInt_le_cast {q : ℚ} (h : 0 ≤ q) : (cppInt q : ℚ) ≤ q := by
  unfold cppInt
  rw [if_pos h]
  exact Int.floor_le q

theorem lt_cppInt_add_one {q : ℚ} (h : 0 ≤ q) : q < (cppInt q : ℚ) + 1 := by
  unfold cppInt
  rw [if_pos h]
  exact_mod_cast Int.lt_floor_add_one q

theorem cppInt_mono {p q : ℚ} (h0 : 0 ≤ p) (h : p ≤ q) :
    cppInt p ≤ cppInt q := by
  unfold cppInt
  rw [if_pos h0, if_pos (le_trans h0 h)]
  exact Int.floor_le_floor h

theorem clampBin_cast {B : Nat} {i : Int} (h0 : 0 ≤ i)
    (h1 : i ≤ (B : Int) - 1) : (clampBin B i : Int) = i := by
  unfold clampBin
  rw [min_eq_left h1, max_eq_right h0, Int.toNat_of_nonneg h0]

theorem binCoord_bounds {B : Nat} (hB : 0 < B) {bmin delta x : ℚ}
    (hd : 0 < delta) (hx0 : bmin < x) (hx1 : x < bmin + delta) :
    0 ≤ cppInt ((B : ℚ) * ((x - bmin) / delta)) ∧
    cppInt ((B : ℚ) * ((x - bmin) / delta)) ≤ (B : Int) - 1 ∧
    bmin + (cppInt ((B : ℚ) * ((x - bmin) / delta)) : ℚ) * (delta / (B : ℚ)) ≤ x ∧
    x < bmin + ((cppInt ((B : ℚ) * ((x - bmin) / delta)) : ℚ) + 1) * (delta / (B : ℚ)) := by
  have hBQ : (0 : ℚ) < (B : ℚ) := by exact_mod_cast hB
  have hd' : delta ≠ 0 := ne_of_gt hd
  have hB' : (B : ℚ) ≠ 0 := ne_of_gt hBQ
  set q : ℚ := (B : ℚ) * ((x - bmin) / delta) with hq
  have hq0 : 0 ≤ q := by
    apply mul_nonneg (le_of_lt hBQ)
    exact div_nonneg (by linarith) (le_of_lt hd)
  have h1 : (cppInt q : ℚ) ≤ q := cppInt_le_cast hq0
  have h2 : q < (cppInt q : ℚ) + 1 := lt_cppInt_add_one hq0
  have hqB : q < (B : ℚ) := by
    rw [hq]
    have hlt : (x - bmin) / delta < 1 := (div_lt_one hd).mpr (by linarith)
    calc (B : ℚ) * ((x - bmin) / delta) < (B : ℚ) * 1 :=
          mul_lt_mul_of_pos_left hlt hBQ
      _ = (B : ℚ) := mul_one _
  have hqd : q * (delta / (B : ℚ)) = x - bmin := by
    rw [hq]
    field_simp
  refine ⟨cppInt_nonneg hq0, ?_, ?_, ?_⟩
  · have hc : (cppInt q : ℚ) < (B : ℚ) := lt_of_le_of_lt h1 hqB
    have hZ : cppInt q < (B : Int) := by exact_mod_cast hc
    omega
  · have step : (cppInt q : ℚ) * (delta / (B : ℚ)) ≤ q * (delta / (B : ℚ)) :=
      mul_le_mul_of_nonneg_right h1 (le_of_lt (div_pos hd hBQ))
    rw [hqd] at step
    linarith
  · have step : q * (delta / (B : ℚ)) < ((cppInt q : ℚ) + 1) * (delta / (B : ℚ)) :=
      mul_lt_mul_of_pos_right h2 (div_pos hd hBQ)
    rw [hqd] at step
    linarith

theorem ptBox_is_valid (p : Vec3) : (ptBox p).is_valid = true := by
  unfold ptBox AABB.is_valid
  simp

theorem subset_overlap {a b c : AABB} (hb : a.subset b) (hc : a.subset c) :
    a.subset (AABB.overlap b c) := by
  obtain ⟨p1, p2, p3, p4, p5, p6⟩ := hb
  obtain ⟨q1, q2, q3, q4, q5, q6⟩ := hc
  unfold AABB.overlap AABB.subset Vec3.cmax Vec3.cmin
  exact ⟨max_le p1 q1, max_le p2 q2, max_le p3 q3,
         le_min p4 q4, le_min p5 q5, le_min p6 q6⟩

theorem overlap_valid_of_common {p : Vec3} {b c : AABB}
    (hb : (ptBox p).subset b) (hc : (ptBox p).subset c) :
    (AABB.overlap b c).is_valid = true :=
  AABB.is_valid_of_subset (subset_overlap hb hc) (ptBox_is_valid p)

theorem ptBox_lo_subset {b : AABB} (h : b.is_valid = true) :
    (ptBox b.lo).subset b := by
  unfold AABB.is_valid at h
  simp only [Bool.and_eq_true, decide_eq_true_eq] at h
  unfold ptBox AABB.subset
  exact ⟨le_refl _, le_refl _, le_refl _, h.1.1, h.1.2, h.2⟩

theorem ptBox_hi_subset {b : AABB} (h : b.is_valid = true) :
    (ptBox b.hi).subset b := by
  unfold AABB.is_valid at h
  simp only [Bool.and_eq_true, decide_eq_true_eq] at h
  unfold ptBox AABB.subset
  exact ⟨h.1.1, h.1.2, h.2, le_refl _, le_refl _, le_refl _⟩

theorem ptBox_subset_slabClip {clip : AABB} {d : Fin 3} {lo hi : ℚ} {p : Vec3}
    (hin : (ptBox p).subset clip) (h1 : lo ≤ p.nth d) (h2 : p.nth d ≤ hi) :
    (ptBox p).subset (slabClip clip d lo hi) := by
  obtain ⟨p1, p2, p3, p4, p5, p6⟩ := hin
  unfold ptBox AABB.subset slabClip
  fin_cases d
  · simp only [Vec3.setNth, Vec3.nth] at h1 h2 ⊢
    exact ⟨max_le p1 h1, p2, p3, le_min p4 h2, p5, p6⟩
  · simp only [Vec3.setNth, Vec3.nth] at h1 h2 ⊢
    exact ⟨p1, max_le p2 h1, p3, p4, le_min p5 h2, p6⟩
  · simp only [Vec3.setNth, Vec3.nth] at h1 h2 ⊢
    exact ⟨p1, p2, max_le p3 h1, p4, p5, le_min p6 h2⟩

theorem scanl_getD_foldl {α β : Type} (f : β → α → β) (dflt : β) :
    ∀ (l : List α) (b : β) (n : Nat), n ≤ l.length →
      (l.scanl f b).getD n dflt = (l.take n).foldl f b := by
  intro l
  induction l with
  | nil =>
    intro b n hn
    cases n with
    | zero => rfl
    | succ m => simp at hn
  | cons a rest ih =>
    intro b n hn
    cases n with
    | zero => rfl
    | succ m =>
      rw [List.scanl_cons, List.singleton_append, List.getD_cons_succ]
      rw [ih (f b a) m (by simpa using hn)]
      rfl

theorem foldl_unionO_carry (l : List Bin) :
    ∀ (init : Option AABB) (a : AABB), init = some a →
      ∃ y, l.foldl (fun acc bn => unionO acc bn.box) init = some y ∧
        a.subset y := by
  induction l with
  | nil =>
    intro init a h
    exact ⟨a, by rw [h]; rfl, AABB.subset_refl a⟩
  | cons bn rest ih =>
    intro init a h
    subst h
    rw [List.foldl_cons]
    cases hbox : bn.box with
    | none => exact ih _ a rfl
    | some c =>
      obtain ⟨y, hy, hsub⟩ := ih _ (a.expand c) rfl
      exact ⟨y, hy, AABB.subset_trans (AABB.subset_expand_left a c) hsub⟩

theorem foldl_unionO_mem :
    ∀ (l : List Bin) (init : Option AABB) (bn : Bin), bn ∈ l →
      ∀ (x : AABB), bn.box = some x →
      ∃ y, l.foldl (fun acc b => unionO acc b.box) init = some y ∧
        x.subset y := by
  intro l
  induction l with
  | nil => intro _ bn h; exact absurd h (List.not_mem_nil bn)
  | cons b rest ih =>
    intro init bn hbn x hx
    rw [List.foldl_cons]
    rcases List.mem_cons.1 hbn with rfl | hmem
    · rw [hx]
      cases init with
      | none => exact foldl_unionO_carry rest _ x rfl
      | some a =>
        obtain ⟨y, hy, hs⟩ := foldl_unionO_carry rest _ (a.expand x) rfl
        exact ⟨y, hy, AABB.subset_trans (AABB.subset_expand_right a x) hs⟩
    · exact ih _ bn hmem x hx

theorem sweepBins_length (tris : List Triangle) (items : List Nat)
    (nodeAabb : AABB) (d : Fin 3) :
    (sweepBins tris items nodeAabb d).length = SBVH_BIN_COUNT := by
  simp [sweepBins]

theorem sweepLeftBox_sub (tris : List Triangle) (items : List Nat)
    (nodeAabb : AABB) (d : Fin 3) {p b : Nat} (hb : b < p)
    (hp : p ≤ SBVH_BIN_COUNT) {x : AABB}
    (hx : (spatialBins tris items nodeAabb d b).box = some x) :
    ∃ L, sweepLeftBox tris items nodeAabb d p = some L ∧ x.subset L := by
  unfold sweepLeftBox
  rw [scanl_getD_foldl _ _ _ _ _ (by
    rw [sweepBins_length]; exact hp)]
  have hbB : b < SBVH_BIN_COUNT := lt_of_lt_of_le hb hp
  have hmem : spatialBins tris items nodeAabb d b ∈
      (sweepBins tris items nodeAabb d).take p := by
    unfold sweepBins
    rw [← List.map_take, List.take_range]
    exact List.mem_map_of_mem _ (List.mem_range.2 (by omega))
  exact foldl_unionO_mem _ none _ hmem x hx

theorem getD_reverse {α : Type} (l : List α) (i : Nat) (dflt : α)
    (h : i < l.length) :
    l.reverse.getD i dflt = l.getD (l.length - 1 - i) dflt := by
  rw [List.getD_eq_getElem?_getD, List.getD_eq_getElem?_getD]
  rw [List.getElem?_reverse h]

theorem mem_drop_range {B p b : Nat} (hpb : p ≤ b) (hbB : b < B) :
    b ∈ (List.range B).drop p := by
  rw [List.mem_iff_getElem]
  refine ⟨b - p, ?_, ?_⟩
  · rw [List.length_drop, List.length_range]
    omega
  · rw [List.getElem_drop, List.getElem_range]
    omega

theorem sweepRightBox_sub (tris : List Triangle) (items : List Nat)
    (nodeAabb : AABB) (d : Fin 3) {p b : Nat} (hpb : p ≤ b)
    (hbB : b < SBVH_BIN_COUNT) {x : AABB}
    (hx : (spatialBins tris items nodeAabb d b).box = some x) :
    ∃ R, sweepRightBox tris items nodeAabb d p = some R ∧ x.subset R := by
  unfold sweepRightBox
  have hlen : (sweepBins tris items nodeAabb d).length = SBVH_BIN_COUNT :=
    sweepBins_length tris items nodeAabb d
  have hp : p < (((sweepBins tris items nodeAabb d).reverse.scanl
      (fun a bn => unionO a bn.box) none)).length := by
    rw [List.length_scanl, List.length_reverse, hlen]
    omega
  rw [getD_reverse _ _ _ hp]
  have hidx : (((sweepBins tris items nodeAabb d).reverse.scanl
      (fun a bn => unionO a bn.box) none)).length - 1 - p =
      SBVH_BIN_COUNT - p := by
    rw [List.length_scanl, List.length_reverse, hlen]
    omega
  rw [hidx]
  rw [scanl_getD_foldl _ _ _ _ _ (by
    rw [List.length_reverse, hlen]; omega)]
  have htake : (sweepBins tris items nodeAabb d).reverse.take
      (SBVH_BIN_COUNT - p) =
      ((sweepBins tris items nodeAabb d).drop p).reverse := by
    rw [List.take_reverse]
    have harith : (sweepBins tris items nodeAabb d).length -
        (SBVH_BIN_COUNT - p) = p := by
      rw [hlen]
      omega
    rw [harith]
  rw [htake]
  have hmem : spatialBins tris items nodeAabb d b ∈
      ((sweepBins tris items nodeAabb d).drop p).reverse := by
    rw [List.mem_reverse]
    unfold sweepBins
    rw [← List.map_drop]
    exact List.mem_map_of_mem _ (mem_drop_range hpb hbB)
  exact foldl_unionO_mem _ none _ hmem x hx

theorem spatialBinStep_box_eq (tris : List Triangle) (nodeAabb : AABB)
    (d : Fin 3) (bins : Nat → Bin) (i b : Nat) :
    (spatialBinStep tris nodeAabb d bins i b).box =
      (if clampBin SBVH_BIN_COUNT (cppInt ((SBVH_BIN_COUNT : ℚ) *
            (((AABB.overlap (triAt tris i).aabb nodeAabb).lo.nth d -
              (nodeAabb.lo.nth d - 1/1000)) /
             ((nodeAabb.hi.nth d + 1/1000) - (nodeAabb.lo.nth d - 1/1000))))) ≤ b ∧
          b ≤ clampBin SBVH_BIN_COUNT (cppInt ((SBVH_BIN_COUNT : ℚ) *
            (((AABB.overlap (triAt tris i).aabb nodeAabb).hi.nth d -
              (nodeAabb.lo.nth d - 1/1000)) /
             ((nodeAabb.hi.nth d + 1/1000) - (nodeAabb.lo.nth d - 1/1000))))) ∧
          b < SBVH_BIN_COUNT then
        expandO (bins b).box
          (slabClip (AABB.overlap (triAt tris i).aabb nodeAabb) d
            ((nodeAabb.lo.nth d - 1/1000) + (b : ℚ) *
              (((nodeAabb.hi.nth d + 1/1000) - (nodeAabb.lo.nth d - 1/1000)) /
                (SBVH_BIN_COUNT : ℚ)))
            ((nodeAabb.lo.nth d - 1/1000) + ((b : ℚ) + 1) *
              (((nodeAabb.hi.nth d + 1/1000) - (nodeAabb.lo.nth d - 1/1000)) /
                (SBVH_BIN_COUNT : ℚ))))
      else (bins b).box) := by
  unfold spatialBinStep
  dsimp only
  split
  · split <;> split <;> rfl
  · split <;> split <;> rfl

theorem spatialBins_fold_carry (tris : List Triangle) (nodeAabb : AABB)
    (d : Fin 3) :
    ∀ (items : List Nat) (bins0 : Nat → Bin) (b : Nat) (y : AABB),
      (bins0 b).box = some y →
      ∃ z, ((items.foldl (spatialBinStep tris nodeAabb d) bins0) b).box =
          some z ∧ y.subset z := by
  intro items
  induction items with
  | nil =>
    intro bins0 b y hy
    exact ⟨y, hy, AABB.subset_refl y⟩
  | cons a rest ih =>
    intro bins0 b y hy
    rw [List.foldl_cons]
    have hstep : ∃ y', ((spatialBinStep tris nodeAabb d bins0 a) b).box =
        some y' ∧ y.subset y' := by
      rw [spatialBinStep_box_eq]
      split
      · rw [hy]
        exact ⟨_, rfl, AABB.subset_expand_left _ _⟩
      · exact ⟨y, hy, AABB.subset_refl y⟩
    obtain ⟨y', hy', hs'⟩ := hstep
    obtain ⟨z, hz, hs2⟩ := ih _ b y' hy'
    exact ⟨z, hz, AABB.subset_trans hs' hs2⟩

theorem spatialBins_box_put (tris : List Triangle) (nodeAabb : AABB)
    (d : Fin 3) :
    ∀ (items : List Nat) (bins0 : Nat → Bin) (v : Nat), v ∈ items →
    ∀ b : Nat,
    clampBin SBVH_BIN_COUNT (cppInt ((SBVH_BIN_COUNT : ℚ) *
      (((AABB.overlap (triAt tris v).aabb nodeAabb).lo.nth d -
        (nodeAabb.lo.nth d - 1/1000)) /
       ((nodeAabb.hi.nth d + 1/1000) - (nodeAabb.lo.nth d - 1/1000))))) ≤ b →
    b ≤ clampBin SBVH_BIN_COUNT (cppInt ((SBVH_BIN_COUNT : ℚ) *
      (((AABB.overlap (triAt tris v).aabb nodeAabb).hi.nth d -
        (nodeAabb.lo.nth d - 1/1000)) /
       ((nodeAabb.hi.nth d + 1/1000) - (nodeAabb.lo.nth d - 1/1000))))) →
    b < SBVH_BIN_COUNT →
    ∃ y, ((items.foldl (spatialBinStep tris nodeAabb d) bins0) b).box =
        some y ∧
      (slabClip (AABB.overlap (triAt tris v).aabb nodeAabb) d
        ((nodeAabb.lo.nth d - 1/1000) + (b : ℚ) *
          (((nodeAabb.hi.nth d + 1/1000) - (nodeAabb.lo.nth d - 1/1000)) /
            (SBVH_BIN_COUNT : ℚ)))
        ((nodeAabb.lo.nth d - 1/1000) + ((b : ℚ) + 1) *
          (((nodeAabb.hi.nth d + 1/1000) - (nodeAabb.lo.nth d - 1/1000)) /
            (SBVH_BIN_COUNT : ℚ)))).subset y := by
  intro items
  induction items with
  | nil => intro _ v hv; exact absurd hv (List.not_mem_nil v)
  | cons a rest ih =>
    intro bins0 v hv b h1 h2 h3
    rw [List.foldl_cons]
    rcases List.mem_cons.1 hv with rfl | hmem
    · have hput : ∃ y', ((spatialBinStep tris nodeAabb d bins0 v) b).box =
          some y' ∧
          (slabClip (AABB.overlap (triAt tris v).aabb nodeAabb) d
            ((nodeAabb.lo.nth d - 1/1000) + (b : ℚ) *
              (((nodeAabb.hi.nth d + 1/1000) - (nodeAabb.lo.nth d - 1/1000)) /
                (SBVH_BIN_COUNT : ℚ)))
            ((nodeAabb.lo.nth d - 1/1000) + ((b : ℚ) + 1) *
              (((nodeAabb.hi.nth d + 1/1000) - (nodeAabb.lo.nth d - 1/1000)) /
                (SBVH_BIN_COUNT : ℚ)))).subset y' := by
        rw [spatialBinStep_box_eq, if_pos ⟨h1, h2, h3⟩]
        cases hb : (bins0 b).box with
        | none => exact ⟨_, rfl, AABB.subset_refl _⟩
        | some a0 => exact ⟨_, rfl, AABB.subset_expand_right a0 _⟩
      obtain ⟨y', hy', hs'⟩ := hput
      obtain ⟨z, hz, hs2⟩ := spatialBins_fold_carry tris nodeAabb d rest _ b y' hy'
      exact ⟨z, hz, AABB.subset_trans hs' hs2⟩
    · exact ih _ v hmem b h1 h2 h3

theorem minPairs_mem {α : Type} (cost : α → ℚ) :
    ∀ (l : List α) (x : α), x ∈ minPairs cost l → x ∈ l
  | [], _, h => h
  | [_], _, h => h
  | a :: b :: rest, x, h => by
    rw [show minPairs cost (a :: b :: rest) =
      (if cost b < cost a then b else a) :: minPairs cost rest from rfl] at h
    rcases List.mem_cons.1 h with rfl | hm
    · split
      · exact List.mem_cons_of_mem a (List.mem_cons_self b rest)
      · exact List.mem_cons_self a (b :: rest)
    · exact List.mem_cons_of_mem a
        (List.mem_cons_of_mem b (minPairs_mem cost rest x hm))

theorem treeMin_mem {α : Type} (cost : α → ℚ) :
    ∀ (fuel : Nat) (l : List α) (x : α), treeMin cost fuel l = some x → x ∈ l
  | _, [], _, h => by simp [treeMin] at h
  | 0, a :: rest, x, h => by
    rw [show treeMin cost 0 (a :: rest) = some a from rfl] at h
    simp only [Option.some.injEq] at h
    subst h
    exact List.mem_cons_self a rest
  | _ + 1, [a], x, h => by
    rw [show treeMin cost (_ + 1) [a] = some a from rfl] at h
    simp only [Option.some.injEq] at h
    subst h
    exact List.mem_singleton_self a
  | fuel + 1, a :: b :: rest, x, h => by
    rw [show treeMin cost (fuel + 1) (a :: b :: rest) =
      treeMin cost fuel (minPairs cost (a :: b :: rest)) from rfl] at h
    exact minPairs_mem cost _ x (treeMin_mem cost fuel _ x h)

theorem spatialCandidates_elim {tris : List Triangle} {items : List Nat}
    {nodeAabb : AABB} {d : Fin 3} {spat : SpatialSplit}
    (h : spat ∈ spatialCandidates tris items nodeAabb d) :
    spat.dimension = d ∧ ∃ p : Nat, 1 ≤ p ∧ p ≤ SBVH_BIN_COUNT - 1 ∧
      spat.index = (p : Int) ∧
      spat.aabb_left = (sweepLeftBox tris items nodeAabb d p).getD AABB_NULL ∧
      spat.aabb_right = (sweepRightBox tris items nodeAabb d p).getD AABB_NULL := by
  unfold spatialCandidates at h
  simp only [List.mem_map, List.mem_range] at h
  obtain ⟨j, hj, hrec⟩ := h
  subst hrec
  exact ⟨rfl, j + 1, by omega, by omega, rfl, rfl, rfl⟩

theorem partition_spatial_mem {tris : List Triangle} {idx : Fin 3 → List Nat}
    {first count : Nat} {nodeAabb : AABB} {spat : SpatialSplit}
    (h : partition_spatial tris idx first count nodeAabb = some spat) :
    spat ∈ spatialCandidates tris (sliceL (idx spat.dimension) first count)
      nodeAabb spat.dimension := by
  unfold partition_spatial at h
  have hm := treeMin_mem SpatialSplit.cost _ _ _ h
  simp only [List.mem_append] at hm
  rcases hm with (h0 | h1) | h2
  · have hd := (spatialCandidates_elim h0).1
    rw [hd]
    exact h0
  · have hd := (spatialCandidates_elim h1).1
    rw [hd]
    exact h1
  · have hd := (spatialCandidates_elim h2).1
    rw [hd]
    exact h2

theorem spatial_item_sides (tris : List Triangle) (items : List Nat)
    (nodeAabb : AABB) (d : Fin 3) (p : Nat) (v : Nat)
    (hnv : nodeAabb.is_valid = true)
    (hv : v ∈ items)
    (hclipv : (AABB.overlap (triAt tris v).aabb nodeAabb).is_valid = true)
    (hp1 : 1 ≤ p) (hpB : p ≤ SBVH_BIN_COUNT - 1) :
    cppInt ((SBVH_BIN_COUNT : ℚ) *
        (((AABB.overlap (triAt tris v).aabb nodeAabb).lo.nth d -
          (nodeAabb.lo.nth d - 1/1000)) /
         ((nodeAabb.hi.nth d + 1/1000) - (nodeAabb.lo.nth d - 1/1000)))) ≤
      cppInt ((SBVH_BIN_COUNT : ℚ) *
        (((AABB.overlap (triAt tris v).aabb nodeAabb).hi.nth d -
          (nodeAabb.lo.nth d - 1/1000)) /
         ((nodeAabb.hi.nth d + 1/1000) - (nodeAabb.lo.nth d - 1/1000)))) ∧
    (cppInt ((SBVH_BIN_COUNT : ℚ) *
        (((AABB.overlap (triAt tris v).aabb nodeAabb).lo.nth d -
          (nodeAabb.lo.nth d - 1/1000)) /
         ((nodeAabb.hi.nth d + 1/1000) - (nodeAabb.lo.nth d - 1/1000)))) <
        (p : Int) →
      ∃ L, sweepLeftBox tris items nodeAabb d p = some L ∧
        (ptBox (AABB.overlap (triAt tris v).aabb nodeAabb).lo).subset L) ∧
    ((p : Int) ≤ cppInt ((SBVH_BIN_COUNT : ℚ) *
        (((AABB.overlap (triAt tris v).aabb nodeAabb).hi.nth d -
          (nodeAabb.lo.nth d - 1/1000)) /
         ((nodeAabb.hi.nth d + 1/1000) - (nodeAabb.lo.nth d - 1/1000)))) →
      ∃ R, sweepRightBox tris items nodeAabb d p = some R ∧
        (ptBox (AABB.overlap (triAt tris v).aabb nodeAabb).hi).subset R) := by
  have hB : 0 < SBVH_BIN_COUNT := by decide
  set clip := AABB.overlap (triAt tris v).aabb nodeAabb with hclip
  set bmin : ℚ := nodeAabb.lo.nth d - 1/1000 with hbmin
  set delta : ℚ :=
    (nodeAabb.hi.nth d + 1/1000) - (nodeAabb.lo.nth d - 1/1000) with hdelta
  have hnode : nodeAabb.lo.nth d ≤ nodeAabb.hi.nth d := AABB.is_valid_nth hnv d
  have hd : 0 < delta := by rw [hdelta]; linarith
  have hx0eq : clip.lo.nth d =
      max ((triAt tris v).aabb.lo.nth d) (nodeAabb.lo.nth d) := by
    rw [hclip]
    show (Vec3.cmax ((triAt tris v).aabb.lo) nodeAabb.lo).nth d = _
    exact Vec3.nth_cmax _ _ d
  have hx1eq : clip.hi.nth d =
      min ((triAt tris v).aabb.hi.nth d) (nodeAabb.hi.nth d) := by
    rw [hclip]
    show (Vec3.cmin ((triAt tris v).aabb.hi) nodeAabb.hi).nth d = _
    exact Vec3.nth_cmin _ _ d
  have hvalid : clip.lo.nth d ≤ clip.hi.nth d := AABB.is_valid_nth hclipv d
  have hlo : bmin < clip.lo.nth d := by
    rw [hx0eq, hbmin]
    have := le_max_right ((triAt tris v).aabb.lo.nth d) (nodeAabb.lo.nth d)
    linarith
  have hhi : clip.hi.nth d < bmin + delta := by
    rw [hx1eq, hbmin, hdelta]
    have := min_le_right ((triAt tris v).aabb.hi.nth d) (nodeAabb.hi.nth d)
    linarith
  obtain ⟨hi00, hi01, hi02, hi03⟩ :=
    binCoord_bounds hB hd hlo (lt_of_le_of_lt hvalid hhi)
  obtain ⟨hi10, hi11, hi12, hi13⟩ :=
    binCoord_bounds hB hd (lt_of_lt_of_le hlo hvalid) hhi
  have hq00 : (0 : ℚ) ≤ (SBVH_BIN_COUNT : ℚ) * ((clip.lo.nth d - bmin) / delta) :=
    mul_nonneg (by positivity) (div_nonneg (by linarith) (le_of_lt hd))
  have hord : cppInt ((SBVH_BIN_COUNT : ℚ) * ((clip.lo.nth d - bmin) / delta)) ≤
      cppInt ((SBVH_BIN_COUNT : ℚ) * ((clip.hi.nth d - bmin) / delta)) := by
    apply cppInt_mono hq00
    apply mul_le_mul_of_nonneg_left _ (by positivity)
    exact (div_le_div_right hd).mpr (by linarith)
  refine ⟨hord, ?_, ?_⟩
  · intro hlt
    set i0 : Int :=
      cppInt ((SBVH_BIN_COUNT : ℚ) * ((clip.lo.nth d - bmin) / delta)) with hi0
    set i1 : Int :=
      cppInt ((SBVH_BIN_COUNT : ℚ) * ((clip.hi.nth d - bmin) / delta)) with hi1
    set b : Nat := clampBin SBVH_BIN_COUNT i0 with hbdef
    have hcast : (b : Int) = i0 := clampBin_cast hi00 hi01
    have hcast1 : (clampBin SBVH_BIN_COUNT i1 : Int) = i1 :=
      clampBin_cast hi10 hi11
    have hbp : b < p := by
      have hz : (b : Int) < (p : Int) := by rw [hcast]; exact hlt
      exact_mod_cast hz
    have hbB' : b < SBVH_BIN_COUNT := by
      have hz : (b : Int) ≤ (SBVH_BIN_COUNT : Int) - 1 := by
        rw [hcast]; exact hi01
      omega
    have hble : b ≤ clampBin SBVH_BIN_COUNT i1 := by
      have hz : (b : Int) ≤ (clampBin SBVH_BIN_COUNT i1 : Int) := by
        rw [hcast, hcast1]; exact hord
      exact_mod_cast hz
    obtain ⟨y, hy, hpiece⟩ := spatialBins_box_put tris nodeAabb d items
      (fun _ => ⟨none, 0, 0⟩) v hv b (le_refl b) hble hbB'
    rw [← spatialBins_eq_foldl] at hy
    have hbq : (b : ℚ) = (i0 : ℚ) := by exact_mod_cast hcast
    have hpt : (ptBox clip.lo).subset
        (slabClip clip d (bmin + (b : ℚ) * (delta / (SBVH_BIN_COUNT : ℚ)))
          (bmin + ((b : ℚ) + 1) * (delta / (SBVH_BIN_COUNT : ℚ)))) := by
      apply ptBox_subset_slabClip (ptBox_lo_subset hclipv)
      · show bmin + (b : ℚ) * (delta / (SBVH_BIN_COUNT : ℚ)) ≤ clip.lo.nth d
        rw [hbq]
        exact hi02
      · show clip.lo.nth d ≤ bmin + ((b : ℚ) + 1) * (delta / (SBVH_BIN_COUNT : ℚ))
        rw [hbq]
        exact le_of_lt hi03
    obtain ⟨L, hL, hyL⟩ := sweepLeftBox_sub tris items nodeAabb d hbp
      (by omega) hy
    exact ⟨L, hL, AABB.subset_trans (AABB.subset_trans hpt hpiece) hyL⟩
  · intro hge
    set i0 : Int :=
      cppInt ((SBVH_BIN_COUNT : ℚ) * ((clip.lo.nth d - bmin) / delta)) with hi0
    set i1 : Int :=
      cppInt ((SBVH_BIN_COUNT : ℚ) * ((clip.hi.nth d - bmin) / delta)) with hi1
    set b : Nat := clampBin SBVH_BIN_COUNT i1 with hbdef
    have hcast : (b : Int) = i1 := clampBin_cast hi10 hi11
    have hcast0 : (clampBin SBVH_BIN_COUNT i0 : Int) = i0 :=
      clampBin_cast hi00 hi01
    have hbp : p ≤ b := by
      have hz : (p : Int) ≤ (b : Int) := by rw [hcast]; exact hge
      exact_mod_cast hz
    have hbB' : b < SBVH_BIN_COUNT := by
      have hz : (b : Int) ≤ (SBVH_BIN_COUNT : Int) - 1 := by
        rw [hcast]; exact hi11
      omega
    have hble : clampBin SBVH_BIN_COUNT i0 ≤ b := by
      have hz : (clampBin SBVH_BIN_COUNT i0 : Int) ≤ (b : Int) := by
        rw [hcast, hcast0]; exact hord
      exact_mod_cast hz
    obtain ⟨y, hy, hpiece⟩ := spatialBins_box_put tris nodeAabb d items
      (fun _ => ⟨none, 0, 0⟩) v hv b hble (le_refl b) hbB'
    rw [← spatialBins_eq_foldl] at hy
    have hbq : (b : ℚ) = (i1 : ℚ) := by exact_mod_cast hcast
    have hpt : (ptBox clip.hi).subset
        (slabClip clip d (bmin + (b : ℚ) * (delta / (SBVH_BIN_COUNT : ℚ)))
          (bmin + ((b : ℚ) + 1) * (delta / (SBVH_BIN_COUNT : ℚ)))) := by
      apply ptBox_subset_slabClip (ptBox_hi_subset hclipv)
      · show bmin + (b : ℚ) * (delta / (SBVH_BIN_COUNT : ℚ)) ≤ clip.hi.nth d
        rw [hbq]
        exact hi12
      · show clip.hi.nth d ≤ bmin + ((b : ℚ) + 1) * (delta / (SBVH_BIN_COUNT : ℚ))
        rw [hbq]
        exact le_of_lt hi13
    obtain ⟨R, hR, hyR⟩ := sweepRightBox_sub tris items nodeAabb d hbp hbB' hy
    exact ⟨R, hR, AABB.subset_trans (AABB.subset_trans hpt hpiece) hyR⟩

theorem unsplit_step_sides (s : UnsplitState) (b : AABB) :
    ((unsplit_step s b).1 || (unsplit_step s b).2.1) = true := by
  unfold unsplit_step
  dsimp only
  split_ifs <;> rfl

theorem unsplit_step_aabbL (s : UnsplitState) (b : AABB) :
    (unsplit_step s b).2.2.aabbL = s.aabbL ∨
    (unsplit_step s b).2.2.aabbL = s.aabbL.expand b := by
  unfold unsplit_step
  dsimp only
  split_ifs
  · exact Or.inl rfl
  · exact Or.inr rfl
  · exact Or.inl rfl
  · exact Or.inl rfl

theorem unsplit_step_aabbR (s : UnsplitState) (b : AABB) :
    (unsplit_step s b).2.2.aabbR = s.aabbR ∨
    (unsplit_step s b).2.2.aabbR = s.aabbR.expand b := by
  unfold unsplit_step
  dsimp only
  split_ifs
  · exact Or.inr rfl
  · exact Or.inl rfl
  · exact Or.inr rfl
  · exact Or.inl rfl

theorem spatial_item_step_safe' (tris : List Triangle) (nodeAabb : AABB)
    (d : Fin 3) (si : Int) (st : SpatialLoopState) (v : Nat)
    (hor : cppInt ((SBVH_BIN_COUNT : ℚ) *
        (((AABB.overlap (triAt tris v).aabb nodeAabb).lo.nth d -
          (nodeAabb.lo.nth d - 1/1000)) /
         ((nodeAabb.hi.nth d + 1/1000) - (nodeAabb.lo.nth d - 1/1000)))) ≤
      cppInt ((SBVH_BIN_COUNT : ℚ) *
        (((AABB.overlap (triAt tris v).aabb nodeAabb).hi.nth d -
          (nodeAabb.lo.nth d - 1/1000)) /
         ((nodeAabb.hi.nth d + 1/1000) - (nodeAabb.lo.nth d - 1/1000)))))
    (hvl : cppInt ((SBVH_BIN_COUNT : ℚ) *
        (((AABB.overlap (triAt tris v).aabb nodeAabb).lo.nth d -
          (nodeAabb.lo.nth d - 1/1000)) /
         ((nodeAabb.hi.nth d + 1/1000) - (nodeAabb.lo.nth d - 1/1000)))) < si →
      (AABB.overlap (AABB.overlap (triAt tris v).aabb nodeAabb)
        st.us.aabbL).is_valid = true)
    (hvr : si ≤ cppInt ((SBVH_BIN_COUNT : ℚ) *
        (((AABB.overlap (triAt tris v).aabb nodeAabb).hi.nth d -
          (nodeAabb.lo.nth d - 1/1000)) /
         ((nodeAabb.hi.nth d + 1/1000) - (nodeAabb.lo.nth d - 1/1000)))) →
      (AABB.overlap (AABB.overlap (triAt tris v).aabb nodeAabb)
        st.us.aabbR).is_valid = true) :
    (spatial_item_step tris nodeAabb d si st v).ok = st.ok ∧
    ((spatial_item_step tris nodeAabb d si st v).us.aabbL = st.us.aabbL ∨
      (spatial_item_step tris nodeAabb d si st v).us.aabbL =
        st.us.aabbL.expand (AABB.overlap (triAt tris v).aabb nodeAabb)) ∧
    ((spatial_item_step tris nodeAabb d si st v).us.aabbR = st.us.aabbR ∨
      (spatial_item_step tris nodeAabb d si st v).us.aabbR =
        st.us.aabbR.expand (AABB.overlap (triAt tris v).aabb nodeAabb)) := by
  unfold spatial_item_step
  dsimp only
  by_cases h1 : cppInt ((SBVH_BIN_COUNT : ℚ) *
      (((AABB.overlap (triAt tris v).aabb nodeAabb).lo.nth d -
        (nodeAabb.lo.nth d - 1/1000)) /
       ((nodeAabb.hi.nth d + 1/1000) - (nodeAabb.lo.nth d - 1/1000)))) < si
  · rw [decide_eq_true h1, hvl h1]
    by_cases h2 : si ≤ cppInt ((SBVH_BIN_COUNT : ℚ) *
        (((AABB.overlap (triAt tris v).aabb nodeAabb).hi.nth d -
          (nodeAabb.lo.nth d - 1/1000)) /
         ((nodeAabb.hi.nth d + 1/1000) - (nodeAabb.lo.nth d - 1/1000))))
    · rw [decide_eq_true h2, hvr h2]
      simp only [Bool.true_and, Bool.and_true]
      rw [if_pos trivial]
      refine ⟨?_, unsplit_step_aabbL _ _, unsplit_step_aabbR _ _⟩
      dsimp only
      rw [unsplit_step_sides, Bool.and_true]
    · rw [decide_eq_false h2]
      rw [if_neg (by simp)]
      refine ⟨?_, Or.inl rfl, Or.inl rfl⟩
      dsimp only
      simp
  · rw [decide_eq_false h1]
    by_cases h2 : si ≤ cppInt ((SBVH_BIN_COUNT : ℚ) *
        (((AABB.overlap (triAt tris v).aabb nodeAabb).hi.nth d -
          (nodeAabb.lo.nth d - 1/1000)) /
         ((nodeAabb.hi.nth d + 1/1000) - (nodeAabb.lo.nth d - 1/1000))))
    · rw [decide_eq_true h2, hvr h2]
      rw [if_neg (by simp)]
      refine ⟨?_, Or.inl rfl, Or.inl rfl⟩
      dsimp only
      simp
    · exfalso
      omega

theorem spatial_item_step_safe (tris : List Triangle) (items : List Nat)
    (nodeAabb : AABB) (d : Fin 3) (p : Nat) (st : SpatialLoopState) (v : Nat)
    (hnv : nodeAabb.is_valid = true) (hv : v ∈ items)
    (hclipv : (AABB.overlap (triAt tris v).aabb nodeAabb).is_valid = true)
    (hp1 : 1 ≤ p) (hpB : p ≤ SBVH_BIN_COUNT - 1)
    (hL : ((sweepLeftBox tris items nodeAabb d p).getD AABB_NULL).subset
      st.us.aabbL)
    (hR : ((sweepRightBox tris items nodeAabb d p).getD AABB_NULL).subset
      st.us.aabbR) :
    (spatial_item_step tris nodeAabb d (p : Int) st v).ok = st.ok ∧
    ((sweepLeftBox tris items nodeAabb d p).getD AABB_NULL).subset
      (spatial_item_step tris nodeAabb d (p : Int) st v).us.aabbL ∧
    ((sweepRightBox tris items nodeAabb d p).getD AABB_NULL).subset
      (spatial_item_step tris nodeAabb d (p : Int) st v).us.aabbR := by
  obtain ⟨hord, hLs, hRs⟩ :=
    spatial_item_sides tris items nodeAabb d p v hnv hv hclipv hp1 hpB
  have hvl : cppInt ((SBVH_BIN_COUNT : ℚ) *
      (((AABB.overlap (triAt tris v).aabb nodeAabb).lo.nth d -
        (nodeAabb.lo.nth d - 1/1000)) /
       ((nodeAabb.hi.nth d + 1/1000) - (nodeAabb.lo.nth d - 1/1000)))) <
        (p : Int) →
      (AABB.overlap (AABB.overlap (triAt tris v).aabb nodeAabb)
        st.us.aabbL).is_valid = true := by
    intro hlt
    obtain ⟨L, hLeq, hpt⟩ := hLs hlt
    have hgd : (sweepLeftBox tris items nodeAabb d p).getD AABB_NULL = L := by
      rw [hLeq]; rfl
    exact overlap_valid_of_common (ptBox_lo_subset hclipv)
      (AABB.subset_trans hpt (hgd ▸ hL))
  have hvr : (p : Int) ≤ cppInt ((SBVH_BIN_COUNT : ℚ) *
      (((AABB.overlap (triAt tris v).aabb nodeAabb).hi.nth d -
        (nodeAabb.lo.nth d - 1/1000)) /
       ((nodeAabb.hi.nth d + 1/1000) - (nodeAabb.lo.nth d - 1/1000)))) →
      (AABB.overlap (AABB.overlap (triAt tris v).aabb nodeAabb)
        st.us.aabbR).is_valid = true := by
    intro hge
    obtain ⟨R, hReq, hpt⟩ := hRs hge
    have hgd : (sweepRightBox tris items nodeAabb d p).getD AABB_NULL = R := by
      rw [hReq]; rfl
    exact overlap_valid_of_common (ptBox_hi_subset hclipv)
      (AABB.subset_trans hpt (hgd ▸ hR))
  obtain ⟨hok, hLc, hRc⟩ :=
    spatial_item_step_safe' tris nodeAabb d (p : Int) st v hord hvl hvr
  refine ⟨hok, ?_, ?_⟩
  · rcases hLc with h | h
    · rw [h]; exact hL
    · rw [h]
      exact AABB.subset_trans hL (AABB.subset_expand_left _ _)
  · rcases hRc with h | h
    · rw [h]; exact hR
    · rw [h]
      exact AABB.subset_trans hR (AABB.subset_expand_left _ _)

theorem spatial_fold_safe (tris : List Triangle) (nodeAabb : AABB) (d : Fin 3)
    (items : List Nat) (p : Nat)
    (hnv : nodeAabb.is_valid = true)
    (hclipall : ∀ v ∈ items,
      (AABB.overlap (triAt tris v).aabb nodeAabb).is_valid = true)
    (hp1 : 1 ≤ p) (hpB : p ≤ SBVH_BIN_COUNT - 1) :
    ∀ (todo : List Nat), (∀ v ∈ todo, v ∈ items) →
    ∀ (st : SpatialLoopState), st.ok = true →
      ((sweepLeftBox tris items nodeAabb d p).getD AABB_NULL).subset
        st.us.aabbL →
      ((sweepRightBox tris items nodeAabb d p).getD AABB_NULL).subset
        st.us.aabbR →
      (todo.foldl (spatial_item_step tris nodeAabb d (p : Int)) st).ok = true := by
  intro todo
  induction todo with
  | nil => intro _ st hok _ _; exact hok
  | cons a rest ih =>
    intro hsub st hok hL hR
    rw [List.foldl_cons]
    have hmem := hsub a (List.mem_cons_self a rest)
    obtain ⟨hok', hL', hR'⟩ := spatial_item_step_safe tris items nodeAabb d p
      st a hnv hmem (hclipall a hmem) hp1 hpB hL hR
    exact ih (fun v hv => hsub v (List.mem_cons_of_mem a hv)) _
      (by rw [hok']; exact hok) hL' hR'

/-! ## Facts transported to the top-level build results -/

/-- Per-entry facts of every ghost trace entry of a successful
`SBVHBuilder::build`, projected from the master induction. -/
theorem SBVH_build_trace_facts {cfg : SBVHConfig} {tris : List Triangle}
    {r : BuildResult} (h : SBVHBuilder.build cfg tris = some r) :
    ∀ e ∈ r.trace,
      r.nodes e.slot = e.node ∧
      (e.isLeaf = false →
        ∃ o, e.obj = some o ∧
          e.node.left = e.allocStart ∧
          e.slot < e.node.left ∧
          e.node.count = (o.dimension.val + 1) <<< 30 ∧
          (∃ el ∈ r.trace, el.slot = e.node.left) ∧
          (∃ er ∈ r.trace, er.slot = e.node.left + 1) ∧
          (e.count ≤ cfg.max_primitives_in_leaf →
            chosenCost e < e.aabb.surface_area * (e.count : ℚ))) ∧
      (2 ≤ e.count → ∃ o, e.obj = some o ∧
        (e.spat.isSome = true ↔ sbvh_alpha < e.ratio)) := by
  obtain ⟨ret, st, hb, hover, hn, hnc, hic, hidx, htr, hwr⟩ :=
    SBVHBuilder_build_inv h
  have hout := build_sbvh_spec cfg tris ((rootAabb tris).surface_area)⁻¹
    (tris.length + 1) 0 0 tris.length (initState tris) ret st hb
    (by show (0 : Nat) < 2; omega)
  obtain ⟨h1, h2, td, wd, htd, hwd, hwiff, hret, hcnt, hself, hall⟩ := hout
  have htrace : r.trace = td := by
    rw [htr, htd]
    show td ++ [] = td
    simp
  intro e he
  rw [htrace] at he ⊢
  obtain ⟨hrange, hnode, hint, hsp⟩ := hall e he
  exact ⟨hn ▸ hnode, hint, hsp⟩

/-- Reference-slot accounting and the written-slot set of a successful
`SBVHBuilder::build`: slot 1 is never written. -/
theorem SBVH_build_out {cfg : SBVHConfig} {tris : List Triangle}
    {r : BuildResult} (h : SBVHBuilder.build cfg tris = some r) :
    r.index_count = leafSum r.trace ∧ tris.length ≤ r.index_count ∧
    (∀ s, s ∈ r.written ↔ (s = 0 ∨ (2 ≤ s ∧ s < r.node_count))) := by
  obtain ⟨ret, st, hb, hover, hn, hnc, hic, hidx, htr, hwr⟩ :=
    SBVHBuilder_build_inv h
  have hout := build_sbvh_spec cfg tris ((rootAabb tris).surface_area)⁻¹
    (tris.length + 1) 0 0 tris.length (initState tris) ret st hb
    (by show (0 : Nat) < 2; omega)
  obtain ⟨h1, h2, td, wd, htd, hwd, hwiff, hret, hcnt, hself, hall⟩ := hout
  have htrace : r.trace = td := by
    rw [htr, htd]
    show td ++ [] = td
    simp
  refine ⟨by rw [hic, htrace, hret], by rw [hic]; exact hcnt, ?_⟩
  intro s
  rw [hwr, hwd]
  show s ∈ wd ++ [0] ↔ _
  rw [List.mem_append, hwiff s, hnc]
  show (s = 0 ∨ 2 ≤ s ∧ s < st.node_index) ∨ s ∈ [0] ↔ _
  simp only [List.mem_singleton]
  constructor
  · rintro (hh | hh)
    · exact hh
    · exact Or.inl hh
  · intro hh
    exact Or.inl hh

/-- The overlap ratio of every trace entry of a successful
`SBVHBuilder::build` lies in `[0, 1]`. -/
theorem SBVH_build_ratio_all {cfg : SBVHConfig} {tris : List Triangle}
    {r : BuildResult} (h : SBVHBuilder.build cfg tris = some r) :
    ∀ e ∈ r.trace, 0 ≤ e.ratio ∧ e.ratio ≤ 1 := by
  obtain ⟨ret, st, hb, hover, hn, hnc, hic, hidx, htr, hwr⟩ :=
    SBVHBuilder_build_inv h
  have hrat := build_sbvh_ratio cfg tris (rootAabb tris) (tris.length + 1)
    0 0 tris.length (initState tris) ret st hb
    (build_rangeInRoot tris)
    (by intro e he; exact absurd he (List.not_mem_nil e))
  intro e he
  rw [htr] at he
  exact hrat e he

/-- Node-count bound and per-entry facts of a successful plain-BVH build:
interior nodes pass the strict SAH comparison of BVHBuilder.cpp line 30. -/
theorem PBVH_build_facts {tris : List Triangle} {r : PBuildResult}
    (h : BVHBuilders_build_bvh tris = some r) :
    r.node_count ≤ 2 * max tris.length 1 ∧
    r.index_count = tris.length ∧
    ∀ e ∈ r.trace,
      r.nodes e.slot = e.node ∧
      (e.isLeaf = false →
        ∃ o, e.split = some o ∧ e.node.left = e.allocStart ∧
          e.slot < e.node.left ∧
          e.node.count = (o.dimension.val + 1) <<< 30 ∧
          o.cost < e.aabb.surface_area * (e.count : ℚ)) := by
  obtain ⟨st, hb, hn, hnc, hic, hidx, htr, hwr⟩ := BVHBuilders_build_inv h
  have hout := build_bvh_spec tris (tris.length + 1) 0 0 tris.length
    (initStateP tris) st hb
    (by show (0 : Nat) < 2; omega)
    (by
      intro d
      show 0 + tris.length ≤ (initIdx tris d).length
      rw [initIdx_length]
      omega)
  obtain ⟨h1, h2, h3, h4, td, wd, htd, hwd, hw, ha, hwa, hself, hall⟩ := hout
  have htrace : r.trace = td := by
    rw [htr, htd]
    show td ++ [] = td
    simp
  have hbound : r.node_count ≤ 2 * max tris.length 1 := by
    rw [hnc]
    have h2' : st.node_index + 2 ≤ 2 + 2 * max tris.length 1 := h2
    omega
  refine ⟨hbound, hic, ?_⟩
  intro e he
  rw [htrace] at he
  obtain ⟨hrange, hnode, hint⟩ := hall e he
  refine ⟨hn ▸ hnode, ?_⟩
  intro hl
  obtain ⟨o, k1, k2, k3, k4, -, -, k5⟩ := hint hl
  exact ⟨o, k1, k2, k3, k4, k5⟩

/-- Layout facts of a successful plain-BVH build: both children of every
interior node are written nodes with slots at least 2, every written slot
is 0 or lies in `[2, node_count)`, and the two slots a SAH-terminated leaf
reserves (BVHBuilder.cpp lines 21-22, before the termination check of line
30) are never written. -/
theorem PBVH_layout_facts {tris : List Triangle} {r : PBuildResult}
    (h : BVHBuilders_build_bvh tris = some r) :
    (∀ e ∈ r.trace, e.isLeaf = false →
      2 ≤ e.node.left ∧
      (∃ el ∈ r.trace, el.slot = e.node.left) ∧
      (∃ er ∈ r.trace, er.slot = e.node.left + 1)) ∧
    (∀ s, s ∈ r.written → (s = 0 ∨ (2 ≤ s ∧ s < r.node_count))) ∧
    (∀ e ∈ r.trace, e.isLeaf = true → e.allocEnd = e.allocStart + 2 →
      e.allocStart ∉ r.written ∧ e.allocStart + 1 ∉ r.written) := by
  obtain ⟨st, hb, hn, hnc, hic, hidx, htr, hwr⟩ := BVHBuilders_build_inv h
  have hout := build_bvh_spec tris (tris.length + 1) 0 0 tris.length
    (initStateP tris) st hb
    (by show (0 : Nat) < 2; omega)
    (by
      intro d
      show 0 + tris.length ≤ (initIdx tris d).length
      rw [initIdx_length]
      omega)
  obtain ⟨h1, h2, h3, h4, td, wd, htd, hwd, hw, ha, hwa, hself, hall⟩ := hout
  have htrace : r.trace = td := by
    rw [htr, htd]
    show td ++ [] = td
    simp
  have hwritten : r.written = wd := by
    rw [hwr, hwd]
    show wd ++ [] = wd
    simp
  have hw' : ∀ s, s ∈ wd → (s = 0 ∨ (2 ≤ s ∧ s < st.node_index)) := hw
  have ha' : ∀ e ∈ td, 2 ≤ e.allocStart ∧ e.allocStart ≤ e.allocEnd ∧
      e.allocEnd ≤ st.node_index := ha
  refine ⟨?_, ?_, ?_⟩
  · intro e he hl
    rw [htrace] at he
    obtain ⟨hrange, hnode, hint⟩ := hall e he
    obtain ⟨o, k1, k2, k3, k4, kel, ker, k5⟩ := hint hl
    obtain ⟨ha1, ha2, ha3⟩ := ha' e he
    refine ⟨by rw [k2]; omega, ?_, ?_⟩
    · rw [htrace]; exact kel
    · rw [htrace]; exact ker
  · intro s hsw
    rw [hwritten] at hsw
    rcases hw' s hsw with h' | h'
    · exact Or.inl h'
    · right
      rw [hnc]
      exact h'
  · intro e he hleaf hae
    rw [htrace] at he
    rw [hwritten]
    exact hwa e he hleaf hae

/-! ## Concrete builds used by witnesses and counterexamples -/

set_option allowUnsafeReducibility true in
attribute [semireducible] Rat.mul Rat.add Rat.sub Rat.div Rat.inv Rat.neg
  Rat.blt

/-! ## The claims -/

/-- C1: corrected — `build_sbvh` stores the OBJECT split's axis in the
2-bit tag of every interior node (SBVHBuilder.cpp line 79, written before
the object/spatial choice of lines 92-145), so when the spatial split wins
with a different axis the tag still records the object split's axis, not
the chosen split's. -/
theorem c1_axis_tag (cfg : SBVHConfig) (tris : List Triangle) (r : BuildResult)
    (e : TraceEntry) (h : SBVHBuilder.build cfg tris = some r)
    (he : e ∈ r.trace) (hl : e.isLeaf = false) :
    e.obj.isSome = true ∧ e.node.count = (objDim e + 1) <<< 30 := by
  obtain ⟨o, ho, _, _, hcnt, _⟩ := (SBVH_build_trace_facts h e he).2.1 hl
  have hdim : objDim e = o.dimension.val := by
    simp [objDim, ho]
  rw [hdim]
  exact ⟨by rw [ho]; rfl, hcnt⟩

/-- C1 witness: the interior root node of the two-disjoint-triangle build
carries its object split's axis tag. -/
theorem c1_axis_tag_witness :
    eDisjoint.obj.isSome = true ∧
      eDisjoint.node.count = (objDim eDisjoint + 1) <<< 30 :=
  c1_axis_tag cfg2 sceneDisjoint (buildOf cfg2 sceneDisjoint) eDisjoint rfl
    (by decide) (by decide)

set_option maxRecDepth 1000000 in
set_option maxHeartbeats 16000000 in
/-- C1 counterexample: at the root of `sceneSpanY` the spatial split (axis
1, cost 88) strictly beats the object split (axis 0, cost 94), so the
spatial split is the chosen one, yet the interior node's tag is
`(0 + 1) <<< 30` — the object split's axis, not the spatial split's. -/
theorem c1_axis_tag_counterexample :
    ((rootEntry cfg2 sceneSpanY).map (fun e =>
      ((e.isLeaf, e.obj.map (fun o => o.dimension.val),
        e.obj.map ObjectSplit.cost),
       (e.spat.map (fun s => s.dimension.val),
        e.spat.map SpatialSplit.cost, e.node.count)))) =
      some ((false, some 0, some (94 : ℚ)),
        (some 1, some (88 : ℚ), 1 <<< 30)) := by
  decide

/-- C2: corrected — the spatial-split gate threshold is the source constant
`alpha = 10e-5 = 1e-4` (SBVHBuilder.cpp line 28), not the spec's `1e-5`: at
every node with at least two references a spatial candidate exists exactly
when the object-split child-overlap ratio (overlap surface area divided by
the root surface area, recorded in the trace) strictly exceeds `1/10000`;
otherwise the spatial cost stays infinite (`none`). -/
theorem c2_spatial_gate (cfg : SBVHConfig) (tris : List Triangle)
    (r : BuildResult) (e : TraceEntry) (h : SBVHBuilder.build cfg tris = some r)
    (he : e ∈ r.trace) (hc : 2 ≤ e.count) :
    sbvh_alpha = 1 / 10000 ∧ e.obj.isSome = true ∧
      (e.spat.isSome = true ↔ sbvh_alpha < e.ratio) := by
  obtain ⟨o, ho, hiff⟩ := (SBVH_build_trace_facts h e he).2.2 hc
  exact ⟨by norm_num [sbvh_alpha], by rw [ho]; rfl, hiff⟩

/-- C2 witness: the root of the disjoint scene (ratio 0, no candidate). -/
theorem c2_spatial_gate_witness :
    sbvh_alpha = 1 / 10000 ∧ eDisjoint.obj.isSome = true ∧
      (eDisjoint.spat.isSome = true ↔ sbvh_alpha < eDisjoint.ratio) :=
  c2_spatial_gate cfg2 sceneDisjoint (buildOf cfg2 sceneDisjoint) eDisjoint rfl
    (by decide) (by decide)

/-- C2 counterexample: two triangles overlapping on `1/10000` of the x
extent give a root overlap ratio `1/20000`, which exceeds the spec's `1e-5`
— so the spec demands a spatial candidate — but the build leaves the
spatial cost infinite (`none`), because the code's threshold is `1e-4`. -/
theorem c2_spatial_gate_counterexample :
    ((rootEntry cfg2 sceneTinyOverlap).map (fun e =>
      (e.count, decide ((1 : ℚ) / 100000 < e.ratio), e.ratio,
        e.spat.isSome))) = some (2, true, 1 / 20000, false) := by
  decide

/-- C3: corrected — in both builders every successful build is pre-order
with the root at slot 0: every interior node's left-child slot exceeds its
own slot, the right child sits at `left_child + 1`, and both child slots
are written nodes of the tree.  But it is NOT true that every slot in
`[0, node_count)` is a written node: the SBVH builder writes exactly the
slots `{0} ∪ [2, node_count)` — slot 1 is reserved by `node_index`
starting at 2 and never written — and the plain builder writes only slot 0
and slots in `[2, node_count)` and, in addition, never writes the two
slots it reserves before a SAH-terminated leaf (reserved at
BVHBuilder.cpp lines 21-22, before the termination check of line 30). -/
theorem c3_layout (cfg : SBVHConfig) (tris tris' : List Triangle)
    (r : BuildResult) (rp : PBuildResult)
    (h : SBVHBuilder.build cfg tris = some r)
    (hp : BVHBuilders_build_bvh tris' = some rp) :
    ((∀ e ∈ r.trace, e.isLeaf = false →
        e.slot < e.node.left ∧
        (∃ el ∈ r.trace, el.slot = e.node.left) ∧
        (∃ er ∈ r.trace, er.slot = e.node.left + 1)) ∧
      (∀ s, s ∈ r.written ↔ (s = 0 ∨ (2 ≤ s ∧ s < r.node_count)))) ∧
    ((∀ e ∈ rp.trace, e.isLeaf = false →
        e.slot < e.node.left ∧ 2 ≤ e.node.left ∧
        (∃ el ∈ rp.trace, el.slot = e.node.left) ∧
        (∃ er ∈ rp.trace, er.slot = e.node.left + 1)) ∧
      (∀ s, s ∈ rp.written → (s = 0 ∨ (2 ≤ s ∧ s < rp.node_count))) ∧
      (∀ e ∈ rp.trace, e.isLeaf = true → e.allocEnd = e.allocStart + 2 →
        e.allocStart ∉ rp.written ∧ e.allocStart + 1 ∉ rp.written)) := by
  obtain ⟨hpre, hwr, hwaste⟩ := PBVH_layout_facts hp
  refine ⟨⟨?_, (SBVH_build_out h).2.2⟩, ?_, hwr, hwaste⟩
  · intro e he hl
    obtain ⟨o, ho, ha, hb, hcnt, hel, her, -⟩ :=
      (SBVH_build_trace_facts h e he).2.1 hl
    exact ⟨hb, hel, her⟩
  · intro e he hl
    obtain ⟨h2le, hel, her⟩ := hpre e he hl
    have hslot : e.slot < e.node.left := by
      obtain ⟨o, k1, k2, k3, k4, k5⟩ := ((PBVH_build_facts hp).2.2 e he).2 hl
      exact k3
    exact ⟨hslot, h2le, hel, her⟩

/-- C3 witness: the two-disjoint-triangle scene built by both builders. -/
theorem c3_layout_witness :
    ((∀ e ∈ (buildOf cfg2 sceneDisjoint).trace, e.isLeaf = false →
        e.slot < e.node.left ∧
        (∃ el ∈ (buildOf cfg2 sceneDisjoint).trace, el.slot = e.node.left) ∧
        (∃ er ∈ (buildOf cfg2 sceneDisjoint).trace,
          er.slot = e.node.left + 1)) ∧
      (∀ s, s ∈ (buildOf cfg2 sceneDisjoint).written ↔
        (s = 0 ∨ (2 ≤ s ∧ s < (buildOf cfg2 sceneDisjoint).node_count)))) ∧
    ((∀ e ∈ (pbuildOf sceneDisjoint).trace, e.isLeaf = false →
        e.slot < e.node.left ∧ 2 ≤ e.node.left ∧
        (∃ el ∈ (pbuildOf sceneDisjoint).trace, el.slot = e.node.left) ∧
        (∃ er ∈ (pbuildOf sceneDisjoint).trace,
          er.slot = e.node.left + 1)) ∧
      (∀ s, s ∈ (pbuildOf sceneDisjoint).written →
        (s = 0 ∨ (2 ≤ s ∧ s < (pbuildOf sceneDisjoint).node_count))) ∧
      (∀ e ∈ (pbuildOf sceneDisjoint).trace, e.isLeaf = true →
        e.allocEnd = e.allocStart + 2 →
        e.allocStart ∉ (pbuildOf sceneDisjoint).written ∧
        e.allocStart + 1 ∉ (pbuildOf sceneDisjoint).written)) :=
  c3_layout cfg2 sceneDisjoint sceneDisjoint (buildOf cfg2 sceneDisjoint)
    (pbuildOf sceneDisjoint) rfl rfl

/-- C3 counterexample: the plain build of three coincident triangles
SAH-terminates at the root (the split could not beat the leaf cost), but
only after reserving the two child slots: the root trace entry is a leaf
with `allocStart = 2`, `allocEnd = 4`, the final `node_count` is 4, yet
slots 1, 2 and 3 are all unwritten — so neither is every slot in
`[0, node_count)` a written node, nor are the two reserved slots of a
SAH-terminated leaf ever written. -/
theorem c3_layout_counterexample :
    (BVHBuilders_build_bvh sceneCoincident).map
      (fun r => ((r.node_count,
          r.trace.head?.map (fun e => (e.isLeaf, e.allocStart, e.allocEnd))),
        (decide (1 ∈ r.written), decide (2 ∈ r.written),
          decide (3 ∈ r.written)))) =
      some ((4, some (true, 2, 4)), (false, false, false)) := by
  decide

/-- C4: confirmed — a successful `SBVHBuilder::build` stores the root
call's return value (the number of reference slots the whole tree occupies)
as `index_count`; it equals the sum of `count` over all leaf entries of the
trace and is at least the triangle count `N` (spatial splits only duplicate
references). -/
theorem c4_reference_accounting (cfg : SBVHConfig) (tris : List Triangle)
    (r : BuildResult) (h : SBVHBuilder.build cfg tris = some r) :
    r.index_count = leafSum r.trace ∧ tris.length ≤ r.index_count :=
  ⟨(SBVH_build_out h).1, (SBVH_build_out h).2.1⟩

/-- C4 witness: the disjoint-scene build (`index_count = 2 = N`). -/
theorem c4_reference_accounting_witness :
    (buildOf cfg2 sceneDisjoint).index_count =
        leafSum (buildOf cfg2 sceneDisjoint).trace ∧
      sceneDisjoint.length ≤ (buildOf cfg2 sceneDisjoint).index_count :=
  c4_reference_accounting cfg2 sceneDisjoint (buildOf cfg2 sceneDisjoint) rfl

/-- C5: corrected — neither builder returns the spec's empty tree: on the
empty input the SBVH builder aborts (`partition_sah` finds no split and the
`assert(object_split_index != -1)` of SBVHBuilder.cpp line 26 fails), while
the plain builder returns `node_count = 2` (a root leaf with `count = 0`
plus the permanently reserved slot 1) with `index_count = 0`; a
one-primitive input does build a single leaf rooted at node 0 (references
`[first, first + count) = [0, 1)`) in both builders, again with
`node_count = 2`. -/
theorem c5_small_inputs :
    SBVHBuilder.build cfg2 [] = none ∧
    (BVHBuilders_build_bvh []).map (fun r => (r.node_count, r.index_count)) =
      some (2, 0) ∧
    (SBVHBuilder.build cfg2 [triS2]).map (fun r =>
      (r.node_count, r.index_count, (r.nodes 0).left, (r.nodes 0).count)) =
      some (2, 1, 0, 1) ∧
    (BVHBuilders_build_bvh [triS2]).map (fun r =>
      (r.node_count, r.index_count, (r.nodes 0).left, (r.nodes 0).count)) =
      some (2, 1, 0, 1) :=
  ⟨rfl, by decide, by decide, by decide⟩

/-- C5 counterexample: on the empty input the SBVH builder aborts and the
plain builder returns two node slots — neither matches the spec's
`node_count = 0` (or a single documented empty leaf). -/
theorem c5_small_inputs_counterexample :
    SBVHBuilder.build cfg2 [] = none ∧
    (BVHBuilders_build_bvh []).map (fun r => r.node_count) = some 2 :=
  ⟨rfl, by decide⟩

/-- C6: confirmed — the unsplit decision of SBVHBuilder.cpp lines 209-251
for a straddling primitive: it goes exclusively left iff `c_1 < c_split`
and `c_1 ≤ c_2` (ties between the two single-sided costs go left),
exclusively right iff `c_2 < c_split` and either `c_2 < c_1` or
`¬ c_1 < c_split`, and to both sides iff neither single-sided cost beats
`c_split`; dropping a side expands the kept side's AABB by the primitive's
clipped AABB and decrements the dropped side's running count. -/
theorem c6_unsplit_heuristic (s : UnsplitState) (b : AABB) :
    (unsplit_step s b =
        (true, false, { s with n2 := s.n2 - 1, aabbL := s.aabbL.expand b }) ↔
      c_left_only s b < c_split s ∧ ¬ c_right_only s b < c_left_only s b) ∧
    (unsplit_step s b =
        (false, true, { s with n1 := s.n1 - 1, aabbR := s.aabbR.expand b }) ↔
      c_right_only s b < c_split s ∧
        (c_right_only s b < c_left_only s b ∨ ¬ c_left_only s b < c_split s)) ∧
    (unsplit_step s b = (true, true, s) ↔
      ¬ c_left_only s b < c_split s ∧ ¬ c_right_only s b < c_split s) := by
  unfold unsplit_step
  simp only []
  split_ifs with h1 h2 h3
  · refine ⟨⟨fun hh => absurd hh (by simp), fun hh => absurd h2 hh.2⟩,
      ⟨fun _ => ⟨h2.trans h1, Or.inl h2⟩, fun _ => rfl⟩,
      ⟨fun hh => absurd hh (by simp), fun hh => absurd h1 hh.1⟩⟩
  · refine ⟨⟨fun _ => ⟨h1, h2⟩, fun _ => rfl⟩,
      ⟨fun hh => absurd hh (by simp), ?_⟩,
      ⟨fun hh => absurd hh (by simp), fun hh => absurd h1 hh.1⟩⟩
    rintro ⟨-, hor⟩
    rcases hor with hh | hh
    · exact absurd hh h2
    · exact absurd h1 hh
  · refine ⟨⟨fun hh => absurd hh (by simp), fun hh => absurd hh.1 h1⟩,
      ⟨fun _ => ⟨h3, Or.inr h1⟩, fun _ => rfl⟩,
      ⟨fun hh => absurd hh (by simp), fun hh => absurd h3 hh.2⟩⟩
  · refine ⟨⟨fun hh => absurd hh (by simp), fun hh => absurd hh.1 h1⟩,
      ⟨fun hh => absurd hh (by simp), ?_⟩,
      ⟨fun _ => ⟨h1, h3⟩, fun _ => rfl⟩⟩
    rintro ⟨hc2, -⟩
    exact absurd hc2 h3

/-- C7: confirmed — the partition assertions hold on valid input.  Under
the builder's maintained range invariants (at least two references, all
three axis ranges in bounds and holding the same references, a valid node
AABB, and every referenced triangle's AABB overlapping the node box
validly): the object-split search cannot return the fatal `-1`; the
object-split reshuffle sends every reference of every axis range to
exactly one side, with equal left (right) counts across the three axes
(the asserts of SBVHBuilder.cpp lines 132-133); and the spatial-split
classification of the plane the builder chose never strands a reference —
the accumulated `ok` flag of the `assert(goes_left || goes_right)` of
line 253 stays true, every reference of every axis range lands on at
least one side, and the left (right) counts again agree across the three
axes (the asserts of lines 273-275). -/
theorem c7_partition_sides (tris : List Triangle) (idx : Fin 3 → List Nat)
    (first count : Nat) (nodeAabb : AABB)
    (hc : 2 ≤ count)
    (hlen : ∀ d : Fin 3, first + count ≤ (idx d).length)
    (hperm : ∀ d d' : Fin 3,
      (sliceL (idx d) first count).Perm (sliceL (idx d') first count))
    (hnv : nodeAabb.is_valid = true)
    (hclip : ∀ v ∈ sliceL (idx 0) first count,
      (AABB.overlap (triAt tris v).aabb nodeAabb).is_valid = true) :
    (partition_object tris idx first count).isSome = true ∧
    (∀ obj : ObjectSplit,
      (∀ dim : Fin 3, ∀ v ∈ sliceL (idx dim) first count,
        (v ∈ (sliceL (idx dim) first count).filter
            (objGoesLeft tris idx first obj) ∧
          v ∉ (sliceL (idx dim) first count).filter
            (fun i => !(objGoesLeft tris idx first obj i))) ∨
        (v ∉ (sliceL (idx dim) first count).filter
            (objGoesLeft tris idx first obj) ∧
          v ∈ (sliceL (idx dim) first count).filter
            (fun i => !(objGoesLeft tris idx first obj i)))) ∧
      (∀ dim dim' : Fin 3,
        ((sliceL (idx dim) first count).filter
            (objGoesLeft tris idx first obj)).length =
          ((sliceL (idx dim') first count).filter
            (objGoesLeft tris idx first obj)).length ∧
        ((sliceL (idx dim) first count).filter
            (fun i => !(objGoesLeft tris idx first obj i))).length =
          ((sliceL (idx dim') first count).filter
            (fun i => !(objGoesLeft tris idx first obj i))).length)) ∧
    (∀ spat : SpatialSplit,
      partition_spatial tris idx first count nodeAabb = some spat →
      (spatialClassify tris idx first count nodeAabb spat).ok = true ∧
      (∀ dim : Fin 3, ∀ v ∈ sliceL (idx dim) first count,
        v ∈ (sliceL (idx dim) first count).filter
            (spatialClassify tris idx first count nodeAabb spat).going_left ∨
        v ∈ (sliceL (idx dim) first count).filter
            (spatialClassify tris idx first count nodeAabb spat).going_right) ∧
      (∀ dim dim' : Fin 3,
        ((sliceL (idx dim) first count).filter
            (spatialClassify tris idx first count nodeAabb
              spat).going_left).length =
          ((sliceL (idx dim') first count).filter
            (spatialClassify tris idx first count nodeAabb
              spat).going_left).length ∧
        ((sliceL (idx dim) first count).filter
            (spatialClassify tris idx first count nodeAabb
              spat).going_right).length =
          ((sliceL (idx dim') first count).filter
            (spatialClassify tris idx first count nodeAabb
              spat).going_right).length)) := by
  refine ⟨partition_object_isSome hc (hlen 0), ?_, ?_⟩
  · intro obj
    constructor
    · intro dim v hv
      cases hgl : objGoesLeft tris idx first obj v
      · right
        constructor
        · intro hmem
          have hx := (List.mem_filter.mp hmem).2
          rw [hgl] at hx
          exact absurd hx (by simp)
        · exact List.mem_filter.mpr ⟨hv, by rw [hgl]; rfl⟩
      · left
        constructor
        · exact List.mem_filter.mpr ⟨hv, hgl⟩
        · intro hmem
          have hx := (List.mem_filter.mp hmem).2
          rw [hgl] at hx
          exact absurd hx (by simp)
    · intro dim dim'
      exact ⟨((hperm dim dim').filter _).length_eq,
        ((hperm dim dim').filter _).length_eq⟩
  · intro spat hsp
    have hmem := partition_spatial_mem hsp
    obtain ⟨hdim, p, hp1, hpB, hidxp, hal, har⟩ := spatialCandidates_elim hmem
    have hclipd : ∀ v ∈ sliceL (idx spat.dimension) first count,
        (AABB.overlap (triAt tris v).aabb nodeAabb).is_valid = true := by
      intro v hv
      exact hclip v ((hperm spat.dimension 0).mem_iff.mp hv)
    have hok : (spatialClassify tris idx first count nodeAabb spat).ok = true := by
      unfold spatialClassify
      rw [hidxp]
      exact spatial_fold_safe tris nodeAabb spat.dimension
        (sliceL (idx spat.dimension) first count) p hnv hclipd hp1 hpB
        (sliceL (idx spat.dimension) first count) (fun v hv => hv)
        _ rfl (by rw [← hal]; exact AABB.subset_refl _)
        (by rw [← har]; exact AABB.subset_refl _)
    have hok2 : ((sliceL (idx spat.dimension) first count).foldl
        (spatial_item_step tris nodeAabb spat.dimension spat.index)
        { us := { aabbL := spat.aabb_left, aabbR := spat.aabb_right,
                  n1 := (spat.count_left : ℚ), n2 := (spat.count_right : ℚ) },
          going_left := fun _ => false, going_right := fun _ => false,
          rejected_left := 0, rejected_right := 0, ok := true }).ok = true := hok
    obtain ⟨-, hall2⟩ := spatial_fold_props tris nodeAabb spat.dimension
      spat.index (sliceL (idx spat.dimension) first count) _ hok2
    refine ⟨hok, ?_, ?_⟩
    · intro dim v hv
      have hvd : v ∈ sliceL (idx spat.dimension) first count :=
        (hperm dim spat.dimension).mem_iff.mp hv
      have hside := hall2 v hvd
      rcases (Bool.or_eq_true _ _).mp hside with h | h
      · exact Or.inl (List.mem_filter.mpr ⟨hv, h⟩)
      · exact Or.inr (List.mem_filter.mpr ⟨hv, h⟩)
    · intro dim dim'
      exact ⟨((hperm dim dim').filter _).length_eq,
        ((hperm dim dim').filter _).length_eq⟩

/-- C7 witness: the root range of the two-disjoint-triangle scene
satisfies the input invariants, so the assert-safety facts hold there. -/
theorem c7_partition_sides_witness :
    (partition_object sceneDisjoint (initIdx sceneDisjoint) 0 2).isSome = true ∧
    (∀ obj : ObjectSplit,
      (∀ dim : Fin 3, ∀ v ∈ sliceL (initIdx sceneDisjoint dim) 0 2,
        (v ∈ (sliceL (initIdx sceneDisjoint dim) 0 2).filter
            (objGoesLeft sceneDisjoint (initIdx sceneDisjoint) 0 obj) ∧
          v ∉ (sliceL (initIdx sceneDisjoint dim) 0 2).filter
            (fun i => !(objGoesLeft sceneDisjoint (initIdx sceneDisjoint) 0 obj i))) ∨
        (v ∉ (sliceL (initIdx sceneDisjoint dim) 0 2).filter
            (objGoesLeft sceneDisjoint (initIdx sceneDisjoint) 0 obj) ∧
          v ∈ (sliceL (initIdx sceneDisjoint dim) 0 2).filter
            (fun i => !(objGoesLeft sceneDisjoint (initIdx sceneDisjoint) 0 obj i)))) ∧
      (∀ dim dim' : Fin 3,
        ((sliceL (initIdx sceneDisjoint dim) 0 2).filter
            (objGoesLeft sceneDisjoint (initIdx sceneDisjoint) 0 obj)).length =
          ((sliceL (initIdx sceneDisjoint dim') 0 2).filter
            (objGoesLeft sceneDisjoint (initIdx sceneDisjoint) 0 obj)).length ∧
        ((sliceL (initIdx sceneDisjoint dim) 0 2).filter
            (fun i => !(objGoesLeft sceneDisjoint (initIdx sceneDisjoint) 0 obj i))).length =
          ((sliceL (initIdx sceneDisjoint dim') 0 2).filter
            (fun i => !(objGoesLeft sceneDisjoint (initIdx sceneDisjoint) 0 obj i))).length)) ∧
    (∀ spat : SpatialSplit,
      partition_spatial sceneDisjoint (initIdx sceneDisjoint) 0 2 (rootAabb sceneDisjoint) = some spat →
      (spatialClassify sceneDisjoint (initIdx sceneDisjoint) 0 2 (rootAabb sceneDisjoint) spat).ok = true ∧
      (∀ dim : Fin 3, ∀ v ∈ sliceL (initIdx sceneDisjoint dim) 0 2,
        v ∈ (sliceL (initIdx sceneDisjoint dim) 0 2).filter
            (spatialClassify sceneDisjoint (initIdx sceneDisjoint) 0 2 (rootAabb sceneDisjoint) spat).going_left ∨
        v ∈ (sliceL (initIdx sceneDisjoint dim) 0 2).filter
            (spatialClassify sceneDisjoint (initIdx sceneDisjoint) 0 2 (rootAabb sceneDisjoint) spat).going_right) ∧
      (∀ dim dim' : Fin 3,
        ((sliceL (initIdx sceneDisjoint dim) 0 2).filter
            (spatialClassify sceneDisjoint (initIdx sceneDisjoint) 0 2 (rootAabb sceneDisjoint)
              spat).going_left).length =
          ((sliceL (initIdx sceneDisjoint dim') 0 2).filter
            (spatialClassify sceneDisjoint (initIdx sceneDisjoint) 0 2 (rootAabb sceneDisjoint)
              spat).going_left).length ∧
        ((sliceL (initIdx sceneDisjoint dim) 0 2).filter
            (spatialClassify sceneDisjoint (initIdx sceneDisjoint) 0 2 (rootAabb sceneDisjoint)
              spat).going_right).length =
          ((sliceL (initIdx sceneDisjoint dim') 0 2).filter
            (spatialClassify sceneDisjoint (initIdx sceneDisjoint) 0 2 (rootAabb sceneDisjoint)
              spat).going_right).length)) :=
  c7_partition_sides sceneDisjoint (initIdx sceneDisjoint) 0 2
    (rootAabb sceneDisjoint) (by decide) (by decide) (by decide) (by decide)
    (by decide)

/-- C8: confirmed — for any input with at least one triangle the plain
builder succeeds (its recursion needs no more fuel than the reference
count) and ends with `node_count ≤ 2 · N`, despite reserving the two child
slots before the SAH termination check: each call consumes at most
`2 · max count 1` slots beyond its own, so the final `node_index` honours
the `assert(node_index <= 2 * triangle_count)` of BVHBuilder.cpp line 80. -/
theorem c8_node_bound (tris : List Triangle) (hN : 1 ≤ tris.length) :
    (BVHBuilders_build_bvh tris).isSome = true ∧
    ∀ r, BVHBuilders_build_bvh tris = some r →
      r.node_count ≤ 2 * tris.length := by
  obtain ⟨r0, hr0⟩ := BVHBuilders_build_isSome tris
  refine ⟨by rw [hr0]; rfl, ?_⟩
  intro r hr
  have hb := (PBVH_build_facts hr).1
  rw [Nat.max_eq_left hN] at hb
  exact hb

/-- C8 witness: the one-triangle build (`node_count = 2 = 2 · 1`). -/
theorem c8_node_bound_witness :
    (BVHBuilders_build_bvh [triS2]).isSome = true ∧
    ∀ r, BVHBuilders_build_bvh [triS2] = some r →
      r.node_count ≤ 2 * [triS2].length :=
  c8_node_bound [triS2] (by decide)

/-- C9: corrected — the strict SAH bound on the chosen split holds only
where the leaf/split comparison actually ran: in the SBVH builder that is
at interior nodes with `count ≤ max_primitives_in_leaf` (above the cap the
node is split without any comparison, and the chosen cost can equal the
leaf cost, e.g. on coincident primitives); the plain builder compares at
every interior node, so its strict bound is unconditional. -/
theorem c9_sah_strict :
    (∀ (cfg : SBVHConfig) (tris : List Triangle) (r : BuildResult)
        (e : TraceEntry),
      SBVHBuilder.build cfg tris = some r → e ∈ r.trace → e.isLeaf = false →
      e.count ≤ cfg.max_primitives_in_leaf →
      chosenCost e < e.aabb.surface_area * (e.count : ℚ)) ∧
    (∀ (tris : List Triangle) (r : PBuildResult) (e : BTraceEntry)
        (o : ObjectSplit),
      BVHBuilders_build_bvh tris = some r → e ∈ r.trace → e.isLeaf = false →
      e.split = some o → o.cost < e.aabb.surface_area * (e.count : ℚ)) := by
  constructor
  · intro cfg tris r e h he hl hmax
    obtain ⟨o, ho, -, -, -, -, -, hlt⟩ := (SBVH_build_trace_facts h e he).2.1 hl
    exact hlt hmax
  · intro tris r e o h he hl hsp
    obtain ⟨o', ho', -, -, -, hlt⟩ := ((PBVH_build_facts h).2.2 e he).2 hl
    rw [hsp] at ho'
    have : o = o' := Option.some.inj ho'
    rw [this]
    exact hlt

/-- C9 witness: the interior root of the disjoint scene (its count 2 is
within the leaf cap 2, and the chosen cost beats the leaf cost). -/
theorem c9_sah_strict_witness :
    chosenCost eDisjoint <
      eDisjoint.aabb.surface_area * (eDisjoint.count : ℚ) :=
  c9_sah_strict.1 cfg2 sceneDisjoint (buildOf cfg2 sceneDisjoint) eDisjoint
    rfl (by decide) (by decide) (by decide)

/-- C9 counterexample: three coincident degenerate triangles with
`max_primitives_in_leaf = 2`: the root (count 3, above the cap) becomes an
interior node without any leaf/split comparison, and its chosen split cost
0 equals the leaf cost 0 — the strict inequality the original claim
asserts for every interior node fails. -/
theorem c9_sah_strict_counterexample :
    ((rootEntry cfg2 sceneFlat).map (fun e =>
      (e.isLeaf, e.count,
        decide (chosenCost e < e.aabb.surface_area * (e.count : ℚ))))) =
      some (false, 3, false) := by
  decide

/-- C10: confirmed — the overlap ratio computed at every recursive SBVH
call (the valid-overlap surface area of the two object-split child AABBs
times the precomputed inverse root surface area) lies in `[0, 1]`: every
working range only references triangles inside the root box, so the
overlap box is contained in the root box and surface areas are monotone;
the `assert(ratio >= 0.0f && ratio <= 1.0f)` of SBVHBuilder.cpp line 50
never fails. -/
theorem c10_ratio_in_unit (cfg : SBVHConfig) (tris : List Triangle)
    (r : BuildResult) (e : TraceEntry)
    (h : SBVHBuilder.build cfg tris = some r) (he : e ∈ r.trace) :
    0 ≤ e.ratio ∧ e.ratio ≤ 1 :=
  SBVH_build_ratio_all h e he

/-- C10 witness: the disjoint scene's root entry (ratio 0). -/
theorem c10_ratio_in_unit_witness :
    0 ≤ eDisjoint.ratio ∧ eDisjoint.ratio ≤ 1 :=
  c10_ratio_in_unit cfg2 sceneDisjoint (buildOf cfg2 sceneDisjoint) eDisjoint
    rfl (by decide)
